import Mathlib

/-!
# fde-sidekick: the client artifact store and synchronization coordinator

A shallow embedding of `src/src/App.jsx`.  JavaScript strings are Lean strings
(sequences of Unicode scalar values, so strings with unpaired surrogates are
outside the model); wherever the source counts UTF-16 code units (`.length`)
the embedding counts them too (`jsLength`).
-/

namespace FdeSidekick

/-! ## JavaScript strings -/

/-- Code points that `String.prototype.trim` removes and that `\s` matches:
the ECMAScript WhiteSpace and LineTerminator productions. -/
def isJsSpace (c : Char) : Bool :=
  c.toNat = 0x09 || c.toNat = 0x0A || c.toNat = 0x0B || c.toNat = 0x0C ||
  c.toNat = 0x0D || c.toNat = 0x20 || c.toNat = 0xA0 || c.toNat = 0x1680 ||
  (0x2000 ≤ c.toNat && c.toNat ≤ 0x200A) || c.toNat = 0x2028 ||
  c.toNat = 0x2029 || c.toNat = 0x202F || c.toNat = 0x205F ||
  c.toNat = 0x3000 || c.toNat = 0xFEFF

/-- The characters of `s.trim()`. -/
def trimChars (cs : List Char) : List Char :=
  ((cs.dropWhile isJsSpace).reverse.dropWhile isJsSpace).reverse

/-- `s.trim()`. -/
def jsTrim (s : String) : String := ⟨trimChars s.data⟩

/-- `s.length`: the number of UTF-16 code units of `s`. -/
def jsLength (s : String) : Nat :=
  (s.data.map (fun c => if 0x10000 ≤ c.toNat then 2 else 1)).sum

/-- The pieces of `s.split(/\r?\n/)`, as character lists. -/
def splitLineChars : List Char → List (List Char)
  | [] => [[]]
  | '\r' :: '\n' :: rest => [] :: splitLineChars rest
  | '\n' :: rest => [] :: splitLineChars rest
  | c :: rest =>
    match splitLineChars rest with
    | [] => [[c]]
    | l :: ls => (c :: l) :: ls

/-- `s.split(/\r?\n/)`. -/
def splitLines (s : String) : List String :=
  (splitLineChars s.data).map String.mk

/-! ## JavaScript values -/

/-- The values a decoded JSON payload or a spread object can hold.  Numbers are
the integers (printed by `String` as their decimal numeral); an object is its
list of own properties, read by first binding. -/
inductive JsValue where
  | undefined
  | null
  | bool (b : Bool)
  | num (n : Int)
  | str (s : String)
  | arr (items : List JsValue)
  | obj (props : List (String × JsValue))

/-- Truthiness: what `Boolean(v)` returns. -/
def JsValue.truthy : JsValue → Bool
  | .undefined => false
  | .null => false
  | .bool b => b
  | .num n => n != 0
  | .str s => s != ""
  | .arr _ => true
  | .obj _ => true

/-- `typeof v === "object"`. -/
def JsValue.typeofObject : JsValue → Bool
  | .null => true
  | .arr _ => true
  | .obj _ => true
  | _ => false

/-- `typeof v === "string"`. -/
def JsValue.typeofString : JsValue → Bool
  | .str _ => true
  | _ => false

/-- `Array.isArray(v)`. -/
def JsValue.isArray : JsValue → Bool
  | .arr _ => true
  | _ => false

/-- `a || b`. -/
def JsValue.or (a b : JsValue) : JsValue := if a.truthy then a else b

/-- Reading the named property `key` (one of the artifact field names, never an
index or `length`) of a value that is not `null` or `undefined`: the own
property of an object, `undefined` elsewhere. -/
def JsValue.get (v : JsValue) (key : String) : JsValue :=
  match v with
  | .obj props => (props.lookup key).getD .undefined
  | _ => .undefined

mutual
/-- `String(v)`. -/
def JsValue.toJsString : JsValue → String
  | .undefined => "undefined"
  | .null => "null"
  | .bool b => if b then "true" else "false"
  | .num n => toString n
  | .str s => s
  | .arr items => JsValue.joinComma items
  | .obj _ => "[object Object]"
/-- `items.join(",")`: `null` and `undefined` elements print as the empty string. -/
def JsValue.joinComma : List JsValue → String
  | [] => ""
  | [x] => JsValue.joinItem x
  | x :: y :: rest => JsValue.joinItem x ++ "," ++ JsValue.joinComma (y :: rest)
/-- One element of an array being joined. -/
def JsValue.joinItem : JsValue → String
  | .undefined => ""
  | .null => ""
  | .bool b => if b then "true" else "false"
  | .num n => toString n
  | .str s => s
  | .arr items => JsValue.joinComma items
  | .obj _ => "[object Object]"
end

/-! ## The artifact store: normalization -/

/-- The artifact triple held by the client (`artifacts` state). -/
structure Artifacts where
  assistant_response : String
  summary : String
  architecture : String
  next_steps : List String
  deriving DecidableEq, Repr

/-- The constant `INITIAL_ARTIFACTS`. -/
def INITIAL_ARTIFACTS : Artifacts where
  assistant_response := ""
  summary :=
    "## Waiting for input\n\nDescribe your project idea by typing or recording voice to generate live artifacts."
  architecture := "flowchart TD\n  A[Idea] --> B[Architecture]\n  B --> C[Build Plan]"
  next_steps :=
    [ "Describe the problem and who it serves.",
      "List key constraints (time, team size, APIs).",
      "Define first deliverable for the next hour." ]

/-- The function `normalizeNextSteps`. -/
def normalizeNextSteps (nextSteps : JsValue) : List String :=
  match nextSteps with
  | .arr items =>
    (items.map (fun step => jsTrim (step.or (.str "")).toJsString)).filter (fun s => s != "")
  | .str s =>
    ((splitLines s).map (fun line => jsTrim line)).filter (fun s => s != "")
  | _ => INITIAL_ARTIFACTS.next_steps

/-- The function `normalizeArtifacts`. -/
def normalizeArtifacts (rawArtifacts : JsValue) : Artifacts :=
  let safe : JsValue :=
    if rawArtifacts.truthy && rawArtifacts.typeofObject then rawArtifacts else .obj []
  { assistant_response :=
      match safe.get "assistant_response" with
      | .str s => s
      | _ => INITIAL_ARTIFACTS.assistant_response
    summary :=
      match safe.get "summary" with
      | .str s => s
      | _ => INITIAL_ARTIFACTS.summary
    architecture :=
      match safe.get "architecture" with
      | .str s => s
      | _ => INITIAL_ARTIFACTS.architecture
    next_steps := normalizeNextSteps (safe.get "next_steps") }

/-- The field `key` of a candidate payload as a reader of the payload sees
it: the own property when the candidate is an object, absent (`undefined`)
when the candidate is anything else. -/
def candidateField (candidate : JsValue) (key : String) : JsValue :=
  match candidate with
  | .obj props => (props.lookup key).getD .undefined
  | _ => .undefined

/-- A line is blank when it holds nothing but white space. -/
def isBlankLine (line : String) : Bool := line.data.all isJsSpace

/-- ASCII digit, the class `\d`. -/
def isJsDigit (c : Char) : Bool := 0x30 ≤ c.toNat && c.toNat ≤ 0x39

/-- The text after a match of `^([-*]\s+|\d+[.)]\s+|\[\s?\]\s*)` at the start
of `cs`, if the pattern matches there (`updateNextStepsFromText`). -/
def matchListMarker (cs : List Char) : Option (List Char) :=
  let bullet : Option (List Char) :=
    match cs with
    | c :: w :: rest =>
      if (c = '-' || c = '*') && isJsSpace w then some (rest.dropWhile isJsSpace) else none
    | _ => none
  let numbered : Option (List Char) :=
    match cs.dropWhile isJsDigit with
    | c :: w :: rest =>
      if (cs.takeWhile isJsDigit != []) && (c = '.' || c = ')') && isJsSpace w then
        some (rest.dropWhile isJsSpace)
      else none
    | _ => none
  let checkbox : Option (List Char) :=
    match cs with
    | '[' :: ']' :: rest => some (rest.dropWhile isJsSpace)
    | '[' :: w :: ']' :: rest =>
      if isJsSpace w then some (rest.dropWhile isJsSpace) else none
    | _ => none
  (bullet.orElse fun _ => numbered).orElse fun _ => checkbox

/-- `line.replace(/^([-*]\s+|\d+[.)]\s+|\[\s?\]\s*)/, "").trim()`. -/
def stripListMarker (line : String) : String :=
  jsTrim ⟨(matchListMarker line.data).getD line.data⟩

/-! ## Diagram node rename -/

/-- The characters `escapeRegExp` puts a backslash in front of: the class
`[.*+?^${}()|[\]\\]`. -/
def isRegExpSpecial (c : Char) : Bool :=
  c = '.' || c = '*' || c = '+' || c = '?' || c = '^' || c = '$' || c = '{' ||
  c = '}' || c = '(' || c = ')' || c = '|' || c = '[' || c = ']' || c = '\\'

/-- The characters of `escapeRegExp(value)`. -/
def escapeRegExpChars : List Char → List Char
  | [] => []
  | c :: rest =>
    if isRegExpSpecial c then '\\' :: c :: escapeRegExpChars rest
    else c :: escapeRegExpChars rest

/-- The function `escapeRegExp`. -/
def escapeRegExp (value : String) : String := ⟨escapeRegExpChars value.data⟩

/-- The pattern atoms that occur in the expressions `replaceFirstArchitectureLabel`
builds: one literal character, or the greedy `\s*`. -/
inductive Atom where
  | lit (c : Char)
  | spaces
  deriving DecidableEq, Repr

/-- Reading a pattern source as `new RegExp(source)` does, for the fragment in
use: `\s*`, a backslash followed by a special character (that character,
literally), and characters that are not special (themselves).  Any other
syntax is outside the fragment (`none`). -/
def parseRegExp : List Char → Option (List Atom)
  | [] => some []
  | c :: rest =>
    if c = '\\' then
      match rest with
      | [] => none
      | d :: rest₁ =>
        if d = 's' then
          match rest₁ with
          | [] => none
          | e :: rest₂ =>
            if e = '*' then (parseRegExp rest₂).map (Atom.spaces :: ·) else none
        else if isRegExpSpecial d then (parseRegExp rest₁).map (Atom.lit d :: ·)
        else none
    else if isRegExpSpecial c then none
    else (parseRegExp rest).map (Atom.lit c :: ·)

/-- Greedy `\s*` followed by the continuation `k`: the longest run of white
space is tried first, then shorter ones (backtracking). -/
def matchSpaces (k : List Char → Option (List Char)) : List Char → Option (List Char)
  | [] => k []
  | x :: s =>
    if isJsSpace x then
      match matchSpaces k s with
      | some rest => some rest
      | none => k (x :: s)
    else k (x :: s)

/-- Matching a pattern at the start of the text: the text left after the
match, if there is one. -/
def matchAtoms : List Atom → List Char → Option (List Char)
  | [], s => some s
  | Atom.lit c :: pattern, s =>
    match s with
    | x :: rest => if x = c then matchAtoms pattern rest else none
    | [] => none
  | Atom.spaces :: pattern, s => matchSpaces (fun t => matchAtoms pattern t) s

/-- The leftmost match of the pattern in the text replaced by `replacement`
(`text.replace(regex, () => replacement)` for a regex without flags); `none`
when `regex.test(text)` is false. -/
def replaceFirstMatch (pattern : List Atom) (replacement : List Char) :
    List Char → Option (List Char)
  | [] => (matchAtoms pattern []).map (fun rest => replacement ++ rest)
  | c :: s =>
    match matchAtoms pattern (c :: s) with
    | some rest => some (replacement ++ rest)
    | none => (replaceFirstMatch pattern replacement s).map (c :: ·)

/-- The first occurrence of `current` (found by `indexOf`) replaced by
`replacement`; `none` when `indexOf` returns -1. -/
def replaceFirstPlain (current replacement : List Char) : List Char → Option (List Char)
  | [] => if current = [] then some replacement else none
  | c :: s =>
    if current.isPrefixOf (c :: s) then some (replacement ++ (c :: s).drop current.length)
    else (replaceFirstPlain current replacement s).map (c :: ·)

/-- The `patterns` table of `replaceFirstArchitectureLabel`: the source of each
regular expression, given the escaped label, and the delimiters its `wrap` puts
around the replacement. -/
def architecturePatterns (escaped : String) : List (String × String × String) :=
  [ ("\\[\\s*" ++ escaped ++ "\\s*\\]", "[", "]"),
    ("\\(\\(\\s*" ++ escaped ++ "\\s*\\)\\)", "((", "))"),
    ("\\[\\[\\s*" ++ escaped ++ "\\s*\\]\\]", "[[", "]]"),
    ("\\(\\s*" ++ escaped ++ "\\s*\\)", "(", ")"),
    ("\\\x7b\\s*" ++ escaped ++ "\\s*\\\x7d", "\x7b", "\x7d"),
    ("\"\\s*" ++ escaped ++ "\\s*\"", "\"", "\"") ]

/-- One round of the `for` loop over `patterns`: the source with the first match
of this pattern replaced by the wrapped replacement, if the pattern matches. -/
def tryPattern (source replacement : String) (entry : String × String × String) :
    Option String :=
  (parseRegExp entry.1.data).bind fun pattern =>
    (replaceFirstMatch pattern (entry.2.1 ++ replacement ++ entry.2.2).data source.data).map
      String.mk

/-- The function `replaceFirstArchitectureLabel`, for labels that are strings. -/
def replaceFirstArchitectureLabel (source oldLabel newLabel : String) : String :=
  let current := jsTrim oldLabel
  let replacement := jsTrim newLabel
  if current = "" || replacement = "" || current = replacement then source
  else
    match (architecturePatterns (escapeRegExp current)).findSome?
        (tryPattern source replacement) with
    | some replaced => replaced
    | none =>
      match replaceFirstPlain current.data replacement.data source.data with
      | some replaced => ⟨replaced⟩
      | none => source

/-- The pattern `\[\s*label\s*\]` as atoms. -/
def squarePattern (label : List Char) : List Atom :=
  Atom.lit '[' :: Atom.spaces :: (label.map Atom.lit ++ [Atom.spaces, Atom.lit ']'])

/-- The text contains a square-bracketed occurrence of the label: `[`, white
space or none, the label, white space or none, `]`. -/
def HasSquareOccurrence (label text : List Char) : Prop :=
  ∃ a w₁ w₂ b, text = a ++ '[' :: (w₁ ++ (label ++ (w₂ ++ ']' :: b))) ∧
    (∀ c ∈ w₁, isJsSpace c = true) ∧ (∀ c ∈ w₂, isJsSpace c = true)

/-! ## The client: state, handlers and steps

The component `App` is embedded as a state record and one function per handler.
React state (`useState`) and mutable refs (`useRef`) are fields of the record.
The three refs that mirror state (`messagesRef`, `liveTranscriptRef`,
`liveAssistantPreviewRef`) are written by effects, that is after a render: a
step of the model runs one handler, or one resumption of an `async` function up
to its next network wait, on the refs as they stand, and then renders.  The
outstanding regeneration calls (`fetch("/api/sidekick")` issued by
`requestSidekick` and not yet settled) are kept in `calls`, each with what its
resumption needs.  State that only drives the display (`activeTab`,
`isTranscribing`, `health`, ...) is left out.
-/

/-- The `role` of a chat message. -/
inductive Role where
  | user
  | assistant
  deriving DecidableEq, Repr

/-- One entry of `messages`. -/
structure Message where
  role : Role
  content : JsValue

/-- How a call of `requestSidekick` settles: with the decoded body of an `ok`
response, or by throwing an `Error` with a message. -/
inductive CallResult where
  | ok (payload : JsValue)
  | error (message : String)

/-- An outstanding regeneration call: the one `runTurn(nextMessages)` awaits, or
the one `flushLiveUpdates(force)` awaits; `stopFinal` is the `finalTranscript`
of the `stopRecording` that awaits this flush, if one does. -/
inductive Call where
  | turn (nextMessages : List Message)
  | refresh (messages : List Message) (transcript : String) (force : Bool)
      (stopFinal : Option String)

/-- Whether the call is a refresh. -/
def Call.isRefresh : Call → Bool
  | .refresh _ _ _ _ => true
  | .turn _ => false

/-- The `liveTranscript` of the request body of the call: `requestSidekick` is
given the transcript by `flushLiveUpdates` and defaults it to `""` for
`runTurn`. -/
def Call.liveTranscript : Call → String
  | .refresh _ transcript _ _ => transcript
  | .turn _ => ""

/-- How a run of `transcribeChunk` ends: nothing recorded (empty blob), a thrown
error, or a response whose `String(payload?.text || "")` is `raw`. -/
inductive TranscribeOutcome where
  | noAudio
  | failed (message : String)
  | text (raw : String)

/-- The state of the component. -/
structure AppState where
  recorderSupported : Bool
  messages : List Message
  input : String
  artifacts : Artifacts
  error : String
  isGenerating : Bool
  isLiveUpdating : Bool
  isRecording : Bool
  isRequestingMic : Bool
  micError : String
  liveTranscript : String
  liveAssistantPreview : JsValue
  messagesRef : List Message
  liveTranscriptRef : String
  liveAssistantPreviewRef : JsValue
  pendingLiveRef : String
  generatingRef : Bool
  liveInFlightRef : Bool
  lastLiveRefreshRef : String
  calls : List Call
  stopsDraining : Nat

/-- The effects that copy state into the mirror refs after a render. -/
def render (s : AppState) : AppState :=
  { s with
    messagesRef := s.messages
    liveTranscriptRef := s.liveTranscript
    liveAssistantPreviewRef := s.liveAssistantPreview }

/-- The state after mount: `saved` is the decoded content of local storage, if
any could be read (`loadSavedArtifacts`). -/
def initialState (recorderSupported : Bool) (saved : Option JsValue) : AppState :=
  render
    { recorderSupported := recorderSupported
      messages :=
        [⟨.assistant, .str
          "Describe your project and I will build a live summary, architecture sketch, and next-step plan."⟩]
      input := ""
      artifacts :=
        match saved with
        | some raw => normalizeArtifacts raw
        | none => INITIAL_ARTIFACTS
      error := ""
      isGenerating := false
      isLiveUpdating := false
      isRecording := false
      isRequestingMic := false
      micError := ""
      liveTranscript := ""
      liveAssistantPreview := .str ""
      messagesRef := []
      liveTranscriptRef := ""
      liveAssistantPreviewRef := .str ""
      pendingLiveRef := ""
      generatingRef := false
      liveInFlightRef := false
      lastLiveRefreshRef := ""
      calls := []
      stopsDraining := 0 }

/-- The transcript a refresh request works on:
`(pendingLiveRef.current || liveTranscriptRef.current).trim()`. -/
def selectedTranscript (s : AppState) : String :=
  jsTrim (if s.pendingLiveRef != "" then s.pendingLiveRef else s.liveTranscriptRef)

/-- The function `flushLiveUpdates(force)` up to its network wait; the flag
tells whether a call was issued (otherwise the function has returned
`undefined`). -/
def flushLiveUpdates (force : Bool) (stopFinal : Option String) (s : AppState) :
    AppState × Bool :=
  if s.liveInFlightRef || s.generatingRef then (s, false)
  else
    let transcript := selectedTranscript s
    let s1 := { s with pendingLiveRef := "" }
    if jsLength transcript < 12 then (s1, false)
    else if !force && transcript = s.lastLiveRefreshRef then (s1, false)
    else
      ({ s1 with
          liveInFlightRef := true
          isLiveUpdating := true
          calls := s1.calls ++ [Call.refresh s.messagesRef transcript force stopFinal] },
        true)

/-- The message of the `TypeError` thrown by reading a property of `null` or
`undefined` (its wording depends on the engine). -/
def typeErrorMessage : String := "TypeError"

/-- `payload?.assistant_response`. -/
def optionalAssistantResponse (payload : JsValue) : JsValue :=
  match payload with
  | .undefined => .undefined
  | .null => .undefined
  | p => p.get "assistant_response"

/-- The end of `stopRecording`, after `await flushLiveUpdates(true)` returned
`finalPayload`. -/
def finishStop (finalTranscript : String) (finalPayload : JsValue) (s : AppState) : AppState :=
  let nextMessages := s.messagesRef ++ [⟨.user, .str finalTranscript⟩]
  let preview :=
    jsTrim ((optionalAssistantResponse finalPayload).or s.liveAssistantPreviewRef).toJsString
  { s with
    messages :=
      if preview != "" then nextMessages ++ [⟨.assistant, .str preview⟩] else nextMessages }

/-- The function `runTurn(nextMessages)` up to its network wait. -/
def runTurn (nextMessages : List Message) (s : AppState) : AppState :=
  { s with
    error := ""
    isGenerating := true
    generatingRef := true
    calls := s.calls ++ [Call.turn nextMessages] }

/-- The rest of `runTurn` once its call has settled. -/
def resumeTurn (nextMessages : List Message) (result : CallResult) (s : AppState) : AppState :=
  let s1 : AppState :=
    match result with
    | .ok payload =>
      let s2 := { s with artifacts := normalizeArtifacts payload }
      match payload with
      | .undefined => { s2 with error := typeErrorMessage }
      | .null => { s2 with error := typeErrorMessage }
      | p =>
        if (p.get "assistant_response").truthy then
          { s2 with messages := nextMessages ++ [⟨.assistant, p.get "assistant_response"⟩] }
        else s2
    | .error message => { s with error := message }
  let s3 := { s1 with generatingRef := false, isGenerating := false }
  if s3.pendingLiveRef != "" then (flushLiveUpdates false none s3).1 else s3

/-- The rest of `flushLiveUpdates` once its call has settled, followed by the
end of `stopRecording` when that function was awaiting the flush. -/
def resumeRefresh (transcript : String) (stopFinal : Option String) (result : CallResult)
    (s : AppState) : AppState :=
  let outcome : AppState × JsValue :=
    match result with
    | .ok payload =>
      let s2 := { s with artifacts := normalizeArtifacts payload }
      match payload with
      | .undefined => ({ s2 with error := typeErrorMessage }, .undefined)
      | .null => ({ s2 with error := typeErrorMessage }, .undefined)
      | p =>
        ({ s2 with
            liveAssistantPreview := (p.get "assistant_response").or (.str "")
            lastLiveRefreshRef := transcript },
          p)
    | .error message => ({ s with error := message }, .undefined)
  let s3 := { outcome.1 with liveInFlightRef := false, isLiveUpdating := false }
  match stopFinal with
  | some finalTranscript => finishStop finalTranscript outcome.2 s3
  | none => s3

/-- The function `handleSend`. -/
def handleSend (s : AppState) : AppState :=
  let trimmed := jsTrim s.input
  if trimmed = "" || s.isGenerating || s.isRecording then s
  else
    let nextMessages := s.messagesRef ++ [⟨.user, .str trimmed⟩]
    runTurn nextMessages { s with messages := nextMessages, input := "" }

/-- The callback of the refresh interval, which exists while `isRecording`. -/
def refreshTick (s : AppState) : AppState :=
  if s.isRecording then
    (flushLiveUpdates false none { s with pendingLiveRef := jsTrim s.liveTranscriptRef }).1
  else s

/-- The function `transcribeChunk` from the settling of its request on. -/
def applyTranscription (outcome : TranscribeOutcome) (s : AppState) : AppState :=
  match outcome with
  | .noAudio => s
  | .failed message => { s with micError := "Transcription failed: " ++ message }
  | .text raw =>
    let text := jsTrim raw
    if text = "" then s
    else if text = jsTrim s.liveTranscriptRef then s
    else { s with micError := "", liveTranscript := text, pendingLiveRef := text }

/-- The function `startRecording` up to `await getUserMedia`. -/
def startRecording (s : AppState) : AppState :=
  if !s.recorderSupported || s.isRecording || s.isGenerating || s.isRequestingMic then s
  else
    { s with
      micError := ""
      error := ""
      liveAssistantPreview := .str ""
      liveTranscript := ""
      pendingLiveRef := ""
      lastLiveRefreshRef := ""
      isRequestingMic := true }

/-- The rest of `startRecording` when the microphone stream is obtained. -/
def micGranted (s : AppState) : AppState :=
  if s.isRequestingMic then { s with isRecording := true, isRequestingMic := false } else s

/-- The rest of `startRecording` when `getUserMedia` throws. -/
def micDenied (message : String) (s : AppState) : AppState :=
  if s.isRequestingMic then { s with micError := message, isRequestingMic := false } else s

/-- The function `stopRecording` up to its first `await`. -/
def stopRecording (s : AppState) : AppState :=
  if s.isRecording then { s with isRecording := false, stopsDraining := s.stopsDraining + 1 }
  else s

/-- The function `stopRecording` from the return of its last `transcribeChunk`
(whose outcome is `residual`) up to the network wait of the forced flush, or to
its end when the flush issues no call.  The resumption follows that
`transcribeChunk` without a render in between, so `liveTranscriptRef` is read
as it stood before a transcript set by `residual`. -/
def stopDrained (residual : TranscribeOutcome) (s : AppState) : AppState :=
  if s.stopsDraining = 0 then s
  else
    let s1 := applyTranscription residual { s with stopsDraining := s.stopsDraining - 1 }
    let finalTranscript := jsTrim s1.liveTranscriptRef
    let s2 := { s1 with pendingLiveRef := finalTranscript }
    if finalTranscript = "" then s2
    else
      match flushLiveUpdates true (some finalTranscript) s2 with
      | (s3, true) => s3
      | (s3, false) => finishStop finalTranscript .undefined s3

/-- The object `{ ...current, [key]: value }`. -/
def spreadArtifacts (current : Artifacts) (key : String) (value : JsValue) : JsValue :=
  .obj
    [ (key, value),
      ("assistant_response", .str current.assistant_response),
      ("summary", .str current.summary),
      ("architecture", .str current.architecture),
      ("next_steps", .arr (current.next_steps.map JsValue.str)) ]

/-- The function `updateArtifactField`. -/
def updateArtifactField (field : String) (value : JsValue) (s : AppState) : AppState :=
  { s with artifacts := normalizeArtifacts (spreadArtifacts s.artifacts field value) }

/-- The function `updateNextStepsFromText`. -/
def updateNextStepsFromText (text : String) (s : AppState) : AppState :=
  let parsed :=
    (((splitLines text).map jsTrim).map stripListMarker).filter (fun line => line != "")
  { s with
    artifacts :=
      normalizeArtifacts (spreadArtifacts s.artifacts "next_steps" (.arr (parsed.map JsValue.str))) }

/-- The function `handleArchitectureNodeRename`; `answer` is what
`window.prompt` returned (`none` for `null`). -/
def handleArchitectureNodeRename (currentLabel : String) (answer : Option String)
    (s : AppState) : AppState :=
  let label := jsTrim currentLabel
  if label = "" then s
  else
    match answer with
    | none => s
    | some nextLabel =>
      let cleaned := jsTrim nextLabel
      if cleaned = "" || cleaned = label then s
      else
        let updatedArchitecture :=
          replaceFirstArchitectureLabel s.artifacts.architecture label cleaned
        if updatedArchitecture = s.artifacts.architecture then s
        else
          { s with
            artifacts :=
              normalizeArtifacts
                (spreadArtifacts s.artifacts "architecture" (.str updatedArchitecture)) }

/-- What can happen to the component. -/
inductive Event where
  | setInput (text : String)
  | handleSend
  | startRecording
  | micGranted
  | micDenied (message : String)
  | transcribed (outcome : TranscribeOutcome)
  | refreshTick
  | stopRecording
  | stopDrained (residual : TranscribeOutcome)
  | settle (index : Nat) (result : CallResult)
  | updateArtifactField (field : String) (value : JsValue)
  | updateNextStepsFromText (text : String)
  | renameNode (currentLabel : String) (answer : Option String)

/-- The settling of the outstanding call at position `index` of `calls`. -/
def settle (index : Nat) (result : CallResult) (s : AppState) : AppState :=
  match s.calls.get? index with
  | none => s
  | some (Call.turn nextMessages) =>
    resumeTurn nextMessages result { s with calls := s.calls.eraseIdx index }
  | some (Call.refresh _ transcript _ stopFinal) =>
    resumeRefresh transcript stopFinal result { s with calls := s.calls.eraseIdx index }

/-- One step: the handler of the event, then a render. -/
def step (s : AppState) (e : Event) : AppState :=
  render <|
    match e with
    | .setInput text => { s with input := text }
    | .handleSend => handleSend s
    | .startRecording => startRecording s
    | .micGranted => micGranted s
    | .micDenied message => micDenied message s
    | .transcribed outcome => applyTranscription outcome s
    | .refreshTick => refreshTick s
    | .stopRecording => stopRecording s
    | .stopDrained residual => stopDrained residual s
    | .settle index result => settle index result s
    | .updateArtifactField field value => updateArtifactField field value s
    | .updateNextStepsFromText text => updateNextStepsFromText text s
    | .renameNode currentLabel answer => handleArchitectureNodeRename currentLabel answer s

/-- The state after a sequence of events. -/
def run (s : AppState) (events : List Event) : AppState := events.foldl step s

/-- The states the component can be in: those a sequence of events leads to
from a mount. -/
def Reachable (s : AppState) : Prop :=
  ∃ (recorderSupported : Bool) (saved : Option JsValue) (events : List Event),
    s = run (initialState recorderSupported saved) events

/-! ## Scenarios -/

/-- A payload as `/api/sidekick` returns it with status 200. -/
def samplePayload : JsValue :=
  .obj
    [ ("assistant_response", .str "Noted."),
      ("summary", .str "## Plan"),
      ("architecture", .str "flowchart TD\n  A[App] --> B[Queue]"),
      ("next_steps", .arr [.str "one", .str "two", .str "three"]) ]

/-- Recording has started and a first transcript, long enough for a refresh,
has arrived. -/
def recordingState : AppState :=
  run (initialState true none)
    [.startRecording, .micGranted, .transcribed (.text "a long enough transcript")]

/-- Recording has started and the only transcript so far is a short one. -/
def shortTranscriptState : AppState :=
  run (initialState true none)
    [.startRecording, .micGranted, .transcribed (.text "short one")]

/-- While recording, a refresh for the current transcript has been applied, so
the fingerprint equals the transcript. -/
def refreshedState : AppState :=
  run recordingState [.refreshTick, .settle 0 (.ok samplePayload)]

/-- While recording, a refresh is outstanding and a newer transcript has
arrived in the meantime. -/
def pendingDuringRefreshState : AppState :=
  run recordingState
    [.refreshTick, .transcribed (.text "a long enough transcript, and then some more")]

/-- Recording was stopped, the forced refresh of the final transcript is
outstanding, and the user has typed a message. -/
def stoppedWithRefreshState : AppState :=
  run recordingState
    [.stopRecording, .stopDrained (.text "a long enough transcript"), .setInput "hello"]

/-- Recording was stopped and the forced refresh of the final transcript has
been applied, so the fingerprint is that transcript. -/
def stoppedRefreshedState : AppState :=
  run recordingState
    [.stopRecording, .stopDrained (.text "a long enough transcript"),
      .settle 0 (.ok samplePayload)]

/-! ## Diagram node rename: delimited forms -/

/-- The pattern `opening\s*label\s*closing` as atoms, every character of the
delimiters and of the label standing for itself. -/
def delimitedPattern (opening closing label : List Char) : List Atom :=
  opening.map Atom.lit ++
    Atom.spaces :: (label.map Atom.lit ++ Atom.spaces :: closing.map Atom.lit)

/-- The text starts with a delimited occurrence of the label: the opening
delimiter, white space or none, the label, white space or none, the closing
delimiter. -/
def StartsWithForm (opening closing label text : List Char) : Prop :=
  ∃ w₁ w₂ rest, text = opening ++ (w₁ ++ (label ++ (w₂ ++ (closing ++ rest)))) ∧
    (∀ c ∈ w₁, isJsSpace c = true) ∧ (∀ c ∈ w₂, isJsSpace c = true)

/-- The delimited form of the label occurs somewhere in the text. -/
def FormOccurs (opening closing label text : List Char) : Prop :=
  ∃ before t, text = before ++ t ∧ StartsWithForm opening closing label t

/-! ## The server: decoding the model's answer

The functions of `src/server/index.js` that turn the text returned by the
generation service into an artifact triple, and the `/api/sidekick` handler.
`JSON.parse` is a parameter `jsonParse` (`none` when it throws).  Positions in
a text are counted in characters; `indexOf`, `lastIndexOf` and `slice` are only
used on the positions of `{` and `}`, where that gives the same order and the
same slice as UTF-16 positions.
-/

namespace Server

/-- The fence mark, three backticks. -/
def fenceMark : List Char := ['`', '`', '`']

/-- Whether the text goes on with `json`, in any letter case (`(?:json)` under
the flag `i`). -/
def startsWithJsonWord (cs : List Char) : Bool :=
  match cs with
  | a :: b :: c :: d :: _ =>
    (a = 'j' || a = 'J') && (b = 's' || b = 'S') && (c = 'o' || c = 'O') && (d = 'n' || d = 'N')
  | _ => false

/-- The replacement of the first match of the pattern that starts with the
fence mark, an optional `json` and white space, by nothing:
`replace(/^[fence](?:json)?\s*/i, "")`. -/
def stripOpeningFence (cs : List Char) : List Char :=
  if fenceMark.isPrefixOf cs then
    (if startsWithJsonWord (cs.drop 3) then (cs.drop 3).drop 4 else cs.drop 3).dropWhile isJsSpace
  else cs

/-- The replacement of white space followed by the fence mark at the very end
by nothing: `replace(/\s*[fence]$/i, "")`. -/
def stripClosingFence (cs : List Char) : List Char :=
  if fenceMark.isPrefixOf cs.reverse then
    ((cs.reverse.drop 3).dropWhile isJsSpace).reverse
  else cs

/-- The function `stripCodeFence`, for a text (`String(rawText || "")` is the
text itself). -/
def stripCodeFence (rawText : String) : String :=
  let text := jsTrim rawText
  if fenceMark.isPrefixOf text.data then
    jsTrim ⟨stripClosingFence (stripOpeningFence text.data)⟩
  else text

/-- The characters of the class `[-*\d.\s]`. -/
def isMarkerChar (c : Char) : Bool :=
  c = '-' || c = '*' || isJsDigit c || c = '.' || isJsSpace c

/-- The server's function `normalizeNextSteps`. -/
def normalizeNextSteps (value : JsValue) : List String :=
  match value with
  | .arr items =>
    (items.map (fun item => jsTrim item.toJsString)).filter (fun s => s != "")
  | .str s =>
    ((splitLines s).map
      (fun line => jsTrim ⟨line.data.dropWhile isMarkerChar⟩)).filter (fun s => s != "")
  | _ => []

/-- `text.indexOf(c)`: `none` stands for -1. -/
def indexOfChar (c : Char) : List Char → Option Nat
  | [] => none
  | x :: rest => if x = c then some 0 else (indexOfChar c rest).map (· + 1)

/-- `text.lastIndexOf(c)`: `none` stands for -1. -/
def lastIndexOfChar (c : Char) (cs : List Char) : Option Nat :=
  (indexOfChar c cs.reverse).map (fun i => cs.length - 1 - i)

/-- How `parseSidekickPayload` can throw: its own
`Error("Model response was not valid JSON.")`, the `SyntaxError` of the second
`JSON.parse`, the `TypeError` of reading a property of `null`, and the
`ZodError` of the schema. -/
inductive PayloadError where
  | notJson
  | syntaxError
  | typeError
  | zodError
  deriving DecidableEq, Repr

/-- The `try`/`catch` of `parseSidekickPayload`: the decoded value of the
cleaned text, or of its slice from the first `{` to the last `}`. -/
def decodeJson (jsonParse : String → Option JsValue) (cleaned : String) :
    Except PayloadError JsValue :=
  match jsonParse cleaned with
  | some parsed => .ok parsed
  | none =>
    match indexOfChar '{' cleaned.data, lastIndexOfChar '}' cleaned.data with
    | some firstBrace, some lastBrace =>
      if lastBrace ≤ firstBrace then .error .notJson
      else
        match jsonParse ⟨(cleaned.data.take (lastBrace + 1)).drop firstBrace⟩ with
        | some parsed => .ok parsed
        | none => .error .syntaxError
    | _, _ => .error .notJson

/-- `a ?? b`. -/
def nullish (a b : JsValue) : JsValue :=
  match a with
  | .undefined => b
  | .null => b
  | v => v

/-- The object `normalized` of `parseSidekickPayload`, for a decoded value that
is not `null`. -/
def normalizePayload (parsed : JsValue) : Artifacts where
  assistant_response := jsTrim (nullish (parsed.get "assistant_response") (.str "")).toJsString
  summary := jsTrim (nullish (parsed.get "summary") (.str "")).toJsString
  architecture := jsTrim (nullish (parsed.get "architecture") (.str "")).toJsString
  next_steps := normalizeNextSteps (parsed.get "next_steps")

/-- Whether `SidekickResponseSchema.parse` accepts the object: three strings of
length at least 1 and between 3 and 20 steps, each of length at least 1. -/
def SidekickResponseSchema (normalized : Artifacts) : Bool :=
  normalized.assistant_response != "" && normalized.summary != "" &&
  normalized.architecture != "" &&
  normalized.next_steps.all (fun step => step != "") &&
  decide (3 ≤ normalized.next_steps.length) && decide (normalized.next_steps.length ≤ 20)

/-- The function `parseSidekickPayload`. -/
def parseSidekickPayload (jsonParse : String → Option JsValue) (rawText : String) :
    Except PayloadError Artifacts :=
  match decodeJson jsonParse (stripCodeFence rawText) with
  | .error e => .error e
  | .ok .null => .error .typeError
  | .ok .undefined => .error .typeError
  | .ok parsed =>
    if SidekickResponseSchema (normalizePayload parsed) then .ok (normalizePayload parsed)
    else .error .zodError

/-- What `getSafeApiError` returns. -/
structure SafeApiError where
  error : String
  details : String
  status : Nat
  deriving DecidableEq, Repr

/-- The function `getSafeApiError`: `status` is `error.status` when that is a
number, `message` is `error.message` when the error is an `Error`. -/
def getSafeApiError (status : Option Int) (message : Option String)
    (fallbackMessage : String) : SafeApiError :=
  if status = some 401 then
    { error := "OpenAI authentication failed."
      details := "Check OPENAI_API_KEY in .env and restart the server."
      status := 401 }
  else if status = some 429 then
    { error := "OpenAI rate limit reached."
      details := "Wait a moment and retry."
      status := 429 }
  else
    { error := fallbackMessage
      details := message.getD fallbackMessage
      status := 500 }

/-- Whether `MessageSchema` accepts the value. -/
def MessageSchema (value : JsValue) : Bool :=
  match value with
  | .obj props =>
    (match (JsValue.obj props).get "role" with
      | .str role => role = "user" || role = "assistant"
      | _ => false) &&
    (match (JsValue.obj props).get "content" with
      | .str content => decide (1 ≤ jsLength content) && decide (jsLength content ≤ 12000)
      | _ => false)
  | _ => false

/-- Whether `SidekickRequestSchema.parse` accepts the request body. -/
def SidekickRequestSchema (body : JsValue) : Bool :=
  match body with
  | .obj props =>
    (match (JsValue.obj props).get "messages" with
      | .undefined => true
      | .arr items => items.all MessageSchema
      | _ => false) &&
    (match (JsValue.obj props).get "liveTranscript" with
      | .undefined => true
      | .str text => decide (jsLength text ≤ 12000)
      | _ => false)
  | _ => false

/-- How the call of the generation service ends: rejected with an error, whose
`status` (when a number) and `message` are kept, or resolved with the content
of the first choice (`none` when it is `null` or missing). -/
inductive Completion where
  | rejected (status : Option Int) (message : Option String)
  | resolved (content : Option String)

/-- The response of a handler: its status and, with status 200, its body. -/
structure Response where
  status : Nat
  payload : Option Artifacts
  deriving DecidableEq, Repr

/-- The message of each error `parseSidekickPayload` throws other than the
`ZodError` (the wording of the two built-in errors depends on the engine). -/
def PayloadError.message : PayloadError → String
  | .notJson => "Model response was not valid JSON."
  | .syntaxError => "SyntaxError"
  | .typeError => "TypeError"
  | .zodError => "ZodError"

/-- The handler of `POST /api/sidekick`. -/
def sidekickHandler (jsonParse : String → Option JsValue) (hasApiKey : Bool)
    (body : JsValue) (completion : Completion) : Response :=
  if !hasApiKey then ⟨500, none⟩
  else if !SidekickRequestSchema body then ⟨400, none⟩
  else
    match completion with
    | .rejected status message =>
      ⟨(getSafeApiError status message "Artifact generation failed.").status, none⟩
    | .resolved content =>
      match parseSidekickPayload jsonParse (content.getD "\x7b\x7d") with
      | .ok sidekickPayload => ⟨200, some sidekickPayload⟩
      | .error .zodError => ⟨422, none⟩
      | .error e =>
        ⟨(getSafeApiError none (some e.message) "Artifact generation failed.").status, none⟩

/-- The JSON text of `samplePayload`. -/
def sampleJson : String :=
  "\x7b\"assistant_response\":\"Noted.\",\"summary\":\"## Plan\",\"architecture\":\"flowchart TD\\n  A[App] --> B[Queue]\",\"next_steps\":[\"one\",\"two\",\"three\"]\x7d"

/-- A decoder for the scenarios: it agrees with `JSON.parse` on the texts they
use, the JSON text of `samplePayload`, an object with a summary only, and
prose that is no JSON text. -/
def scenarioParse (text : String) : Option JsValue :=
  if text = sampleJson then some samplePayload
  else if text = "\x7b\"summary\":\"Only a summary\"\x7d" then
    some (.obj [("summary", .str "Only a summary")])
  else none

end Server

namespace Server

/-- The first occurrence of `c` in the text is at position `i`. -/
def FirstAt (c : Char) (cs : List Char) (i : Nat) : Prop :=
  ∃ a r, cs = a ++ c :: r ∧ c ∉ a ∧ a.length = i

/-- The last occurrence of `c` in the text is at position `i`. -/
def LastAt (c : Char) (cs : List Char) (i : Nat) : Prop :=
  ∃ a r, cs = a ++ c :: r ∧ c ∉ r ∧ a.length = i

/-- The text has no `{`, has no `}`, or its last `}` comes before its first
`{`. -/
def BracesUnusable (cs : List Char) : Prop :=
  '{' ∉ cs ∨ '}' ∉ cs ∨ ∃ i k, FirstAt '{' cs i ∧ LastAt '}' cs k ∧ k < i

/-- No character of the text is a brace. -/
def NoBrace (cs : List Char) : Prop := ∀ c ∈ cs, c ≠ '{' ∧ c ≠ '}'

/-- The text `out` is `cs` without a prefix and a suffix that hold no brace. -/
def TrimsTo (cs out : List Char) : Prop :=
  ∃ p q, cs = p ++ (out ++ q) ∧ NoBrace p ∧ NoBrace q

end Server

/-- Recording was stopped, a turn was sent while the forced refresh was
outstanding, and the refresh has settled: `stopRecording` has appended the
final transcript and the preview to the history, and the turn is still
outstanding. -/
def turnDuringStopState : AppState :=
  run stoppedWithRefreshState [.handleSend, .settle 0 (.ok samplePayload)]

/-- The history as roles and texts. -/
def historyOf (s : AppState) : List (Role × String) :=
  s.messages.map (fun m => (m.role, m.content.toJsString))

/-! ## The transcription queue

The promise chain of `recorder.ondataavailable` and the runs of
`transcribeChunk`.  A job is one run of `transcribeChunk`, numbered in the order
in which the runs were chained; a run makes a transcription call unless the
recorded audio is empty, in which case it returns at once.  `transcribeChunk`
catches every error of its call, so the promise of a run resolves whether the
call succeeded or failed, and the next callback of the chain runs then.
-/

/-- One chain `queue.then(() => transcribeChunk()).catch(() => {})`: the job
whose transcription call is outstanding, if any, and the jobs chained behind
it, in order. -/
structure Chain where
  running : Option Nat
  waiting : List Nat
  deriving DecidableEq, Repr

/-- The recording state the queue depends on: the number of chunks in
`audioChunksRef`, the chain `transcribeQueueRef` points to, the chains that
`startRecording` has replaced, the number of jobs chained so far, and the log of
the jobs started, of the jobs settled, and of the jobs whose call threw (the
`catch` of `transcribeChunk` then sets `micError`), in order. -/
structure QueueState where
  isRecording : Bool
  audioChunksRef : Nat
  chained : Nat
  transcribeQueueRef : Chain
  replaced : List Chain
  started : List Nat
  settled : List Nat
  failed : List Nat
  deriving DecidableEq, Repr

/-- The state after mount. -/
def initialQueue : QueueState where
  isRecording := false
  audioChunksRef := 0
  chained := 0
  transcribeQueueRef := ⟨none, []⟩
  replaced := []
  started := []
  settled := []
  failed := []

/-- The callbacks of a chain that run once nothing of the chain is running: with
audio, the first waiting job starts its call; without audio every waiting job
runs and returns at once.  The result is the chain, the jobs started and the
jobs settled. -/
def advance (audioChunks : Nat) (c : Chain) : Chain × List Nat × List Nat :=
  match c.running with
  | some _ => (c, [], [])
  | none =>
    match c.waiting with
    | [] => (c, [], [])
    | job :: rest =>
      if audioChunks = 0 then (⟨none, []⟩, job :: rest, job :: rest)
      else (⟨some job, rest⟩, [job], [])

/-- A new job is chained on `transcribeQueueRef` (or awaited behind it, as
`stopRecording` does for its last pass). -/
def chainJob (s : QueueState) : QueueState :=
  let r := advance s.audioChunksRef
    { s.transcribeQueueRef with waiting := s.transcribeQueueRef.waiting ++ [s.chained] }
  { s with
    chained := s.chained + 1
    transcribeQueueRef := r.1
    started := s.started ++ r.2.1
    settled := s.settled ++ r.2.2 }

/-- What happens to the queue: a recording session starts (the microphone is
granted), the recorder delivers a segment of the given size, recording is
stopped (the last segment has been delivered before), the call of a chain
settles, with success or with an error (chain 0 is `transcribeQueueRef`, chain
`i + 1` the replaced chain `i`). -/
inductive QueueEvent where
  | startRecording
  | dataAvailable (size : Nat)
  | stopRecording
  | settle (chain : Nat) (ok : Bool)
  deriving DecidableEq, Repr

/-- The call of a chain settles, by returning or by throwing: `transcribeChunk`
handles either inside its `try`, so the job is done and the next callback of
the chain runs. -/
def settleChain (audioChunks : Nat) (c : Chain) : Chain × List Nat × List Nat :=
  match c.running with
  | none => (c, [], [])
  | some job =>
    let r := advance audioChunks { c with running := none }
    (r.1, r.2.1, job :: r.2.2)

/-- One step of the queue. -/
def queueStep (s : QueueState) (e : QueueEvent) : QueueState :=
  match e with
  | .startRecording =>
    if s.isRecording then s
    else
      { s with
        isRecording := true
        audioChunksRef := 0
        transcribeQueueRef := ⟨none, []⟩
        replaced := s.transcribeQueueRef :: s.replaced }
  | .dataAvailable size =>
    if s.isRecording && size != 0 then
      chainJob { s with audioChunksRef := s.audioChunksRef + 1 }
    else s
  | .stopRecording =>
    if s.isRecording then chainJob { s with isRecording := false } else s
  | .settle 0 ok =>
    let r := settleChain s.audioChunksRef s.transcribeQueueRef
    { s with
      transcribeQueueRef := r.1
      started := s.started ++ r.2.1
      settled := s.settled ++ r.2.2
      failed := s.failed ++ (if ok then [] else s.transcribeQueueRef.running.toList) }
  | .settle (i + 1) ok =>
    match s.replaced.get? i with
    | none => s
    | some c =>
      let r := settleChain s.audioChunksRef c
      { s with
        replaced := s.replaced.set i r.1
        started := s.started ++ r.2.1
        settled := s.settled ++ r.2.2
        failed := s.failed ++ (if ok then [] else c.running.toList) }

/-- The state of the queue after a sequence of events. -/
def queueRun (s : QueueState) (events : List QueueEvent) : QueueState :=
  events.foldl queueStep s

/-- The jobs whose transcription call is outstanding. -/
def outstandingJobs (s : QueueState) : List Nat :=
  (s.transcribeQueueRef :: s.replaced).filterMap (fun c => c.running)

/-- The state of the queue during a recording session: after `startRecording`
in the state `s` and events that start no other session. -/
def sessionState (s : QueueState) (events : List QueueEvent) : QueueState :=
  queueRun (queueStep s .startRecording) events

/-- What holds of the queue as long as every session is started while no
transcription call is outstanding: no replaced chain has a call outstanding,
the jobs started and the jobs waiting are the jobs chained, in order, every
started job but the outstanding one has settled, jobs wait only behind an
outstanding call, and a call is outstanding only when there is audio. -/
def SessionInvariant (s : QueueState) : Prop :=
  (∀ c ∈ s.replaced, c.running = none) ∧
  s.started ++ s.transcribeQueueRef.waiting = List.range s.chained ∧
  s.settled ++ s.transcribeQueueRef.running.toList = s.started ∧
  (s.transcribeQueueRef.waiting ≠ [] → s.transcribeQueueRef.running ≠ none) ∧
  (s.transcribeQueueRef.running ≠ none → 0 < s.audioChunksRef)

/-! ## Normalization: theorems -/

theorem trimChars_eq_nil_iff (cs : List Char) :
    trimChars cs = [] ↔ ∀ c ∈ cs, isJsSpace c = true := by
  unfold trimChars
  rw [List.reverse_eq_nil_iff, List.dropWhile_eq_nil_iff]
  constructor
  · intro h
    have hnil : cs.dropWhile isJsSpace = [] := by
      by_contra hne
      have hhead := List.head_dropWhile_not isJsSpace cs hne
      have hmem : (cs.dropWhile isJsSpace).head hne ∈ (cs.dropWhile isJsSpace).reverse :=
        List.mem_reverse.mpr (List.head_mem hne)
      rw [h _ hmem] at hhead
      exact absurd hhead (by simp)
    exact List.dropWhile_eq_nil_iff.mp hnil
  · intro h c hc
    rw [List.dropWhile_eq_nil_iff.mpr h] at hc
    simp at hc

theorem jsTrim_ne_empty_iff (s : String) :
    (jsTrim s != "") = !isBlankLine s := by
  have h := trimChars_eq_nil_iff s.data
  unfold jsTrim isBlankLine
  by_cases hb : s.data.all isJsSpace = true
  · have hnil : trimChars s.data = [] := h.mpr (List.all_eq_true.mp hb)
    simp [hnil, hb]
  · have hne : trimChars s.data ≠ [] := fun hnil => hb (List.all_eq_true.mpr (h.mp hnil))
    have : (⟨trimChars s.data⟩ : String) ≠ "" := by
      intro heq
      exact hne (congrArg String.data heq)
    simp [this, hb]

theorem mem_normalizeNextSteps_ne_empty (v : JsValue) (e : String)
    (h : e ∈ normalizeNextSteps v) : e ≠ "" := by
  unfold normalizeNextSteps at h
  split at h
  · have := (List.mem_filter.mp h).2
    simpa using this
  · have := (List.mem_filter.mp h).2
    simpa using this
  · intro he
    subst he
    revert h
    decide

theorem safe_get_eq_candidateField (candidate : JsValue) (key : String) :
    (if candidate.truthy && candidate.typeofObject then candidate else JsValue.obj []).get key
      = candidateField candidate key := by
  cases candidate <;>
    simp [JsValue.truthy, JsValue.typeofObject, JsValue.get, candidateField]

theorem normalizeArtifacts_next_steps (candidate : JsValue) :
    (normalizeArtifacts candidate).next_steps
      = normalizeNextSteps (candidateField candidate "next_steps") := by
  simp only [normalizeArtifacts, safe_get_eq_candidateField]

/-- C1 (as stated, refuted): the candidate `{ next_steps: [] }` normalizes to an
empty `next_steps`, so the 3-to-20 bound on the number of entries does not hold
for every candidate. -/
theorem normalizeArtifacts_empty_steps_counterexample :
    ¬ (3 ≤ (normalizeArtifacts (.obj [("next_steps", .arr [])])).next_steps.length ∧
       (normalizeArtifacts (.obj [("next_steps", .arr [])])).next_steps.length ≤ 20 ∧
       ∀ e ∈ (normalizeArtifacts (.obj [("next_steps", .arr [])])).next_steps, e ≠ "") := by
  decide

/-- C1 (amended): for every candidate payload, every entry of
`normalizeArtifacts(candidate).next_steps` is a non-empty string; the number of
entries is 3 when the candidate's `next_steps` is neither an array nor a string,
and is otherwise at most the number of array elements, respectively of lines of
the string (no lower bound of 3 and no upper bound of 20 is enforced). -/
theorem normalizeArtifacts_next_steps_entries (candidate : JsValue) :
    (∀ e ∈ (normalizeArtifacts candidate).next_steps, e ≠ "") ∧
    ((candidateField candidate "next_steps").isArray = false →
      (candidateField candidate "next_steps").typeofString = false →
      (normalizeArtifacts candidate).next_steps.length = 3) ∧
    (∀ items, candidateField candidate "next_steps" = .arr items →
      (normalizeArtifacts candidate).next_steps.length ≤ items.length) ∧
    (∀ s, candidateField candidate "next_steps" = .str s →
      (normalizeArtifacts candidate).next_steps.length ≤ (splitLines s).length) := by
  rw [normalizeArtifacts_next_steps]
  refine ⟨fun e he => mem_normalizeNextSteps_ne_empty _ e he, ?_, ?_, ?_⟩
  · intro ha hs
    cases hv : candidateField candidate "next_steps" <;>
      simp_all [JsValue.isArray, JsValue.typeofString, normalizeNextSteps, INITIAL_ARTIFACTS]
  · intro items hv
    rw [hv]
    simp only [normalizeNextSteps]
    exact (List.length_filter_le _ _).trans (by simp)
  · intro s hv
    rw [hv]
    simp only [normalizeNextSteps]
    exact (List.length_filter_le _ _).trans (by simp)

/-- C1 (amended), at a concrete payload: a numbered list given as one string
and, for the default branch, a payload whose `next_steps` is a number. -/
theorem normalizeArtifacts_next_steps_entries_witness :
    (∀ e ∈ (normalizeArtifacts (.obj [("next_steps", .str "a\n\nb")])).next_steps, e ≠ "") ∧
    (normalizeArtifacts (.obj [("next_steps", .num 7)])).next_steps.length = 3 :=
  ⟨(normalizeArtifacts_next_steps_entries (.obj [("next_steps", .str "a\n\nb")])).1,
   (normalizeArtifacts_next_steps_entries (.obj [("next_steps", .num 7)])).2.1 rfl rfl⟩

/-- C2: for every candidate payload, each of `assistant_response`, `summary`
and `architecture` of `normalizeArtifacts(candidate)` is the candidate's field
when that field is a string and the `INITIAL_ARTIFACTS` default otherwise, and
`next_steps` is the three default steps when the candidate's `next_steps` is
neither an array nor a string. -/
theorem normalizeArtifacts_fields (candidate : JsValue) :
    (normalizeArtifacts candidate).assistant_response
      = (match candidateField candidate "assistant_response" with
         | .str s => s
         | _ => "") ∧
    (normalizeArtifacts candidate).summary
      = (match candidateField candidate "summary" with
         | .str s => s
         | _ => "## Waiting for input\n\nDescribe your project idea by typing or recording voice to generate live artifacts.") ∧
    (normalizeArtifacts candidate).architecture
      = (match candidateField candidate "architecture" with
         | .str s => s
         | _ => "flowchart TD\n  A[Idea] --> B[Architecture]\n  B --> C[Build Plan]") ∧
    ((candidateField candidate "next_steps").isArray = false →
      (candidateField candidate "next_steps").typeofString = false →
      (normalizeArtifacts candidate).next_steps
        = [ "Describe the problem and who it serves.",
            "List key constraints (time, team size, APIs).",
            "Define first deliverable for the next hour." ]) := by
  refine ⟨?_, ?_, ?_, ?_⟩
  · simp only [normalizeArtifacts, safe_get_eq_candidateField, INITIAL_ARTIFACTS]
  · simp only [normalizeArtifacts, safe_get_eq_candidateField, INITIAL_ARTIFACTS]
  · simp only [normalizeArtifacts, safe_get_eq_candidateField, INITIAL_ARTIFACTS]
  · rw [normalizeArtifacts_next_steps]
    intro ha hs
    cases hv : candidateField candidate "next_steps" <;>
      simp_all [JsValue.isArray, JsValue.typeofString, normalizeNextSteps, INITIAL_ARTIFACTS]

/-- C2, at concrete payloads: a payload with one string field and mistyped
others, and a payload that is not an object at all. -/
theorem normalizeArtifacts_fields_witness :
    (normalizeArtifacts (.obj [("summary", .str "S"), ("architecture", .num 3)])).summary = "S" ∧
    (normalizeArtifacts (.str "oops")).next_steps
      = [ "Describe the problem and who it serves.",
          "List key constraints (time, team size, APIs).",
          "Define first deliverable for the next hour." ] :=
  ⟨(normalizeArtifacts_fields (.obj [("summary", .str "S"), ("architecture", .num 3)])).2.1,
   (normalizeArtifacts_fields (.str "oops")).2.2.2 rfl rfl⟩

/-- C3 (as stated, refuted): `normalizeArtifacts` keeps the list markers of a
`next_steps` string; with the markers stripped, as `updateNextStepsFromText`
strips them, the entries would be `a`, `b`, `c`. -/
theorem normalizeArtifacts_keeps_markers_counterexample :
    (normalizeArtifacts (.obj [("next_steps", .str "- a\n* b\n1. c")])).next_steps
      = ["- a", "* b", "1. c"] ∧
    (normalizeArtifacts (.obj [("next_steps", .str "- a\n* b\n1. c")])).next_steps
      ≠ (splitLines "- a\n* b\n1. c").map stripListMarker := by
  decide

/-- C3 (amended): for every candidate whose `next_steps` arrived as a single
string, `normalizeArtifacts` yields one entry per non-blank line of that string
(lines end at `\n` or `\r\n`), in line order, each entry being the line with its
surrounding white space trimmed; list markers are left in place. -/
theorem normalizeArtifacts_string_steps (candidate : JsValue) (s : String)
    (h : candidateField candidate "next_steps" = .str s) :
    (normalizeArtifacts candidate).next_steps
      = ((splitLines s).filter (fun line => !isBlankLine line)).map jsTrim := by
  rw [normalizeArtifacts_next_steps, h]
  simp only [normalizeNextSteps]
  rw [List.filter_map]
  congr 1
  apply List.filter_congr
  intro line _
  simp only [Function.comp]
  exact jsTrim_ne_empty_iff line

/-- C3 (amended), at a concrete payload. -/
theorem normalizeArtifacts_string_steps_witness :
    (normalizeArtifacts (.obj [("next_steps", .str "- a\r\n  \n b ")])).next_steps
      = ((splitLines "- a\r\n  \n b ").filter (fun line => !isBlankLine line)).map jsTrim :=
  normalizeArtifacts_string_steps (.obj [("next_steps", .str "- a\r\n  \n b ")]) "- a\r\n  \n b " rfl

/-! ## The synchronization coordinator: theorems -/

theorem dropWhile_eq_self_of_head (p : Char → Bool) (l : List Char)
    (h : ∀ hl : l ≠ [], p (l.head hl) = false) : l.dropWhile p = l := by
  cases l with
  | nil => rfl
  | cons a t =>
    have := h (by simp)
    simp only [List.head_cons] at this
    simp [List.dropWhile, this]

theorem prefix_head_eq {l₁ l₂ : List Char} (h : l₁ <+: l₂) (h₁ : l₁ ≠ []) (h₂ : l₂ ≠ []) :
    l₁.head h₁ = l₂.head h₂ := by
  obtain ⟨t, rfl⟩ := h
  cases l₁ with
  | nil => exact absurd rfl h₁
  | cons a u => rfl

theorem trimChars_idempotent (cs : List Char) : trimChars (trimChars cs) = trimChars cs := by
  have hdef : ∀ l, trimChars l = (l.dropWhile isJsSpace).rdropWhile isJsSpace := fun _ => rfl
  rw [hdef (trimChars cs)]
  have hdrop : (trimChars cs).dropWhile isJsSpace = trimChars cs := by
    apply dropWhile_eq_self_of_head
    intro hl
    have hpre : trimChars cs <+: cs.dropWhile isJsSpace := by
      rw [hdef]
      exact List.rdropWhile_prefix _ _
    have hne : cs.dropWhile isJsSpace ≠ [] := by
      intro hnil
      rw [hnil] at hpre
      exact hl (List.prefix_nil.mp hpre)
    rw [prefix_head_eq hpre hl hne]
    have := List.head_dropWhile_not isJsSpace cs hne
    simpa using this
  rw [hdrop, hdef, List.rdropWhile_idempotent]

theorem jsTrim_idempotent (s : String) : jsTrim (jsTrim s) = jsTrim s := by
  simp [jsTrim, trimChars_idempotent]

theorem jsLength_empty : jsLength "" = 0 := rfl

/-- The transcript selected by a request made right after `pendingLiveRef` was
set to the trimmed `liveTranscriptRef`, as the interval callback does. -/
theorem selectedTranscript_after_tick (s : AppState) :
    selectedTranscript { s with pendingLiveRef := jsTrim s.liveTranscriptRef }
      = jsTrim s.liveTranscriptRef := by
  unfold selectedTranscript
  by_cases h : jsTrim s.liveTranscriptRef = ""
  · simp [h]
  · simp [h, jsTrim_idempotent]

/-- C4 (the code at the failing interleaving): after recording is stopped the
forced refresh of the final transcript is outstanding; `handleSend` then starts
a turn all the same, so a refresh call and a turn call are outstanding
together, with both busy flags set. -/
theorem turn_starts_while_refresh_outstanding :
    Reachable (step stoppedWithRefreshState .handleSend) ∧
    stoppedWithRefreshState.calls.map Call.isRefresh = [true] ∧
    (step stoppedWithRefreshState .handleSend).calls.map Call.isRefresh = [true, false] ∧
    (step stoppedWithRefreshState .handleSend).liveInFlightRef = true ∧
    (step stoppedWithRefreshState .handleSend).generatingRef = true := by
  refine ⟨⟨true, none,
    [.startRecording, .micGranted, .transcribed (.text "a long enough transcript"),
      .stopRecording, .stopDrained (.text "a long enough transcript"), .setInput "hello",
      .handleSend], rfl⟩, ?_⟩
  decide

/-- C5 (as stated, refuted), three times from a state in which recording is
active and the transcript is not empty.  With the transcript `short one`,
`stopRecording` issues no regeneration call, because the transcript has fewer
than 12 characters.  With a long transcript and a message sent while
`stopRecording` waits for its last `transcribeChunk`, the only call is the turn:
`flushLiveUpdates(true)` returns at once because `generatingRef` is set.  With a
last `transcribeChunk` that brings new text, the forced call carries the
transcript as `liveTranscriptRef` held it before, not the new text. -/
theorem stopRecording_forced_refresh_counterexample :
    (shortTranscriptState.isRecording = true ∧
      jsTrim shortTranscriptState.liveTranscript = "short one" ∧
      (run shortTranscriptState
        [.stopRecording, .stopDrained (.text "short one")]).calls.length = 0) ∧
    (recordingState.isRecording = true ∧
      jsTrim recordingState.liveTranscript = "a long enough transcript" ∧
      (run recordingState
        [.stopRecording, .setInput "hello", .handleSend,
          .stopDrained (.text "a long enough transcript")]).calls.map Call.isRefresh
        = [false]) ∧
    ((run recordingState
        [.stopRecording,
          .stopDrained (.text "a long enough transcript, and then some more")]).liveTranscript
        = "a long enough transcript, and then some more" ∧
      (run recordingState
        [.stopRecording,
          .stopDrained (.text "a long enough transcript, and then some more")]).calls.map
          Call.liveTranscript
        = ["a long enough transcript"]) := by
  decide

theorem applyTranscription_frame (outcome : TranscribeOutcome) (s : AppState) :
    (applyTranscription outcome s).liveTranscriptRef = s.liveTranscriptRef ∧
    (applyTranscription outcome s).messagesRef = s.messagesRef ∧
    (applyTranscription outcome s).liveInFlightRef = s.liveInFlightRef ∧
    (applyTranscription outcome s).generatingRef = s.generatingRef ∧
    (applyTranscription outcome s).lastLiveRefreshRef = s.lastLiveRefreshRef ∧
    (applyTranscription outcome s).artifacts = s.artifacts ∧
    (applyTranscription outcome s).calls = s.calls ∧
    (applyTranscription outcome s).messages = s.messages := by
  cases outcome with
  | noAudio => simp [applyTranscription]
  | failed message => simp [applyTranscription]
  | text raw =>
    simp only [applyTranscription]
    split_ifs <;> simp

theorem jsLength_pos_ne_empty (t : String) (h : 12 ≤ jsLength t) : t ≠ "" := by
  intro ht
  rw [ht, jsLength_empty] at h
  omega

/-- What `flushLiveUpdates` never touches, whatever it decides. -/
theorem flushLiveUpdates_frame (force : Bool) (stopFinal : Option String) (s : AppState) :
    (flushLiveUpdates force stopFinal s).1.artifacts = s.artifacts ∧
    (flushLiveUpdates force stopFinal s).1.lastLiveRefreshRef = s.lastLiveRefreshRef ∧
    (flushLiveUpdates force stopFinal s).1.generatingRef = s.generatingRef ∧
    (flushLiveUpdates force stopFinal s).1.messages = s.messages ∧
    (flushLiveUpdates force stopFinal s).1.messagesRef = s.messagesRef ∧
    (flushLiveUpdates force stopFinal s).1.liveAssistantPreviewRef = s.liveAssistantPreviewRef := by
  unfold flushLiveUpdates
  dsimp only
  split_ifs <;> simp

/-- When `flushLiveUpdates` issues no call, the outstanding calls and the
refresh flag are as before. -/
theorem flushLiveUpdates_not_issued (force : Bool) (stopFinal : Option String) (s : AppState)
    (h : (flushLiveUpdates force stopFinal s).2 = false) :
    (flushLiveUpdates force stopFinal s).1.calls = s.calls ∧
    (flushLiveUpdates force stopFinal s).1.liveInFlightRef = s.liveInFlightRef := by
  unfold flushLiveUpdates at h ⊢
  dsimp only at h ⊢
  split_ifs at h ⊢ <;> simp at h ⊢

/-- When `flushLiveUpdates` issues a call, it is one refresh call for the
selected transcript, and the refresh flag is set. -/
theorem flushLiveUpdates_issued (force : Bool) (stopFinal : Option String) (s : AppState)
    (h : (flushLiveUpdates force stopFinal s).2 = true) :
    (flushLiveUpdates force stopFinal s).1.calls
      = s.calls ++ [Call.refresh s.messagesRef (selectedTranscript s) force stopFinal] ∧
    (flushLiveUpdates force stopFinal s).1.liveInFlightRef = true := by
  unfold flushLiveUpdates at h ⊢
  dsimp only at h ⊢
  split_ifs at h ⊢
  all_goals simp at h ⊢

/-- When exactly `flushLiveUpdates` issues a call. -/
theorem flushLiveUpdates_issues_iff (force : Bool) (stopFinal : Option String) (s : AppState) :
    (flushLiveUpdates force stopFinal s).2 = true ↔
      s.liveInFlightRef = false ∧ s.generatingRef = false ∧
      12 ≤ jsLength (selectedTranscript s) ∧
      (force = true ∨ selectedTranscript s ≠ s.lastLiveRefreshRef) := by
  unfold flushLiveUpdates
  dsimp only
  split_ifs with h1 h2 h3
  · simp only [Bool.or_eq_true] at h1
    constructor
    · intro h; simp at h
    · rintro ⟨ha, hb, -, -⟩
      rcases h1 with h | h
      · rw [ha] at h; simp at h
      · rw [hb] at h; simp at h
  · constructor
    · intro h; simp at h
    · rintro ⟨-, -, hc, -⟩
      omega
  · constructor
    · intro h; simp at h
    · rintro ⟨-, -, -, hd⟩
      simp only [Bool.and_eq_true, Bool.not_eq_true', decide_eq_true_eq] at h3
      rcases hd with hd | hd
      · rw [hd] at h3; simp at h3
      · exact absurd h3.2 hd
  · simp only [Bool.or_eq_true, not_or, Bool.not_eq_true] at h1
    simp only [Bool.and_eq_true, Bool.not_eq_true', decide_eq_true_eq, not_and] at h3
    refine ⟨fun _ => ⟨h1.1, h1.2, by omega, ?_⟩, fun _ => rfl⟩
    cases force
    · exact Or.inr (h3 rfl)
    · exact Or.inl rfl

theorem stopDrained_calls (t : AppState) (residual : TranscribeOutcome)
    (hpos : t.stopsDraining ≠ 0) :
    (t.liveInFlightRef = false → t.generatingRef = false →
      12 ≤ jsLength (jsTrim t.liveTranscriptRef) →
      (stopDrained residual t).calls
        = t.calls ++
          [Call.refresh t.messagesRef (jsTrim t.liveTranscriptRef) true
            (some (jsTrim t.liveTranscriptRef))]) ∧
    (jsLength (jsTrim t.liveTranscriptRef) < 12 → (stopDrained residual t).calls = t.calls) := by
  obtain ⟨h1, h2, h3, h4, -, -, h7, -⟩ := applyTranscription_frame residual
    { t with stopsDraining := t.stopsDraining - 1 }
  simp only [stopDrained, if_neg hpos]
  generalize applyTranscription residual { t with stopsDraining := t.stopsDraining - 1 } = u
    at h1 h2 h3 h4 h7 ⊢
  simp only at h1 h2 h3 h4 h7
  have hF : jsTrim u.liveTranscriptRef = jsTrim t.liveTranscriptRef := by rw [h1]
  rw [← h7, ← h2, ← hF, ← h3, ← h4]
  generalize jsTrim u.liveTranscriptRef = F at hF ⊢
  have hsel : selectedTranscript { u with pendingLiveRef := F } = F := by
    unfold selectedTranscript
    by_cases hne : F = ""
    · simp [hne, h1, ← hF]
    · have hne2 : ¬ jsTrim t.liveTranscriptRef = "" := by rwa [← hF]
      simp [hF, hne2, jsTrim_idempotent]
  constructor
  · intro hlive hgen hlen
    have hne := jsLength_pos_ne_empty _ hlen
    have hiss : (flushLiveUpdates true (some F) { u with pendingLiveRef := F }).2 = true := by
      rw [flushLiveUpdates_issues_iff, hsel]
      exact ⟨hlive, hgen, hlen, Or.inl rfl⟩
    have hcalls := (flushLiveUpdates_issued _ _ _ hiss).1
    rw [hsel] at hcalls
    simp only [if_neg hne]
    split
    · rename_i s3 heq
      rw [heq] at hcalls
      exact hcalls
    · rename_i s3 heq
      rw [heq] at hiss
      simp at hiss
  · intro hshort
    by_cases hne : F = ""
    · simp only [if_pos hne]
    · have hiss : (flushLiveUpdates true (some F) { u with pendingLiveRef := F }).2 = false := by
        rw [Bool.eq_false_iff]
        intro hc
        rw [flushLiveUpdates_issues_iff, hsel] at hc
        omega
      have hcalls := (flushLiveUpdates_not_issued _ _ _ hiss).1
      simp only [if_neg hne]
      split
      · rename_i s3 heq
        rw [heq] at hiss
        simp at hiss
      · rename_i s3 heq
        rw [heq] at hcalls
        simp only [finishStop]
        exact hcalls

theorem stopDrained_calls_of_busy (t : AppState) (residual : TranscribeOutcome)
    (hpos : t.stopsDraining ≠ 0) (hbusy : t.liveInFlightRef = true ∨ t.generatingRef = true) :
    (stopDrained residual t).calls = t.calls := by
  obtain ⟨-, -, h3, h4, -, -, h7, -⟩ := applyTranscription_frame residual
    { t with stopsDraining := t.stopsDraining - 1 }
  simp only [stopDrained, if_neg hpos]
  generalize applyTranscription residual { t with stopsDraining := t.stopsDraining - 1 } = u
    at h3 h4 h7 ⊢
  simp only at h3 h4 h7
  rw [← h7]
  generalize jsTrim u.liveTranscriptRef = F
  by_cases hne : F = ""
  · simp only [if_pos hne]
  · have hiss : (flushLiveUpdates true (some F) { u with pendingLiveRef := F }).2 = false := by
      rw [Bool.eq_false_iff]
      intro hc
      rw [flushLiveUpdates_issues_iff] at hc
      obtain ⟨ha, hb, -, -⟩ := hc
      simp only at ha hb
      rw [h3] at ha
      rw [h4] at hb
      rcases hbusy with h | h
      · rw [ha] at h; exact Bool.noConfusion h
      · rw [hb] at h; exact Bool.noConfusion h
    have hcalls := (flushLiveUpdates_not_issued _ _ _ hiss).1
    simp only [if_neg hne]
    split
    · rename_i s3 heq
      rw [heq] at hiss
      simp at hiss
    · rename_i s3 heq
      rw [heq] at hcalls
      simp only [finishStop]
      exact hcalls

/-- C5 (amended): `stopRecording` issues no regeneration call before its last
`transcribeChunk` has returned.  In every state in which a `stopRecording` waits
for that return, whatever has happened since the click, the return leads to
exactly one new call, a forced refresh carrying the trimmed `liveTranscriptRef`
of that moment, when `liveInFlightRef` and `generatingRef` are clear and that
transcript has at least 12 characters, whatever the refresh fingerprint is; and
to no call when a flag is set or the transcript is shorter.  Text that this last
`transcribeChunk` has set is not in the transcript carried. -/
theorem stopRecording_forced_refresh (t : AppState) (residual : TranscribeOutcome)
    (hdrain : t.stopsDraining ≠ 0) :
    (∀ s : AppState, (step s .stopRecording).calls = s.calls ∧
      (s.isRecording = true → (step s .stopRecording).stopsDraining ≠ 0)) ∧
    (t.liveInFlightRef = false → t.generatingRef = false →
      12 ≤ jsLength (jsTrim t.liveTranscriptRef) →
      (step t (.stopDrained residual)).calls
        = t.calls ++
          [Call.refresh t.messagesRef (jsTrim t.liveTranscriptRef) true
            (some (jsTrim t.liveTranscriptRef))]) ∧
    (t.liveInFlightRef = true ∨ t.generatingRef = true ∨
        jsLength (jsTrim t.liveTranscriptRef) < 12 →
      (step t (.stopDrained residual)).calls = t.calls) := by
  have hstep : (step t (.stopDrained residual)).calls = (stopDrained residual t).calls := by
    simp [step, render]
  have hmain := stopDrained_calls t residual hdrain
  refine ⟨?_, ?_, ?_⟩
  · intro s
    constructor
    · simp only [step, render, stopRecording]
      split_ifs <;> rfl
    · intro hrec
      simp [step, render, stopRecording, hrec]
  · intro hlive hgen hlen
    rw [hstep]
    exact hmain.1 hlive hgen hlen
  · intro hno
    rw [hstep]
    rcases hno with h | h | h
    · exact stopDrained_calls_of_busy t residual hdrain (Or.inl h)
    · exact stopDrained_calls_of_busy t residual hdrain (Or.inr h)
    · exact hmain.2 h

/-- C5 (amended), at a state whose fingerprint equals the final transcript and
in which the user has typed since the click: the forced refresh is issued all
the same. -/
theorem stopRecording_forced_refresh_witness :
    (run refreshedState [.stopRecording, .setInput "hello"]).stopsDraining ≠ 0 ∧
    (run refreshedState [.stopRecording, .setInput "hello"]).lastLiveRefreshRef
      = jsTrim (run refreshedState [.stopRecording, .setInput "hello"]).liveTranscriptRef ∧
    (step (run refreshedState [.stopRecording, .setInput "hello"])
        (.stopDrained (.text "a long enough transcript"))).calls
      = (run refreshedState [.stopRecording, .setInput "hello"]).calls ++
        [Call.refresh (run refreshedState [.stopRecording, .setInput "hello"]).messagesRef
          (jsTrim (run refreshedState [.stopRecording, .setInput "hello"]).liveTranscriptRef) true
          (some (jsTrim
            (run refreshedState [.stopRecording, .setInput "hello"]).liveTranscriptRef))] :=
  ⟨by decide, by decide,
   (stopRecording_forced_refresh (run refreshedState [.stopRecording, .setInput "hello"])
      (.text "a long enough transcript") (by decide)).2.1
     (by decide) (by decide) (by decide)⟩

/-- C6 (the code at the failing input): a refresh is outstanding and a newer
transcript is waiting in `pendingLiveRef`; when the refresh call settles, with
a payload or with an error, no new call is issued and `pendingLiveRef` keeps
its value. -/
theorem refresh_completion_leaves_pending :
    pendingDuringRefreshState.calls.map Call.isRefresh = [true] ∧
    pendingDuringRefreshState.pendingLiveRef = "a long enough transcript, and then some more" ∧
    (step pendingDuringRefreshState (.settle 0 (.ok samplePayload))).calls.length = 0 ∧
    (step pendingDuringRefreshState (.settle 0 (.ok samplePayload))).pendingLiveRef
      = "a long enough transcript, and then some more" ∧
    (step pendingDuringRefreshState (.settle 0 (.error "Request failed"))).calls.length = 0 ∧
    (step pendingDuringRefreshState (.settle 0 (.error "Request failed"))).pendingLiveRef
      = "a long enough transcript, and then some more" := by
  decide

/-- C7: a refresh request that is not forced and whose selected transcript
equals the fingerprint `lastLiveRefreshRef` issues no call and leaves the
artifacts, the fingerprint and both busy flags as they were; the same request
with `force = true`, both busy flags clear and a transcript of at least 12
characters issues one refresh call for that transcript. -/
theorem flushLiveUpdates_fingerprint_dedup (s : AppState) (stopFinal : Option String)
    (h : selectedTranscript s = s.lastLiveRefreshRef) :
    ((flushLiveUpdates false stopFinal s).2 = false ∧
      (flushLiveUpdates false stopFinal s).1.calls = s.calls ∧
      (flushLiveUpdates false stopFinal s).1.artifacts = s.artifacts ∧
      (flushLiveUpdates false stopFinal s).1.lastLiveRefreshRef = s.lastLiveRefreshRef ∧
      (flushLiveUpdates false stopFinal s).1.liveInFlightRef = s.liveInFlightRef ∧
      (flushLiveUpdates false stopFinal s).1.generatingRef = s.generatingRef) ∧
    (s.liveInFlightRef = false → s.generatingRef = false →
      12 ≤ jsLength (selectedTranscript s) →
      (flushLiveUpdates true stopFinal s).2 = true ∧
      (flushLiveUpdates true stopFinal s).1.calls
        = s.calls ++ [Call.refresh s.messagesRef (selectedTranscript s) true stopFinal]) := by
  have hno : (flushLiveUpdates false stopFinal s).2 = false := by
    rw [Bool.eq_false_iff]
    intro hc
    rw [flushLiveUpdates_issues_iff] at hc
    rcases hc.2.2.2 with hf | hf
    · exact absurd hf (by simp)
    · exact hf h
  obtain ⟨ha, hb, hc, -, -, -⟩ := flushLiveUpdates_frame false stopFinal s
  obtain ⟨hd, he⟩ := flushLiveUpdates_not_issued false stopFinal s hno
  refine ⟨⟨hno, hd, ha, hb, he, hc⟩, ?_⟩
  intro hlive hgen hlen
  have hyes : (flushLiveUpdates true stopFinal s).2 = true :=
    (flushLiveUpdates_issues_iff true stopFinal s).mpr ⟨hlive, hgen, hlen, Or.inl rfl⟩
  exact ⟨hyes, (flushLiveUpdates_issued true stopFinal s hyes).1⟩

/-- C7, at the state reached when a refresh of the current transcript has been
applied: the next tick's request is dropped, a forced one is issued. -/
theorem flushLiveUpdates_fingerprint_dedup_witness :
    (flushLiveUpdates false none refreshedState).1.calls = refreshedState.calls ∧
    (flushLiveUpdates true none refreshedState).1.calls
      = refreshedState.calls ++
        [Call.refresh refreshedState.messagesRef (selectedTranscript refreshedState) true none] :=
  ⟨(flushLiveUpdates_fingerprint_dedup refreshedState none (by decide)).1.2.1,
   ((flushLiveUpdates_fingerprint_dedup refreshedState none (by decide)).2
      (by decide) (by decide) (by decide)).2⟩

/-- C8: for either value of the force flag, a refresh request whose trimmed
transcript is empty or has fewer than 12 characters (UTF-16 code units, as
`.length` counts them) issues no regeneration call and leaves the artifacts, the
fingerprint and both busy flags as they were; so does a tick of the refresh
interval when the trimmed live transcript is that short. -/
theorem flushLiveUpdates_short_transcript (s : AppState) (force : Bool)
    (stopFinal : Option String) :
    (jsLength (selectedTranscript s) < 12 →
      (flushLiveUpdates force stopFinal s).2 = false ∧
      (flushLiveUpdates force stopFinal s).1.calls = s.calls ∧
      (flushLiveUpdates force stopFinal s).1.artifacts = s.artifacts ∧
      (flushLiveUpdates force stopFinal s).1.lastLiveRefreshRef = s.lastLiveRefreshRef ∧
      (flushLiveUpdates force stopFinal s).1.liveInFlightRef = s.liveInFlightRef ∧
      (flushLiveUpdates force stopFinal s).1.generatingRef = s.generatingRef) ∧
    (jsLength (jsTrim s.liveTranscriptRef) < 12 →
      (step s .refreshTick).calls = s.calls ∧
      (step s .refreshTick).artifacts = s.artifacts ∧
      (step s .refreshTick).lastLiveRefreshRef = s.lastLiveRefreshRef ∧
      (step s .refreshTick).liveInFlightRef = s.liveInFlightRef ∧
      (step s .refreshTick).generatingRef = s.generatingRef) := by
  have key : ∀ (u : AppState) (f : Bool) (k : Option String),
      jsLength (selectedTranscript u) < 12 →
      (flushLiveUpdates f k u).2 = false ∧
      (flushLiveUpdates f k u).1.calls = u.calls ∧
      (flushLiveUpdates f k u).1.artifacts = u.artifacts ∧
      (flushLiveUpdates f k u).1.lastLiveRefreshRef = u.lastLiveRefreshRef ∧
      (flushLiveUpdates f k u).1.liveInFlightRef = u.liveInFlightRef ∧
      (flushLiveUpdates f k u).1.generatingRef = u.generatingRef := by
    intro u f k hshort
    have hno : (flushLiveUpdates f k u).2 = false := by
      rw [Bool.eq_false_iff]
      intro hc
      rw [flushLiveUpdates_issues_iff] at hc
      omega
    obtain ⟨ha, hb, hc, -, -, -⟩ := flushLiveUpdates_frame f k u
    obtain ⟨hd, he⟩ := flushLiveUpdates_not_issued f k u hno
    exact ⟨hno, hd, ha, hb, he, hc⟩
  refine ⟨key s force stopFinal, ?_⟩
  intro hshort
  by_cases hrec : s.isRecording = true
  · have hk := key { s with pendingLiveRef := jsTrim s.liveTranscriptRef } false none
      (by rw [selectedTranscript_after_tick]; exact hshort)
    simpa [step, refreshTick, hrec, render] using hk.2
  · simp [step, refreshTick, hrec, render]

/-- C8, at a recording state whose transcript is `short one`. -/
theorem flushLiveUpdates_short_transcript_witness :
    (flushLiveUpdates true none shortTranscriptState).1.calls = shortTranscriptState.calls ∧
    (step shortTranscriptState .refreshTick).calls = shortTranscriptState.calls :=
  ⟨((flushLiveUpdates_short_transcript shortTranscriptState true none).1 (by decide)).2.1,
   ((flushLiveUpdates_short_transcript shortTranscriptState true none).2 (by decide)).1⟩

theorem resumeTurn_frame (nextMessages : List Message) (result : CallResult) (s : AppState) :
    (resumeTurn nextMessages result s).lastLiveRefreshRef = s.lastLiveRefreshRef ∧
    (resumeTurn nextMessages result s).generatingRef = false ∧
    (∀ message, result = .error message →
      (resumeTurn nextMessages result s).artifacts = s.artifacts) := by
  unfold resumeTurn
  dsimp only
  split_ifs with hp
  · refine ⟨?_, ?_, ?_⟩
    · rw [(flushLiveUpdates_frame _ _ _).2.1]
      cases result with
      | error message => rfl
      | ok payload =>
        cases payload <;> first | rfl | (dsimp only; split_ifs <;> rfl)
    · rw [(flushLiveUpdates_frame _ _ _).2.2.1]
    · intro message hres
      subst hres
      rw [(flushLiveUpdates_frame _ _ _).1]
  · refine ⟨?_, rfl, ?_⟩
    · cases result with
      | error message => rfl
      | ok payload =>
        cases payload <;> first | rfl | (dsimp only; split_ifs <;> rfl)
    · intro message hres
      subst hres
      rfl

theorem resumeRefresh_frame (transcript : String) (stopFinal : Option String)
    (result : CallResult) (s : AppState) :
    (resumeRefresh transcript stopFinal result s).liveInFlightRef = false ∧
    ((resumeRefresh transcript stopFinal result s).lastLiveRefreshRef = s.lastLiveRefreshRef ∨
      ((∃ payload, result = .ok payload) ∧
        (resumeRefresh transcript stopFinal result s).lastLiveRefreshRef = transcript)) ∧
    (∀ message, result = .error message →
      (resumeRefresh transcript stopFinal result s).artifacts = s.artifacts ∧
      (resumeRefresh transcript stopFinal result s).lastLiveRefreshRef = s.lastLiveRefreshRef) := by
  unfold resumeRefresh
  cases stopFinal with
  | none =>
    cases result with
    | error message => simp
    | ok payload => cases payload <;> simp
  | some finalTranscript =>
    cases result with
    | error message => simp [finishStop]
    | ok payload => cases payload <;> simp [finishStop]

theorem stopDrained_fingerprint (residual : TranscribeOutcome) (s : AppState) :
    (stopDrained residual s).lastLiveRefreshRef = s.lastLiveRefreshRef ∧
    (stopDrained residual s).artifacts = s.artifacts := by
  unfold stopDrained
  split_ifs with h0
  · exact ⟨rfl, rfl⟩
  · obtain ⟨-, -, -, -, h5, h6, -, -⟩ := applyTranscription_frame residual
      { s with stopsDraining := s.stopsDraining - 1 }
    dsimp only
    generalize applyTranscription residual { s with stopsDraining := s.stopsDraining - 1 } = u
      at h5 h6 ⊢
    simp only at h5 h6
    split_ifs
    · exact ⟨h5, h6⟩
    · have hf := flushLiveUpdates_frame true (some (jsTrim u.liveTranscriptRef))
        { u with pendingLiveRef := jsTrim u.liveTranscriptRef }
      split
      · rename_i s3 heq
        rw [heq] at hf
        exact ⟨hf.2.1.trans h5, hf.1.trans h6⟩
      · rename_i s3 heq
        rw [heq] at hf
        simp only [finishStop]
        exact ⟨hf.2.1.trans h5, hf.1.trans h6⟩

/-- C9 (as stated, refuted): the fingerprint holds the transcript of the last
applied refresh, and `startRecording` changes it, to the empty string, without
any refresh call having succeeded in that step. -/
theorem startRecording_resets_fingerprint_counterexample :
    stoppedRefreshedState.lastLiveRefreshRef = "a long enough transcript" ∧
    stoppedRefreshedState.calls.length = 0 ∧
    (step stoppedRefreshedState .startRecording).lastLiveRefreshRef = "" := by
  decide

/-- C9 (amended): when the regeneration call of a refresh or of a turn fails,
the operation clears its own busy flag (`liveInFlightRef`, respectively
`generatingRef`), the artifacts are what they were before the request (neither
the step that issues a call nor the failure writes to them), and the
fingerprint is not updated; over all events, the fingerprint changes only when
a refresh call succeeded, and then to that call's transcript, or when
`startRecording` begins a new session, and then to the empty string. -/
theorem failed_call_keeps_artifacts_and_fingerprint (s : AppState) :
    (∀ index call message, s.calls.get? index = some call →
      (call.isRefresh = true →
        (step s (.settle index (.error message))).liveInFlightRef = false) ∧
      (call.isRefresh = false →
        (step s (.settle index (.error message))).generatingRef = false) ∧
      (step s (.settle index (.error message))).artifacts = s.artifacts ∧
      (step s (.settle index (.error message))).lastLiveRefreshRef = s.lastLiveRefreshRef) ∧
    ((step s .handleSend).artifacts = s.artifacts ∧
      (step s .refreshTick).artifacts = s.artifacts ∧
      ∀ residual, (step s (.stopDrained residual)).artifacts = s.artifacts) ∧
    (∀ e, (step s e).lastLiveRefreshRef ≠ s.lastLiveRefreshRef →
      (e = .startRecording ∧ (step s e).lastLiveRefreshRef = "") ∨
      (∃ index payload messages transcript force stopFinal,
        e = .settle index (.ok payload) ∧
        s.calls.get? index = some (Call.refresh messages transcript force stopFinal) ∧
        (step s e).lastLiveRefreshRef = transcript)) := by
  have hsend : (step s .handleSend).artifacts = s.artifacts := by
    simp only [step, handleSend, runTurn, render]
    split_ifs <;> rfl
  have htick : (step s .refreshTick).artifacts = s.artifacts := by
    simp only [step, refreshTick, render]
    split_ifs
    · exact (flushLiveUpdates_frame _ _ _).1
    · rfl
  have hstop : ∀ residual, (step s (.stopDrained residual)).artifacts = s.artifacts := by
    intro residual
    simp only [step, render]
    exact (stopDrained_fingerprint residual s).2
  refine ⟨?_, ⟨hsend, htick, hstop⟩, ?_⟩
  · intro index call message hcall
    cases call with
    | turn nextMessages =>
      obtain ⟨h1, h2, h3⟩ := resumeTurn_frame nextMessages (.error message)
        { s with calls := s.calls.eraseIdx index }
      have h3' := h3 message rfl
      simp only [step, settle, hcall, render, Call.isRefresh]
      exact ⟨fun h => absurd h (by simp), fun _ => h2, h3', h1⟩
    | refresh messages transcript force stopFinal =>
      obtain ⟨h1, -, h3⟩ := resumeRefresh_frame transcript stopFinal (.error message)
        { s with calls := s.calls.eraseIdx index }
      obtain ⟨h3a, h3b⟩ := h3 message rfl
      simp only [step, settle, hcall, render, Call.isRefresh]
      exact ⟨fun _ => h1, fun h => absurd h (by simp), h3a, h3b⟩
  · intro e hchange
    cases e with
    | setInput text => exact absurd rfl hchange
    | handleSend =>
      exfalso
      apply hchange
      simp only [step, handleSend, runTurn, render]
      split_ifs <;> rfl
    | startRecording =>
      left
      refine ⟨rfl, ?_⟩
      simp only [step, startRecording, render] at hchange ⊢
      split_ifs at hchange ⊢ with h
      · exact absurd rfl hchange
      · rfl
    | micGranted =>
      exfalso
      apply hchange
      simp only [step, micGranted, render]
      split_ifs <;> rfl
    | micDenied message =>
      exfalso
      apply hchange
      simp only [step, micDenied, render]
      split_ifs <;> rfl
    | transcribed outcome =>
      exfalso
      apply hchange
      simp only [step, render]
      exact (applyTranscription_frame outcome s).2.2.2.2.1
    | refreshTick =>
      exfalso
      apply hchange
      simp only [step, refreshTick, render]
      split_ifs
      · exact (flushLiveUpdates_frame _ _ _).2.1
      · rfl
    | stopRecording =>
      exfalso
      apply hchange
      simp only [step, stopRecording, render]
      split_ifs <;> rfl
    | stopDrained residual =>
      exfalso
      apply hchange
      simp only [step, render]
      exact (stopDrained_fingerprint residual s).1
    | settle index result =>
      cases hcall : s.calls.get? index with
      | none =>
        exfalso
        apply hchange
        simp only [step, settle, hcall, render]
      | some call =>
        cases call with
        | turn nextMessages =>
          exfalso
          apply hchange
          simp only [step, settle, hcall, render]
          exact (resumeTurn_frame nextMessages result _).1
        | refresh messages transcript force stopFinal =>
          have hfr := (resumeRefresh_frame transcript stopFinal result
            { s with calls := s.calls.eraseIdx index }).2.1
          simp only [step, settle, hcall, render] at hchange ⊢
          rcases hfr with hsame | ⟨⟨payload, hres⟩, hnew⟩
          · exact absurd hsame hchange
          · right
            subst hres
            exact ⟨index, payload, messages, transcript, force, stopFinal, rfl, hcall, hnew⟩
    | updateArtifactField field value => exact absurd rfl hchange
    | updateNextStepsFromText text => exact absurd rfl hchange
    | renameNode currentLabel answer =>
      exfalso
      apply hchange
      simp only [step, handleArchitectureNodeRename, render]
      split_ifs <;> first | rfl | (split <;> first | rfl | (split_ifs <;> rfl))

/-- C9 (amended), at the state where a refresh is outstanding: its failure
clears `liveInFlightRef` and keeps artifacts and fingerprint. -/
theorem failed_call_keeps_artifacts_and_fingerprint_witness :
    (step pendingDuringRefreshState (.settle 0 (.error "Request failed"))).liveInFlightRef = false ∧
    (step pendingDuringRefreshState (.settle 0 (.error "Request failed"))).artifacts
      = pendingDuringRefreshState.artifacts ∧
    (step pendingDuringRefreshState (.settle 0 (.error "Request failed"))).lastLiveRefreshRef
      = pendingDuringRefreshState.lastLiveRefreshRef :=
  ⟨((failed_call_keeps_artifacts_and_fingerprint pendingDuringRefreshState).1 0
      (Call.refresh pendingDuringRefreshState.messagesRef "a long enough transcript" false none)
      "Request failed" rfl).1 rfl,
   ((failed_call_keeps_artifacts_and_fingerprint pendingDuringRefreshState).1 0
      (Call.refresh pendingDuringRefreshState.messagesRef "a long enough transcript" false none)
      "Request failed" rfl).2.2.1,
   ((failed_call_keeps_artifacts_and_fingerprint pendingDuringRefreshState).1 0
      (Call.refresh pendingDuringRefreshState.messagesRef "a long enough transcript" false none)
      "Request failed" rfl).2.2.2⟩

/-! ## Diagram node rename: theorems -/

theorem parseRegExp_lit_cons (c : Char) (rest : List Char) (h : isRegExpSpecial c = false) :
    parseRegExp (c :: rest) = (parseRegExp rest).map (Atom.lit c :: ·) := by
  have hb : c ≠ '\\' := by
    rintro rfl
    simp [isRegExpSpecial] at h
  rw [parseRegExp.eq_def]
  simp [hb, h]

theorem parseRegExp_escaped_cons (c : Char) (rest : List Char) (h : isRegExpSpecial c = true) :
    parseRegExp ('\\' :: c :: rest) = (parseRegExp rest).map (Atom.lit c :: ·) := by
  have hs : c ≠ 's' := by
    rintro rfl
    simp [isRegExpSpecial] at h
  rw [parseRegExp.eq_def]
  simp [hs, h]

theorem parseRegExp_spaces_cons (rest : List Char) :
    parseRegExp ('\\' :: 's' :: '*' :: rest) = (parseRegExp rest).map (Atom.spaces :: ·) := by
  rw [parseRegExp.eq_def]
  simp

theorem parseRegExp_escape_append (label tail : List Char) :
    parseRegExp (escapeRegExpChars label ++ tail)
      = (parseRegExp tail).map (label.map Atom.lit ++ ·) := by
  induction label with
  | nil => simp [escapeRegExpChars]
  | cons c rest ih =>
    by_cases h : isRegExpSpecial c = true
    · simp only [escapeRegExpChars, h, if_true, List.cons_append]
      rw [parseRegExp_escaped_cons c _ h, ih]
      cases parseRegExp tail <;> simp
    · simp only [Bool.not_eq_true] at h
      simp only [escapeRegExpChars, h, Bool.false_eq_true, if_false, List.cons_append]
      rw [parseRegExp_lit_cons c _ h, ih]
      cases parseRegExp tail <;> simp

theorem parseRegExp_square (label : List Char) :
    parseRegExp ("\\[\\s*".data ++ escapeRegExpChars label ++ "\\s*\\]".data)
      = some (squarePattern label) := by
  have h1 : "\\[\\s*".data = ['\\', '[', '\\', 's', '*'] := rfl
  have h2 : "\\s*\\]".data = ['\\', 's', '*', '\\', ']'] := rfl
  rw [h1, h2]
  simp only [List.cons_append, List.nil_append]
  rw [parseRegExp_escaped_cons '[' _ (by decide), parseRegExp_spaces_cons,
    parseRegExp_escape_append, parseRegExp_spaces_cons,
    parseRegExp_escaped_cons ']' _ (by decide)]
  simp [parseRegExp, squarePattern]


theorem matchSpaces_sound (k : List Char → Option (List Char)) (t rest : List Char)
    (h : matchSpaces k t = some rest) :
    ∃ w t', t = w ++ t' ∧ (∀ c ∈ w, isJsSpace c = true) ∧ k t' = some rest := by
  induction t with
  | nil => exact ⟨[], [], rfl, by simp, h⟩
  | cons x s ih =>
    rw [matchSpaces] at h
    by_cases hx : isJsSpace x = true
    · rw [if_pos hx] at h
      cases hm : matchSpaces k s with
      | some r =>
        rw [hm] at h
        obtain ⟨w, t', hs, hw, hk⟩ := ih (hm.trans h)
        refine ⟨x :: w, t', by rw [hs]; rfl, ?_, hk⟩
        intro c hc
        rcases List.mem_cons.mp hc with rfl | hc
        · exact hx
        · exact hw c hc
      | none =>
        rw [hm] at h
        exact ⟨[], x :: s, rfl, by simp, h⟩
    · rw [if_neg hx] at h
      exact ⟨[], x :: s, rfl, by simp, h⟩

theorem matchSpaces_of_not_space (k : List Char → Option (List Char)) (x : Char) (s : List Char)
    (hx : isJsSpace x = false) : matchSpaces k (x :: s) = k (x :: s) := by
  rw [matchSpaces, if_neg (by simp [hx])]

theorem matchAtoms_lits (l : List Char) (pattern : List Atom) (t : List Char) :
    matchAtoms (l.map Atom.lit ++ pattern) (l ++ t) = matchAtoms pattern t := by
  induction l with
  | nil => rfl
  | cons c l ih => simp [matchAtoms, ih]

theorem matchAtoms_lits_sound (l : List Char) (pattern : List Atom) (t rest : List Char)
    (h : matchAtoms (l.map Atom.lit ++ pattern) t = some rest) :
    ∃ t', t = l ++ t' ∧ matchAtoms pattern t' = some rest := by
  induction l generalizing t with
  | nil => exact ⟨t, rfl, h⟩
  | cons c l ih =>
    cases t with
    | nil => simp [matchAtoms] at h
    | cons x t =>
      simp only [List.map_cons, List.cons_append, matchAtoms] at h
      by_cases hx : x = c
      · rw [if_pos hx] at h
        obtain ⟨t', ht, hm⟩ := ih t h
        exact ⟨t', by rw [hx, ht]; rfl, hm⟩
      · rw [if_neg hx] at h
        exact absurd h (by simp)

theorem matchAtoms_square_sound (label t rest : List Char)
    (h : matchAtoms (squarePattern label) t = some rest) :
    ∃ w₁ w₂, t = '[' :: (w₁ ++ (label ++ (w₂ ++ ']' :: rest))) ∧
      (∀ c ∈ w₁, isJsSpace c = true) ∧ (∀ c ∈ w₂, isJsSpace c = true) := by
  cases t with
  | nil => simp [squarePattern, matchAtoms] at h
  | cons x t =>
    simp only [squarePattern, matchAtoms] at h
    by_cases hx : x = '['
    · rw [if_pos hx] at h
      obtain ⟨w₁, t₁, ht₁, hw₁, h₁⟩ := matchSpaces_sound _ _ _ h
      obtain ⟨t₂, ht₂, h₂⟩ := matchAtoms_lits_sound _ _ _ _ h₁
      simp only [matchAtoms] at h₂
      obtain ⟨w₂, t₃, ht₃, hw₂, h₃⟩ := matchSpaces_sound _ _ _ h₂
      cases t₃ with
      | nil => simp [matchAtoms] at h₃
      | cons y t₄ =>
        simp only [matchAtoms] at h₃
        by_cases hy : y = ']'
        · rw [if_pos hy] at h₃
          simp only [Option.some.injEq] at h₃
          refine ⟨w₁, w₂, ?_, hw₁, hw₂⟩
          rw [hx, ht₁, ht₂, ht₃, hy, h₃]
        · rw [if_neg hy] at h₃
          exact absurd h₃ (by simp)
    · rw [if_neg hx] at h
      exact absurd h (by simp)

theorem head_not_space_of_trimmed (l : List Char) (h : trimChars l = l) (hne : l ≠ []) :
    isJsSpace (l.head hne) = false := by
  have hdef : trimChars l = (l.dropWhile isJsSpace).rdropWhile isJsSpace := rfl
  have hpre : trimChars l <+: l.dropWhile isJsSpace := by
    rw [hdef]
    exact List.rdropWhile_prefix _ _
  have hsuf : l.dropWhile isJsSpace <:+ l := List.dropWhile_suffix _
  rw [h] at hpre
  have hlen : (l.dropWhile isJsSpace).length = l.length :=
    le_antisymm hsuf.length_le hpre.length_le
  have heq : l.dropWhile isJsSpace = l := hsuf.eq_of_length hlen
  have hne' : l.dropWhile isJsSpace ≠ [] := by rwa [heq]
  have := List.head_dropWhile_not isJsSpace l hne'
  simp only [heq] at this
  simpa using this

theorem matchAtoms_lit_cons (c x : Char) (pattern : List Atom) (rest : List Char) :
    matchAtoms (Atom.lit c :: pattern) (x :: rest)
      = if x = c then matchAtoms pattern rest else none := by
  simp [matchAtoms]

theorem matchAtoms_spaces_cons (pattern : List Atom) (s : List Char) :
    matchAtoms (Atom.spaces :: pattern) s = matchSpaces (fun t => matchAtoms pattern t) s := by
  simp [matchAtoms]

theorem matchAtoms_square_exact (label s : List Char) (h : trimChars label = label)
    (hne : label ≠ []) :
    matchAtoms (squarePattern label) ('[' :: (label ++ ']' :: s)) = some s := by
  have hhead := head_not_space_of_trimmed label h hne
  have hstar : matchSpaces (fun t => matchAtoms (label.map Atom.lit ++ [Atom.spaces, Atom.lit ']']) t)
      (label ++ ']' :: s)
      = matchAtoms (label.map Atom.lit ++ [Atom.spaces, Atom.lit ']']) (label ++ ']' :: s) := by
    cases label with
    | nil => exact absurd rfl hne
    | cons c l =>
      simp only [List.head_cons] at hhead
      rw [List.cons_append, matchSpaces_of_not_space _ c _ hhead]
  rw [squarePattern, matchAtoms_lit_cons, if_pos rfl, matchAtoms_spaces_cons, hstar,
    matchAtoms_lits, matchAtoms_spaces_cons, matchSpaces_of_not_space _ ']' _ (by decide),
    matchAtoms_lit_cons, if_pos rfl]
  rfl

theorem replaceFirstMatch_square (label replacement p s : List Char)
    (h : trimChars label = label) (hne : label ≠ []) (hbr : '[' ∉ label)
    (hp : ¬ HasSquareOccurrence label p) :
    replaceFirstMatch (squarePattern label) replacement (p ++ '[' :: (label ++ ']' :: s))
      = some (p ++ (replacement ++ s)) := by
  induction p with
  | nil =>
    simp only [List.nil_append, replaceFirstMatch]
    rw [matchAtoms_square_exact label s h hne]
  | cons c p ih =>
    have hp' : ¬ HasSquareOccurrence label p := by
      rintro ⟨a, w₁, w₂, b, hpa, hw₁, hw₂⟩
      exact hp ⟨c :: a, w₁, w₂, b, by rw [hpa]; rfl, hw₁, hw₂⟩
    have hnone : matchAtoms (squarePattern label) (c :: p ++ '[' :: (label ++ ']' :: s)) = none := by
      cases hm : matchAtoms (squarePattern label) (c :: p ++ '[' :: (label ++ ']' :: s)) with
      | none => rfl
      | some rest =>
        exfalso
        obtain ⟨w₁, w₂, ht, hw₁, hw₂⟩ := matchAtoms_square_sound _ _ _ hm
        simp only [List.cons_append, List.cons.injEq] at ht
        obtain ⟨hc, ht⟩ := ht
        have ht' : p ++ '[' :: (label ++ ']' :: s) = (w₁ ++ (label ++ w₂)) ++ ']' :: rest := by
          rw [ht]; simp
        rcases List.append_eq_append_iff.mp ht' with ⟨a', hA, hB⟩ | ⟨c', hA, hB⟩
        · cases a' with
          | nil =>
            simp only [List.nil_append, List.cons.injEq] at hB
            exact absurd hB.1 (by decide)
          | cons y a₂ =>
            simp only [List.cons_append, List.cons.injEq] at hB
            have hmem : '[' ∈ w₁ ++ (label ++ w₂) := by
              rw [hA, ← hB.1]
              simp
            rcases List.mem_append.mp hmem with hm₁ | hm₂
            · exact absurd (hw₁ _ hm₁) (by decide)
            · rcases List.mem_append.mp hm₂ with hm₂ | hm₃
              · exact hbr hm₂
              · exact absurd (hw₂ _ hm₃) (by decide)
        · cases c' with
          | nil =>
            simp only [List.nil_append, List.cons.injEq] at hB
            exact absurd hB.1 (by decide)
          | cons y c₂ =>
            simp only [List.cons_append, List.cons.injEq] at hB
            apply hp
            refine ⟨[], w₁, w₂, c₂, ?_, hw₁, hw₂⟩
            rw [hc, hA, ← hB.1]
            simp
    rw [List.cons_append, replaceFirstMatch, ← List.cons_append, hnone, ih hp']
    rfl


theorem tryPattern_square (p s L N : String) (hL : jsTrim L = L) (hLe : L ≠ "")
    (hbr : '[' ∉ L.data) (hp : ¬ HasSquareOccurrence L.data p.data) :
    tryPattern (p ++ "[" ++ L ++ "]" ++ s) N ("\\[\\s*" ++ escapeRegExp L ++ "\\s*\\]", "[", "]")
      = some (p ++ "[" ++ N ++ "]" ++ s) := by
  have htrim : trimChars L.data = L.data := congrArg String.data hL
  have hne : L.data ≠ [] := by
    intro h
    apply hLe
    exact String.ext h
  have hpat : ("\\[\\s*" ++ escapeRegExp L ++ "\\s*\\]").data
      = "\\[\\s*".data ++ escapeRegExpChars L.data ++ "\\s*\\]".data := by
    simp [String.data_append, escapeRegExp]
  have hsrc : (p ++ "[" ++ L ++ "]" ++ s).data = p.data ++ '[' :: (L.data ++ ']' :: s.data) := by
    simp [String.data_append]
  simp only [tryPattern]
  rw [hpat, parseRegExp_square, hsrc]
  simp only [Option.some_bind]
  rw [replaceFirstMatch_square L.data _ p.data s.data htrim hne hbr hp]
  simp only [Option.map_some']
  congr 1
  apply String.ext
  simp [String.data_append]

/-- C10 (amended): for every prefix `p` and suffix `s` and all non-empty
trimmed labels `L` and `N` with `L` different from `N`, where `L` contains no
`[` and `p` contains no square-bracketed occurrence of `L` (white space allowed
between the brackets and the label),
`replaceFirstArchitectureLabel(p + "[" + L + "]" + s, L, N)` equals
`p + "[" + N + "]" + s`. -/
theorem replaceFirstArchitectureLabel_square_label (p s L N : String)
    (hL : jsTrim L = L) (hN : jsTrim N = N) (hLe : L ≠ "") (hNe : N ≠ "") (hLN : L ≠ N)
    (hbr : '[' ∉ L.data) (hp : ¬ HasSquareOccurrence L.data p.data) :
    replaceFirstArchitectureLabel (p ++ "[" ++ L ++ "]" ++ s) L N
      = p ++ "[" ++ N ++ "]" ++ s := by
  unfold replaceFirstArchitectureLabel
  simp only [hL, hN]
  rw [if_neg (by simp [hLe, hNe, hLN])]
  simp only [architecturePatterns, List.findSome?_cons]
  rw [tryPattern_square p s L N hL hLe hbr hp]

/-- C10 (amended), at the diagram of the specification: renaming `Idea` to
`Problem` in `flowchart TD\n  A[Idea] --> B[Architecture]`. -/
theorem replaceFirstArchitectureLabel_square_label_witness :
    replaceFirstArchitectureLabel
        ("flowchart TD\n  A" ++ "[" ++ "Idea" ++ "]" ++ " --> B[Architecture]") "Idea" "Problem"
      = "flowchart TD\n  A" ++ "[" ++ "Problem" ++ "]" ++ " --> B[Architecture]" :=
  replaceFirstArchitectureLabel_square_label "flowchart TD\n  A" " --> B[Architecture]"
    "Idea" "Problem" (by decide) (by decide) (by decide) (by decide) (by decide) (by decide)
    (by
      rintro ⟨a, w₁, w₂, b, h, -, -⟩
      have hmem : '[' ∈ "flowchart TD\n  A".data := by
        rw [h]
        simp
      revert hmem
      decide)

/-- C10 (as stated, refuted): with the label `a][a`, prefix `[a]` and empty
suffix, the prefix holds no bracketed occurrence of the label, yet the leftmost
match of the pattern starts inside the prefix and the result is `[x][a]`, not
`[a][x]`. -/
theorem replaceFirstArchitectureLabel_bracket_label_counterexample :
    jsTrim "a][a" = "a][a" ∧ jsTrim "x" = "x" ∧
    replaceFirstArchitectureLabel ("[a]" ++ "[" ++ "a][a" ++ "]" ++ "") "a][a" "x" = "[x][a]" ∧
    replaceFirstArchitectureLabel ("[a]" ++ "[" ++ "a][a" ++ "]" ++ "") "a][a" "x"
      ≠ "[a]" ++ "[" ++ "x" ++ "]" ++ "" := by
  decide

/-! ## Diagram node rename: priority of the delimited forms -/

theorem parseRegExp_escape (l : List Char) :
    parseRegExp (escapeRegExpChars l) = some (l.map Atom.lit) := by
  have h := parseRegExp_escape_append l []
  rw [List.append_nil] at h
  rw [h, parseRegExp.eq_def]
  simp

theorem parseRegExp_delimited (opening closing label : List Char) :
    parseRegExp (escapeRegExpChars opening ++ ('\\' :: 's' :: '*' ::
        (escapeRegExpChars label ++ ('\\' :: 's' :: '*' :: escapeRegExpChars closing))))
      = some (delimitedPattern opening closing label) := by
  rw [parseRegExp_escape_append, parseRegExp_spaces_cons, parseRegExp_escape_append,
    parseRegExp_spaces_cons, parseRegExp_escape]
  simp [delimitedPattern]

theorem parseRegExp_architecturePatterns (label : String)
    (entry : String × String × String)
    (h : entry ∈ architecturePatterns (escapeRegExp label)) :
    parseRegExp entry.1.data
      = some (delimitedPattern entry.2.1.data entry.2.2.data label.data) := by
  simp only [architecturePatterns, List.mem_cons, List.mem_singleton, List.not_mem_nil,
    or_false] at h
  rcases h with rfl | rfl | rfl | rfl | rfl | rfl <;>
    · rw [← parseRegExp_delimited]
      simp only [String.data_append, escapeRegExp]
      rfl

theorem matchSpaces_of_continuation (k : List Char → Option (List Char)) (t rest : List Char)
    (h : k t = some rest) : (matchSpaces k t).isSome = true := by
  cases t with
  | nil => simp [matchSpaces, h]
  | cons x s =>
    rw [matchSpaces]
    split_ifs
    · cases matchSpaces k s <;> simp [h]
    · simp [h]

theorem matchSpaces_complete (k : List Char → Option (List Char)) (w t rest : List Char)
    (hw : ∀ c ∈ w, isJsSpace c = true) (h : k t = some rest) :
    (matchSpaces k (w ++ t)).isSome = true := by
  induction w with
  | nil => exact matchSpaces_of_continuation k t rest h
  | cons x w ih =>
    have hx : isJsSpace x = true := hw x (List.mem_cons_self _ _)
    have ih' := ih (fun c hc => hw c (List.mem_cons_of_mem _ hc))
    rw [List.cons_append, matchSpaces, if_pos hx]
    cases hm : matchSpaces k (w ++ t) with
    | none => rw [hm] at ih'; simp at ih'
    | some r => simp

theorem matchAtoms_delimited_sound (opening closing label t rest : List Char)
    (h : matchAtoms (delimitedPattern opening closing label) t = some rest) :
    ∃ w₁ w₂, t = opening ++ (w₁ ++ (label ++ (w₂ ++ (closing ++ rest)))) ∧
      (∀ c ∈ w₁, isJsSpace c = true) ∧ (∀ c ∈ w₂, isJsSpace c = true) := by
  unfold delimitedPattern at h
  obtain ⟨t₁, ht₁, h₁⟩ := matchAtoms_lits_sound _ _ _ _ h
  rw [matchAtoms_spaces_cons] at h₁
  obtain ⟨w₁, t₂, ht₂, hw₁, h₂⟩ := matchSpaces_sound _ _ _ h₁
  obtain ⟨t₃, ht₃, h₃⟩ := matchAtoms_lits_sound _ _ _ _ h₂
  rw [matchAtoms_spaces_cons] at h₃
  obtain ⟨w₂, t₄, ht₄, hw₂, h₄⟩ := matchSpaces_sound _ _ _ h₃
  have h₄' : matchAtoms (closing.map Atom.lit ++ []) t₄ = some rest := by
    simpa using h₄
  obtain ⟨t₅, ht₅, h₅⟩ := matchAtoms_lits_sound _ _ _ _ h₄'
  simp only [matchAtoms, Option.some.injEq] at h₅
  refine ⟨w₁, w₂, ?_, hw₁, hw₂⟩
  rw [ht₁, ht₂, ht₃, ht₄, ht₅, h₅]

theorem matchAtoms_delimited_complete (opening closing label w₁ w₂ rest : List Char)
    (hw₁ : ∀ c ∈ w₁, isJsSpace c = true) (hw₂ : ∀ c ∈ w₂, isJsSpace c = true) :
    (matchAtoms (delimitedPattern opening closing label)
      (opening ++ (w₁ ++ (label ++ (w₂ ++ (closing ++ rest)))))).isSome = true := by
  unfold delimitedPattern
  rw [matchAtoms_lits, matchAtoms_spaces_cons]
  have hclose : matchAtoms (closing.map Atom.lit) (closing ++ rest) = some rest := by
    have := matchAtoms_lits closing [] rest
    simp only [List.append_nil] at this
    rw [this]
    rfl
  have hinner : (matchAtoms (Atom.spaces :: closing.map Atom.lit) (w₂ ++ (closing ++ rest))).isSome
      = true := by
    rw [matchAtoms_spaces_cons]
    exact matchSpaces_complete _ w₂ _ rest hw₂ hclose
  obtain ⟨r, hr⟩ := Option.isSome_iff_exists.mp hinner
  apply matchSpaces_complete _ w₁ _ r hw₁
  rw [matchAtoms_lits]
  exact hr

theorem replaceFirstMatch_eq_none (pattern : List Atom) (replacement source : List Char)
    (h : replaceFirstMatch pattern replacement source = none) :
    ∀ a t, source = a ++ t → matchAtoms pattern t = none := by
  induction source with
  | nil =>
    intro a t hat
    have ha : a = [] := (List.append_eq_nil.mp hat.symm).1
    have ht : t = [] := (List.append_eq_nil.mp hat.symm).2
    subst ha ht
    simp only [replaceFirstMatch] at h
    cases hm : matchAtoms pattern [] with
    | none => rfl
    | some r => rw [hm] at h; simp at h
  | cons c s ih =>
    rw [replaceFirstMatch] at h
    cases hm : matchAtoms pattern (c :: s) with
    | some r => rw [hm] at h; simp at h
    | none =>
      rw [hm] at h
      have hrec : replaceFirstMatch pattern replacement s = none := by
        cases hr : replaceFirstMatch pattern replacement s with
        | none => rfl
        | some r => rw [hr] at h; simp at h
      intro a t hat
      cases a with
      | nil =>
        simp only [List.nil_append] at hat
        rw [← hat]
        exact hm
      | cons x a =>
        simp only [List.cons_append, List.cons.injEq] at hat
        exact ih hrec a t hat.2

theorem replaceFirstMatch_eq_some (pattern : List Atom) (replacement source r : List Char)
    (h : replaceFirstMatch pattern replacement source = some r) :
    ∃ a t rest, source = a ++ t ∧ matchAtoms pattern t = some rest ∧
      r = a ++ (replacement ++ rest) ∧
      ∀ a₁ t₁, source = a₁ ++ t₁ → a₁.length < a.length → matchAtoms pattern t₁ = none := by
  induction source generalizing r with
  | nil =>
    simp only [replaceFirstMatch] at h
    cases hm : matchAtoms pattern [] with
    | none => rw [hm] at h; simp at h
    | some rest =>
      rw [hm] at h
      simp only [Option.map_some', Option.some.injEq] at h
      exact ⟨[], [], rest, rfl, hm, by rw [← h]; rfl, fun a₁ t₁ _ hlt => absurd hlt (by simp)⟩
  | cons c s ih =>
    rw [replaceFirstMatch] at h
    cases hm : matchAtoms pattern (c :: s) with
    | some rest =>
      rw [hm] at h
      simp only [Option.some.injEq] at h
      exact ⟨[], c :: s, rest, rfl, hm, by rw [← h]; rfl,
        fun a₁ t₁ _ hlt => absurd hlt (by simp)⟩
    | none =>
      rw [hm] at h
      cases hr : replaceFirstMatch pattern replacement s with
      | none => rw [hr] at h; simp at h
      | some r₀ =>
        rw [hr] at h
        simp only [Option.map_some', Option.some.injEq] at h
        obtain ⟨a, t, rest, hs, hmt, hr₀, hleft⟩ := ih r₀ hr
        refine ⟨c :: a, t, rest, by rw [hs]; rfl, hmt, by rw [← h, hr₀]; rfl, ?_⟩
        intro a₁ t₁ hat hlt
        cases a₁ with
        | nil =>
          simp only [List.nil_append] at hat
          rw [← hat]
          exact hm
        | cons x a₂ =>
          simp only [List.cons_append, List.cons.injEq] at hat
          exact hleft a₂ t₁ hat.2 (by simpa using hlt)

theorem tryPattern_eq (source label replacement : String) (entry : String × String × String)
    (h : entry ∈ architecturePatterns (escapeRegExp label)) :
    tryPattern source replacement entry
      = (replaceFirstMatch (delimitedPattern entry.2.1.data entry.2.2.data label.data)
          (entry.2.1.data ++ (replacement.data ++ entry.2.2.data)) source.data).map String.mk := by
  simp only [tryPattern]
  rw [parseRegExp_architecturePatterns label entry h]
  simp [String.data_append]

theorem tryPattern_eq_none_iff (source label replacement : String)
    (entry : String × String × String)
    (h : entry ∈ architecturePatterns (escapeRegExp label)) :
    tryPattern source replacement entry = none ↔
      ¬ FormOccurs entry.2.1.data entry.2.2.data label.data source.data := by
  rw [tryPattern_eq source label replacement entry h]
  constructor
  · intro hnone
    rintro ⟨before, t, hsrc, w₁, w₂, rest, ht, hw₁, hw₂⟩
    have hn : replaceFirstMatch (delimitedPattern entry.2.1.data entry.2.2.data label.data)
        (entry.2.1.data ++ (replacement.data ++ entry.2.2.data)) source.data = none := by
      cases hr : replaceFirstMatch (delimitedPattern entry.2.1.data entry.2.2.data label.data)
          (entry.2.1.data ++ (replacement.data ++ entry.2.2.data)) source.data with
      | none => rfl
      | some r => rw [hr] at hnone; simp at hnone
    have hm := replaceFirstMatch_eq_none _ _ _ hn before t hsrc
    have hc := matchAtoms_delimited_complete entry.2.1.data entry.2.2.data label.data
      w₁ w₂ rest hw₁ hw₂
    rw [← ht, hm] at hc
    simp at hc
  · intro hno
    cases hr : replaceFirstMatch (delimitedPattern entry.2.1.data entry.2.2.data label.data)
        (entry.2.1.data ++ (replacement.data ++ entry.2.2.data)) source.data with
    | none => rfl
    | some r =>
      exfalso
      obtain ⟨a, t, rest, hsrc, hm, -, -⟩ := replaceFirstMatch_eq_some _ _ _ _ hr
      obtain ⟨w₁, w₂, ht, hw₁, hw₂⟩ := matchAtoms_delimited_sound _ _ _ _ _ hm
      exact hno ⟨a, t, hsrc, w₁, w₂, rest, ht, hw₁, hw₂⟩

theorem tryPattern_eq_some (source label replacement : String)
    (entry : String × String × String) (replaced : String)
    (h : entry ∈ architecturePatterns (escapeRegExp label))
    (hr : tryPattern source replacement entry = some replaced) :
    ∃ a w₁ w₂ b,
      source.data = a ++ (entry.2.1.data ++ (w₁ ++ (label.data ++ (w₂ ++ (entry.2.2.data ++ b)))))
      ∧ (∀ c ∈ w₁, isJsSpace c = true) ∧ (∀ c ∈ w₂, isJsSpace c = true)
      ∧ (∀ a₁ t₁, source.data = a₁ ++ t₁ → a₁.length < a.length →
          ¬ StartsWithForm entry.2.1.data entry.2.2.data label.data t₁)
      ∧ replaced.data = a ++ (entry.2.1.data ++ (replacement.data ++ (entry.2.2.data ++ b))) := by
  rw [tryPattern_eq source label replacement entry h] at hr
  cases hm : replaceFirstMatch (delimitedPattern entry.2.1.data entry.2.2.data label.data)
      (entry.2.1.data ++ (replacement.data ++ entry.2.2.data)) source.data with
  | none => rw [hm] at hr; simp at hr
  | some r =>
    rw [hm] at hr
    simp only [Option.map_some', Option.some.injEq] at hr
    obtain ⟨a, t, rest, hsrc, hmt, hreq, hleft⟩ := replaceFirstMatch_eq_some _ _ _ _ hm
    obtain ⟨w₁, w₂, ht, hw₁, hw₂⟩ := matchAtoms_delimited_sound _ _ _ _ _ hmt
    refine ⟨a, w₁, w₂, rest, by rw [hsrc, ht], hw₁, hw₂, ?_, ?_⟩
    · intro a₁ t₁ hat hlt
      rintro ⟨v₁, v₂, rest₁, ht₁, hv₁, hv₂⟩
      have hnone := hleft a₁ t₁ hat hlt
      have hc := matchAtoms_delimited_complete entry.2.1.data entry.2.2.data label.data
        v₁ v₂ rest₁ hv₁ hv₂
      rw [← ht₁, hnone] at hc
      simp at hc
    · rw [← hr, hreq]
      simp

theorem findSome?_of_none (f : String × String × String → Option String)
    (l : List (String × String × String)) (h : ∀ e ∈ l, f e = none) :
    l.findSome? f = none := by
  induction l with
  | nil => rfl
  | cons x l ih =>
    rw [List.findSome?_cons, h x (List.mem_cons_self _ _)]
    exact ih (fun e he => h e (List.mem_cons_of_mem _ he))

theorem findSome?_first (f : String × String × String → Option String)
    (before after : List (String × String × String)) (entry : String × String × String)
    (r : String) (h : ∀ e ∈ before, f e = none) (hr : f entry = some r) :
    (before ++ entry :: after).findSome? f = some r := by
  induction before with
  | nil => simp [List.findSome?_cons, hr]
  | cons x l ih =>
    rw [List.cons_append, List.findSome?_cons, h x (List.mem_cons_self _ _)]
    exact ih (fun e he => h e (List.mem_cons_of_mem _ he))

theorem replaceFirstPlain_eq_some (current replacement source r : List Char)
    (h : replaceFirstPlain current replacement source = some r) :
    ∃ a b, source = a ++ (current ++ b) ∧ r = a ++ (replacement ++ b) ∧
      ∀ a₁ t₁, source = a₁ ++ t₁ → a₁.length < a.length → ¬ current <+: t₁ := by
  induction source generalizing r with
  | nil =>
    rw [replaceFirstPlain] at h
    split_ifs at h with hc
    simp only [Option.some.injEq] at h
    exact ⟨[], [], by simp [hc], by rw [← h]; simp, fun a₁ t₁ _ hlt => absurd hlt (by simp)⟩
  | cons c s ih =>
    rw [replaceFirstPlain] at h
    split_ifs at h with hp
    · simp only [Option.some.injEq] at h
      obtain ⟨b, hb⟩ := List.isPrefixOf_iff_prefix.mp hp
      refine ⟨[], b, by simp [hb], ?_, fun a₁ t₁ _ hlt => absurd hlt (by simp)⟩
      rw [← h, ← hb]
      simp
    · cases hr : replaceFirstPlain current replacement s with
      | none => rw [hr] at h; simp at h
      | some r₀ =>
        rw [hr] at h
        simp only [Option.map_some', Option.some.injEq] at h
        obtain ⟨a, b, hs, hr₀, hleft⟩ := ih r₀ hr
        refine ⟨c :: a, b, by rw [hs]; rfl, by rw [← h, hr₀]; rfl, ?_⟩
        intro a₁ t₁ hat hlt
        cases a₁ with
        | nil =>
          simp only [List.nil_append] at hat
          rw [← hat]
          intro hpre
          exact hp (List.isPrefixOf_iff_prefix.mpr hpre)
        | cons x a₂ =>
          simp only [List.cons_append, List.cons.injEq] at hat
          exact hleft a₂ t₁ hat.2 (by simpa using hlt)

theorem replaceFirstPlain_eq_none (current replacement source : List Char)
    (h : replaceFirstPlain current replacement source = none) : ¬ current <:+: source := by
  induction source with
  | nil =>
    rw [replaceFirstPlain] at h
    split_ifs at h with hc
    intro hin
    exact hc (List.infix_nil.mp hin)
  | cons c s ih =>
    rw [replaceFirstPlain] at h
    split_ifs at h with hp
    have hrec : replaceFirstPlain current replacement s = none := by
      cases hr : replaceFirstPlain current replacement s with
      | none => rfl
      | some r => rw [hr] at h; simp at h
    intro hin
    rcases List.infix_cons_iff.mp hin with hpre | hin'
    · exact hp (List.isPrefixOf_iff_prefix.mpr hpre)
    · exact ih hrec hin'

theorem infix_of_formOccurs (opening closing label text : List Char)
    (h : FormOccurs opening closing label text) : label <:+: text := by
  obtain ⟨before, t, hsrc, w₁, w₂, rest, ht, -, -⟩ := h
  exact ⟨before ++ (opening ++ w₁), w₂ ++ (closing ++ rest), by rw [hsrc, ht]; simp⟩

/-- C11: for every source text and every old and new label, every regular
expression of the table can be built (no error is raised); if the trimmed old
label does not occur as a substring of the source, `replaceFirstArchitectureLabel`
returns the source unchanged; and it returns the source unchanged when either
trimmed label is empty or the two trimmed labels are equal. -/
theorem replaceFirstArchitectureLabel_absent_label (source oldLabel newLabel : String) :
    (∀ entry ∈ architecturePatterns (escapeRegExp (jsTrim oldLabel)),
      (parseRegExp entry.1.data).isSome = true) ∧
    (¬ (jsTrim oldLabel).data <:+: source.data →
      replaceFirstArchitectureLabel source oldLabel newLabel = source) ∧
    (jsTrim oldLabel = "" ∨ jsTrim newLabel = "" ∨ jsTrim oldLabel = jsTrim newLabel →
      replaceFirstArchitectureLabel source oldLabel newLabel = source) := by
  refine ⟨?_, ?_, ?_⟩
  · intro entry hentry
    rw [parseRegExp_architecturePatterns _ entry hentry]
    rfl
  · intro habsent
    simp only [replaceFirstArchitectureLabel]
    split_ifs with hcond
    · rfl
    · have hnone : (architecturePatterns (escapeRegExp (jsTrim oldLabel))).findSome?
          (tryPattern source (jsTrim newLabel)) = none := by
        apply findSome?_of_none
        intro e he
        rw [tryPattern_eq_none_iff source (jsTrim oldLabel) (jsTrim newLabel) e he]
        intro hocc
        exact habsent (infix_of_formOccurs _ _ _ _ hocc)
      rw [hnone]
      cases hp : replaceFirstPlain (jsTrim oldLabel).data (jsTrim newLabel).data source.data with
      | none => rfl
      | some r =>
        exfalso
        obtain ⟨a, b, hsrc, -, -⟩ := replaceFirstPlain_eq_some _ _ _ _ hp
        exact habsent ⟨a, b, by rw [hsrc]; simp⟩
  · intro hcond
    simp only [replaceFirstArchitectureLabel]
    rw [if_pos]
    rcases hcond with h | h | h <;> simp [h]

/-- C11, at the diagram of the specification: a label that is absent, and two
labels that are equal once trimmed. -/
theorem replaceFirstArchitectureLabel_absent_label_witness :
    replaceFirstArchitectureLabel "flowchart TD\n  A[Idea] --> B[Architecture]" "Queue" "Worker"
      = "flowchart TD\n  A[Idea] --> B[Architecture]" ∧
    replaceFirstArchitectureLabel "flowchart TD\n  A[Idea] --> B[Architecture]" " Idea" "Idea "
      = "flowchart TD\n  A[Idea] --> B[Architecture]" :=
  ⟨(replaceFirstArchitectureLabel_absent_label
      "flowchart TD\n  A[Idea] --> B[Architecture]" "Queue" "Worker").2.1 (by decide),
   (replaceFirstArchitectureLabel_absent_label
      "flowchart TD\n  A[Idea] --> B[Architecture]" " Idea" "Idea ").2.2
      (Or.inr (Or.inr (by decide)))⟩

/-- C12 (as stated, refuted), at three inputs.  The labels `a ` and `a` are
distinct and not empty and `[a ]` stands in the source, yet nothing is
substituted, because the labels are compared after trimming.  In `(a) [ a ]`
the text `[a]` does not occur and `(a)` does, yet the square form is the one
replaced, because white space is allowed inside the delimiters.  In `[a[a[a]`
the bare occurrence of `a[a` that starts at the second character overlaps the
replaced one and is not left as it was. -/
theorem replaceFirstArchitectureLabel_priority_counterexample :
    ("a " ≠ "a" ∧ "a " ≠ "" ∧ "a" ≠ "" ∧ "[a ]".data <:+: "[a ]".data ∧
      replaceFirstArchitectureLabel "[a ]" "a " "a" = "[a ]") ∧
    (¬ "[a]".data <:+: "(a) [ a ]".data ∧ ¬ "((a))".data <:+: "(a) [ a ]".data ∧
      ¬ "[[a]]".data <:+: "(a) [ a ]".data ∧ "(a)".data <:+: "(a) [ a ]".data ∧
      replaceFirstArchitectureLabel "(a) [ a ]" "a" "b" = "(a) [b]") ∧
    ("a[a".data <+: "[a[a[a]".data.drop 1 ∧
      replaceFirstArchitectureLabel "[a[a[a]" "a[a" "x" = "[a[x]" ∧
      ¬ "a[a".data <:+: "[a[x]".data) := by
  decide

/-- C12 (amended): for every source text and labels whose trimmed values `L`
and `N` are not empty and differ, the table of delimited forms is searched in
its order (square, double parenthesis, double square, parenthesis, curly,
quoted), a form occurring when its opening delimiter, white space or none, `L`,
white space or none and its closing delimiter stand in sequence.  For the first
form that occurs anywhere in the source, the result is the source with the
leftmost occurrence of that form replaced by `N` between the same delimiters,
the text before and after that occurrence being kept.  When no form occurs, the
leftmost bare occurrence of `L` is replaced by `N`, and the source is returned
unchanged when there is none. -/
theorem replaceFirstArchitectureLabel_priority (source oldLabel newLabel L N : String)
    (hL : jsTrim oldLabel = L) (hN : jsTrim newLabel = N)
    (hLe : L ≠ "") (hNe : N ≠ "") (hLN : L ≠ N) :
    (∀ before entry after,
      architecturePatterns (escapeRegExp L) = before ++ entry :: after →
      (∀ e ∈ before, ¬ FormOccurs e.2.1.data e.2.2.data L.data source.data) →
      FormOccurs entry.2.1.data entry.2.2.data L.data source.data →
      ∃ a w₁ w₂ b,
        source.data
          = a ++ (entry.2.1.data ++ (w₁ ++ (L.data ++ (w₂ ++ (entry.2.2.data ++ b))))) ∧
        (∀ c ∈ w₁, isJsSpace c = true) ∧ (∀ c ∈ w₂, isJsSpace c = true) ∧
        (∀ a₁ t₁, source.data = a₁ ++ t₁ → a₁.length < a.length →
          ¬ StartsWithForm entry.2.1.data entry.2.2.data L.data t₁) ∧
        (replaceFirstArchitectureLabel source oldLabel newLabel).data
          = a ++ (entry.2.1.data ++ (N.data ++ (entry.2.2.data ++ b)))) ∧
    ((∀ e ∈ architecturePatterns (escapeRegExp L),
        ¬ FormOccurs e.2.1.data e.2.2.data L.data source.data) →
      (L.data <:+: source.data →
        ∃ a b, source.data = a ++ (L.data ++ b) ∧
          (∀ a₁ t₁, source.data = a₁ ++ t₁ → a₁.length < a.length → ¬ L.data <+: t₁) ∧
          (replaceFirstArchitectureLabel source oldLabel newLabel).data
            = a ++ (N.data ++ b)) ∧
      (¬ L.data <:+: source.data →
        replaceFirstArchitectureLabel source oldLabel newLabel = source)) := by
  have hcond : ¬ ((decide (L = "") || decide (N = "") || decide (L = N)) = true) := by
    simp [hLe, hNe, hLN]
  constructor
  · intro before entry after htable hbefore hocc
    have hmem : ∀ e ∈ before ++ entry :: after,
        e ∈ architecturePatterns (escapeRegExp L) := by
      intro e he
      rw [htable]
      exact he
    have hnone : ∀ e ∈ before, tryPattern source N e = none := by
      intro e he
      rw [tryPattern_eq_none_iff source L N e (hmem e (List.mem_append_left _ he))]
      exact hbefore e he
    have hentry : entry ∈ architecturePatterns (escapeRegExp L) :=
      hmem entry (List.mem_append_right _ (List.mem_cons_self _ _))
    cases hr : tryPattern source N entry with
    | none =>
      exact absurd hocc ((tryPattern_eq_none_iff source L N entry hentry).mp hr)
    | some replaced =>
      obtain ⟨a, w₁, w₂, b, hsrc, hw₁, hw₂, hleft, hres⟩ :=
        tryPattern_eq_some source L N entry replaced hentry hr
      refine ⟨a, w₁, w₂, b, hsrc, hw₁, hw₂, hleft, ?_⟩
      simp only [replaceFirstArchitectureLabel, hL, hN]
      rw [if_neg hcond, htable, findSome?_first _ before after entry replaced hnone hr]
      exact hres
  · intro hnoform
    have hnone : (architecturePatterns (escapeRegExp L)).findSome? (tryPattern source N)
        = none := by
      apply findSome?_of_none
      intro e he
      rw [tryPattern_eq_none_iff source L N e he]
      exact hnoform e he
    constructor
    · intro hin
      cases hp : replaceFirstPlain L.data N.data source.data with
      | none => exact absurd hin (replaceFirstPlain_eq_none _ _ _ hp)
      | some r =>
        obtain ⟨a, b, hsrc, hr, hleft⟩ := replaceFirstPlain_eq_some _ _ _ _ hp
        refine ⟨a, b, hsrc, hleft, ?_⟩
        simp only [replaceFirstArchitectureLabel, hL, hN]
        rw [if_neg hcond, hnone, hp]
        exact hr
    · intro hnot
      have h := (replaceFirstArchitectureLabel_absent_label source oldLabel newLabel).2.1
      rw [hL] at h
      exact h hnot

/-- C12 (amended), at a source where a parenthesised and a bare occurrence
stand before the square one: the square form, first in the table, is the one
replaced. -/
theorem replaceFirstArchitectureLabel_priority_witness :
    ∃ a w₁ w₂ b,
      "x (a) a [ a ] a".data = a ++ ("[".data ++ (w₁ ++ ("a".data ++ (w₂ ++ ("]".data ++ b))))) ∧
      (∀ c ∈ w₁, isJsSpace c = true) ∧ (∀ c ∈ w₂, isJsSpace c = true) ∧
      (∀ a₁ t₁, "x (a) a [ a ] a".data = a₁ ++ t₁ → a₁.length < a.length →
        ¬ StartsWithForm "[".data "]".data "a".data t₁) ∧
      (replaceFirstArchitectureLabel "x (a) a [ a ] a" " a" "b ").data
        = a ++ ("[".data ++ ("b".data ++ ("]".data ++ b))) :=
  (replaceFirstArchitectureLabel_priority "x (a) a [ a ] a" " a" "b " "a" "b"
      (by decide) (by decide) (by decide) (by decide) (by decide)).1
    [] ("\\[\\s*" ++ escapeRegExp "a" ++ "\\s*\\]", "[", "]") _ rfl
    (fun e he => absurd he (List.not_mem_nil e))
    ⟨"x (a) a ".data, "[ a ] a".data, rfl, " ".data, " ".data, " a".data, rfl,
      by decide, by decide⟩

/-! ## Direct edits of one field: theorems -/

theorem mem_normalizeNextSteps_trimmed (v : JsValue) (e : String)
    (h : e ∈ normalizeNextSteps v) : jsTrim e = e := by
  unfold normalizeNextSteps at h
  split at h
  · obtain ⟨x, -, hx⟩ := List.mem_map.mp (List.mem_filter.mp h).1
    rw [← hx, jsTrim_idempotent]
  · obtain ⟨x, -, hx⟩ := List.mem_map.mp (List.mem_filter.mp h).1
    rw [← hx, jsTrim_idempotent]
  · revert e
    decide

theorem normalizeNextSteps_of_normalized (steps : List String)
    (h : ∀ e ∈ steps, e ≠ "" ∧ jsTrim e = e) :
    normalizeNextSteps (.arr (steps.map JsValue.str)) = steps := by
  simp only [normalizeNextSteps, List.map_map]
  induction steps with
  | nil => rfl
  | cons e rest ih =>
    obtain ⟨hne, htrim⟩ := h e (List.mem_cons_self _ _)
    have hstep : jsTrim ((JsValue.str e).or (.str "")).toJsString = e := by
      simp [JsValue.or, JsValue.truthy, hne, JsValue.toJsString, htrim]
    simp only [List.map_cons, Function.comp, hstep]
    rw [List.filter_cons_of_pos (by simpa using hne)]
    congr 1
    exact ih (fun x hx => h x (List.mem_cons_of_mem _ hx))

/-- C13: for every artifact state produced by `normalizeArtifacts` and every
string `v`, the direct edit `updateArtifactField(f, v)` of `f` among
`assistant_response`, `summary` and `architecture` yields the state whose field
`f` is `v` and whose three other fields, the `next_steps` list included, are
those of the state before the edit. -/
theorem updateArtifactField_frame (s : AppState) (candidate : JsValue) (v : String)
    (hs : s.artifacts = normalizeArtifacts candidate) :
    (updateArtifactField "assistant_response" (.str v) s).artifacts
      = { s.artifacts with assistant_response := v } ∧
    (updateArtifactField "summary" (.str v) s).artifacts
      = { s.artifacts with summary := v } ∧
    (updateArtifactField "architecture" (.str v) s).artifacts
      = { s.artifacts with architecture := v } ∧
    (step s (.updateArtifactField "assistant_response" (.str v))).artifacts
      = { s.artifacts with assistant_response := v } ∧
    (step s (.updateArtifactField "summary" (.str v))).artifacts
      = { s.artifacts with summary := v } ∧
    (step s (.updateArtifactField "architecture" (.str v))).artifacts
      = { s.artifacts with architecture := v } := by
  have hsteps : normalizeNextSteps (.arr (s.artifacts.next_steps.map JsValue.str))
      = s.artifacts.next_steps := by
    apply normalizeNextSteps_of_normalized
    intro e he
    rw [hs, normalizeArtifacts_next_steps] at he
    exact ⟨mem_normalizeNextSteps_ne_empty _ e he, mem_normalizeNextSteps_trimmed _ e he⟩
  have h1 : (updateArtifactField "assistant_response" (.str v) s).artifacts
      = { s.artifacts with assistant_response := v } := by
    simp [updateArtifactField, normalizeArtifacts, spreadArtifacts, JsValue.truthy,
      JsValue.typeofObject, JsValue.get, List.lookup, hsteps]
  have h2 : (updateArtifactField "summary" (.str v) s).artifacts
      = { s.artifacts with summary := v } := by
    simp [updateArtifactField, normalizeArtifacts, spreadArtifacts, JsValue.truthy,
      JsValue.typeofObject, JsValue.get, List.lookup, hsteps]
  have h3 : (updateArtifactField "architecture" (.str v) s).artifacts
      = { s.artifacts with architecture := v } := by
    simp [updateArtifactField, normalizeArtifacts, spreadArtifacts, JsValue.truthy,
      JsValue.typeofObject, JsValue.get, List.lookup, hsteps]
  exact ⟨h1, h2, h3, h1, h2, h3⟩

/-- C13, at the artifacts of a model payload: editing the summary. -/
theorem updateArtifactField_frame_witness :
    (updateArtifactField "summary" (.str "## New")
        { initialState true none with artifacts := normalizeArtifacts samplePayload }).artifacts
      = { normalizeArtifacts samplePayload with summary := "## New" } :=
  (updateArtifactField_frame
    { initialState true none with artifacts := normalizeArtifacts samplePayload }
    samplePayload "## New" rfl).2.1

/-! ## The server: theorems -/

namespace Server

theorem parseSidekickPayload_eq_ok (jsonParse : String → Option JsValue) (rawText : String)
    (value : Artifacts) (h : parseSidekickPayload jsonParse rawText = .ok value) :
    ∃ parsed, decodeJson jsonParse (stripCodeFence rawText) = .ok parsed ∧
      value = normalizePayload parsed ∧ SidekickResponseSchema (normalizePayload parsed) = true := by
  unfold parseSidekickPayload at h
  split at h
  · exact absurd h (by simp)
  · exact absurd h (by simp)
  · exact absurd h (by simp)
  · rename_i parsed _ _ hdec
    split_ifs at h with hschema
    · simp only [Except.ok.injEq] at h
      exact ⟨parsed, hdec, h.symm, hschema⟩

/-- C14: whenever `parseSidekickPayload` returns a value, the value (a record of
exactly the four fields) has between 3 and 20 steps, each a non-empty string,
and non-empty `assistant_response`, `summary` and `architecture`; and whenever
the decoded text gives fewer than 3 or more than 20 non-empty steps, or an
empty text field, `parseSidekickPayload` throws instead of returning. -/
theorem parseSidekickPayload_schema (jsonParse : String → Option JsValue) (rawText : String) :
    (∀ value, parseSidekickPayload jsonParse rawText = .ok value →
      3 ≤ value.next_steps.length ∧ value.next_steps.length ≤ 20 ∧
      (∀ step ∈ value.next_steps, step ≠ "") ∧
      value.assistant_response ≠ "" ∧ value.summary ≠ "" ∧ value.architecture ≠ "") ∧
    (∀ parsed, decodeJson jsonParse (stripCodeFence rawText) = .ok parsed →
      ((normalizePayload parsed).next_steps.length < 3 ∨
        20 < (normalizePayload parsed).next_steps.length ∨
        (normalizePayload parsed).assistant_response = "" ∨
        (normalizePayload parsed).summary = "" ∨
        (normalizePayload parsed).architecture = "") →
      ∃ e, parseSidekickPayload jsonParse rawText = .error e) := by
  constructor
  · intro value h
    obtain ⟨parsed, -, hval, hschema⟩ := parseSidekickPayload_eq_ok jsonParse rawText value h
    rw [← hval] at hschema
    simp only [SidekickResponseSchema, Bool.and_eq_true, bne_iff_ne, ne_eq, List.all_eq_true,
      decide_eq_true_eq] at hschema
    obtain ⟨⟨⟨⟨⟨h1, h2⟩, h3⟩, h4⟩, h5⟩, h6⟩ := hschema
    exact ⟨h5, h6, h4, h1, h2, h3⟩
  · intro parsed hdec hbad
    cases hres : parseSidekickPayload jsonParse rawText with
    | error e => exact ⟨e, rfl⟩
    | ok value =>
      exfalso
      obtain ⟨parsed', hdec', hval, hschema⟩ :=
        parseSidekickPayload_eq_ok jsonParse rawText value hres
      rw [hdec] at hdec'
      simp only [Except.ok.injEq] at hdec'
      subst hdec'
      simp only [SidekickResponseSchema, Bool.and_eq_true, bne_iff_ne, ne_eq, List.all_eq_true,
        decide_eq_true_eq] at hschema
      obtain ⟨⟨⟨⟨⟨h1, h2⟩, h3⟩, -⟩, h5⟩, h6⟩ := hschema
      rcases hbad with hb | hb | hb | hb | hb
      · omega
      · omega
      · exact h1 hb
      · exact h2 hb
      · exact h3 hb

/-- C14, at a model text that decodes to the sample payload, and at one that
decodes to an object with a summary only. -/
theorem parseSidekickPayload_schema_witness :
    (3 ≤ (normalizePayload samplePayload).next_steps.length ∧
      (normalizePayload samplePayload).next_steps.length ≤ 20 ∧
      (∀ step ∈ (normalizePayload samplePayload).next_steps, step ≠ "") ∧
      (normalizePayload samplePayload).assistant_response ≠ "" ∧
      (normalizePayload samplePayload).summary ≠ "" ∧
      (normalizePayload samplePayload).architecture ≠ "") ∧
    ∃ e, parseSidekickPayload scenarioParse "\x7b\"summary\":\"Only a summary\"\x7d" = .error e :=
  ⟨(parseSidekickPayload_schema scenarioParse sampleJson).1 (normalizePayload samplePayload)
      rfl,
   (parseSidekickPayload_schema scenarioParse "\x7b\"summary\":\"Only a summary\"\x7d").2
      (.obj [("summary", .str "Only a summary")]) rfl (Or.inl (by decide))⟩


theorem dropWhile_self_of_trimmed (l : List Char) (h : trimChars l = l) :
    l.dropWhile isJsSpace = l := by
  have hdef : trimChars l = (l.dropWhile isJsSpace).rdropWhile isJsSpace := rfl
  have hpre : trimChars l <+: l.dropWhile isJsSpace := by
    rw [hdef]
    exact List.rdropWhile_prefix _ _
  have hsuf : l.dropWhile isJsSpace <:+ l := List.dropWhile_suffix _
  rw [h] at hpre
  exact hsuf.eq_of_length (le_antisymm hsuf.length_le hpre.length_le)

theorem reverse_dropWhile_self_of_trimmed (l : List Char) (h : trimChars l = l) :
    l.reverse.dropWhile isJsSpace = l.reverse := by
  have h1 := dropWhile_self_of_trimmed l h
  have h2 : trimChars l = (l.reverse.dropWhile isJsSpace).reverse := by
    unfold trimChars
    rw [h1]
  rw [h] at h2
  have h3 := congrArg List.reverse h2
  rw [List.reverse_reverse] at h3
  exact h3.symm

theorem dropWhile_append_of_head (p : Char → Bool) (a b : List Char) (hne : b ≠ [])
    (hb : p (b.head hne) = false) : (a ++ b).dropWhile p = a.dropWhile p ++ b := by
  induction a with
  | nil =>
    simp only [List.nil_append, List.dropWhile_nil]
    exact dropWhile_eq_self_of_head p b (fun _ => hb)
  | cons x a ih =>
    by_cases hx : p x = true
    · simp [List.dropWhile_cons, hx, ih]
    · simp [List.dropWhile_cons, hx]

theorem dropWhile_trimmed_append (l t : List Char) (h : trimChars l = l) (hne : l ≠ []) :
    (l ++ t).dropWhile isJsSpace = l ++ t := by
  have hhead := head_not_space_of_trimmed l h hne
  apply dropWhile_eq_self_of_head
  intro hl
  cases l with
  | nil => exact absurd rfl hne
  | cons c l => simpa using hhead

theorem trimChars_eq_self (l : List Char) (h₁ : l.dropWhile isJsSpace = l)
    (h₂ : l.reverse.dropWhile isJsSpace = l.reverse) : trimChars l = l := by
  unfold trimChars
  rw [h₁, h₂, List.reverse_reverse]

/-- What is left of `[fence](json)\n` + `j` + `\n[fence]` once the opening
fence is removed, with its closing fence removed too: `j`. -/
theorem stripClosingFence_after_opening (j : List Char) (h : trimChars j = j) :
    stripClosingFence (('\n' :: (j ++ ['\n', '`', '`', '`'])).dropWhile isJsSpace) = j := by
  by_cases hne : j = []
  · subst hne
    decide
  · have hnl : isJsSpace '\n' = true := by decide
    rw [List.dropWhile_cons, if_pos hnl, dropWhile_trimmed_append j _ h hne]
    have hrev : (j ++ ['\n', '`', '`', '`']).reverse = '`' :: '`' :: '`' :: '\n' :: j.reverse := by
      simp
    unfold stripClosingFence
    rw [hrev]
    have hpre : fenceMark.isPrefixOf ('`' :: '`' :: '`' :: '\n' :: j.reverse) = true := by
      simp [fenceMark, List.isPrefixOf]
    rw [if_pos hpre]
    simp only [List.drop_succ_cons, List.drop_zero]
    rw [List.dropWhile_cons, if_pos hnl, reverse_dropWhile_self_of_trimmed j h,
      List.reverse_reverse]

theorem trimChars_fenced (m : List Char) :
    trimChars ('`' :: (m ++ ['`'])) = '`' :: (m ++ ['`']) := by
  apply trimChars_eq_self
  · rw [List.dropWhile_cons, if_neg (by decide)]
  · have : ('`' :: (m ++ ['`'])).reverse = '`' :: (m.reverse ++ ['`']) := by simp
    rw [this, List.dropWhile_cons, if_neg (by decide)]

theorem stripCodeFence_json_fence (j : String) (h : jsTrim j = j) :
    stripCodeFence ("```json\n" ++ j ++ "\n```") = j := by
  have hj : trimChars j.data = j.data := congrArg String.data h
  have hdata : ("```json\n" ++ j ++ "\n```").data
      = '`' :: (('`' :: '`' :: 'j' :: 's' :: 'o' :: 'n' :: '\n' :: (j.data ++ ['\n', '`', '`']))
          ++ ['`']) := by
    simp [String.data_append]
  have htext : jsTrim ("```json\n" ++ j ++ "\n```") = "```json\n" ++ j ++ "\n```" := by
    apply String.ext
    simp only [jsTrim]
    rw [hdata, trimChars_fenced]
  have hdata' : ("```json\n" ++ j ++ "\n```").data
      = '`' :: '`' :: '`' :: 'j' :: 's' :: 'o' :: 'n' :: '\n' :: (j.data ++ ['\n', '`', '`', '`']) := by
    simp [String.data_append]
  simp only [stripCodeFence, htext]
  rw [hdata']
  have hpre : fenceMark.isPrefixOf
      ('`' :: '`' :: '`' :: 'j' :: 's' :: 'o' :: 'n' :: '\n' :: (j.data ++ ['\n', '`', '`', '`']))
      = true := by
    simp [fenceMark, List.isPrefixOf]
  rw [if_pos hpre]
  have hopen : stripOpeningFence
      ('`' :: '`' :: '`' :: 'j' :: 's' :: 'o' :: 'n' :: '\n' :: (j.data ++ ['\n', '`', '`', '`']))
      = ('\n' :: (j.data ++ ['\n', '`', '`', '`'])).dropWhile isJsSpace := by
    unfold stripOpeningFence
    rw [if_pos hpre]
    simp [startsWithJsonWord]
  rw [hopen, stripClosingFence_after_opening j.data hj]
  exact h

theorem startsWithJsonWord_newline (t : List Char) :
    startsWithJsonWord ('\n' :: t) = false := by
  unfold startsWithJsonWord
  split
  · rename_i a b c d tail heq
    simp only [List.cons.injEq] at heq
    obtain ⟨ha, -⟩ := heq
    subst ha
    simp
  · rfl

theorem stripCodeFence_plain_fence (j : String) (h : jsTrim j = j) :
    stripCodeFence ("```\n" ++ j ++ "\n```") = j := by
  have hj : trimChars j.data = j.data := congrArg String.data h
  have hdata : ("```\n" ++ j ++ "\n```").data
      = '`' :: (('`' :: '`' :: '\n' :: (j.data ++ ['\n', '`', '`'])) ++ ['`']) := by
    simp [String.data_append]
  have htext : jsTrim ("```\n" ++ j ++ "\n```") = "```\n" ++ j ++ "\n```" := by
    apply String.ext
    simp only [jsTrim]
    rw [hdata, trimChars_fenced]
  have hdata' : ("```\n" ++ j ++ "\n```").data
      = '`' :: '`' :: '`' :: '\n' :: (j.data ++ ['\n', '`', '`', '`']) := by
    simp [String.data_append]
  simp only [stripCodeFence, htext]
  rw [hdata']
  have hpre : fenceMark.isPrefixOf
      ('`' :: '`' :: '`' :: '\n' :: (j.data ++ ['\n', '`', '`', '`'])) = true := by
    simp [fenceMark, List.isPrefixOf]
  rw [if_pos hpre]
  have hopen : stripOpeningFence
      ('`' :: '`' :: '`' :: '\n' :: (j.data ++ ['\n', '`', '`', '`']))
      = ('\n' :: (j.data ++ ['\n', '`', '`', '`'])).dropWhile isJsSpace := by
    unfold stripOpeningFence
    rw [if_pos hpre]
    have hword : startsWithJsonWord
        (List.drop 3 ('`' :: '`' :: '`' :: '\n' :: (j.data ++ ['\n', '`', '`', '`']))) = false :=
      startsWithJsonWord_newline _
    rw [hword]
    simp
  rw [hopen, stripClosingFence_after_opening j.data hj]
  exact h

theorem stripCodeFence_of_no_fence (text : String)
    (h : fenceMark.isPrefixOf (jsTrim text).data = false) : stripCodeFence text = jsTrim text := by
  simp [stripCodeFence, h]

/-- C15: for every text `j` with no leading or trailing white space that does
not itself start with the fence mark (as every JSON object text, which starts
with `{`), `stripCodeFence` of `j` wrapped in a fence, with or without the word
`json`, is `j`, hence `parseSidekickPayload` of the fenced text equals
`parseSidekickPayload(j)`; and for every text that does not start with the
fence mark after trimming, `stripCodeFence` returns the trimmed text. -/
theorem stripCodeFence_fenced (j : String) (htrim : jsTrim j = j)
    (hstart : fenceMark.isPrefixOf j.data = false) :
    stripCodeFence ("```json\n" ++ j ++ "\n```") = j ∧
    stripCodeFence ("```\n" ++ j ++ "\n```") = j ∧
    (∀ jsonParse, parseSidekickPayload jsonParse ("```json\n" ++ j ++ "\n```")
        = parseSidekickPayload jsonParse j ∧
      parseSidekickPayload jsonParse ("```\n" ++ j ++ "\n```")
        = parseSidekickPayload jsonParse j) ∧
    (∀ text, fenceMark.isPrefixOf (jsTrim text).data = false →
      stripCodeFence text = jsTrim text) := by
  have hself : stripCodeFence j = j := by
    rw [stripCodeFence_of_no_fence j (by rw [htrim]; exact hstart), htrim]
  refine ⟨stripCodeFence_json_fence j htrim, stripCodeFence_plain_fence j htrim, ?_,
    stripCodeFence_of_no_fence⟩
  intro jsonParse
  simp only [parseSidekickPayload, stripCodeFence_json_fence j htrim,
    stripCodeFence_plain_fence j htrim, hself, and_self]

/-- C15, at the JSON text of the sample payload. -/
theorem stripCodeFence_fenced_witness :
    stripCodeFence ("```json\n" ++ sampleJson ++ "\n```") = sampleJson ∧
    stripCodeFence ("```\n" ++ sampleJson ++ "\n```") = sampleJson ∧
    parseSidekickPayload scenarioParse ("```json\n" ++ sampleJson ++ "\n```")
      = parseSidekickPayload scenarioParse sampleJson :=
  ⟨(stripCodeFence_fenced sampleJson (by decide) (by decide)).1,
   (stripCodeFence_fenced sampleJson (by decide) (by decide)).2.1,
   ((stripCodeFence_fenced sampleJson (by decide) (by decide)).2.2.1 scenarioParse).1⟩

end Server

namespace Server

theorem indexOfChar_eq_none_iff (c : Char) (cs : List Char) :
    indexOfChar c cs = none ↔ c ∉ cs := by
  induction cs with
  | nil => simp [indexOfChar]
  | cons x rest ih =>
    rw [indexOfChar]
    by_cases hx : x = c
    · simp [hx]
    · rw [if_neg hx]
      simp only [Option.map_eq_none', ih, List.mem_cons, not_or]
      exact ⟨fun h => ⟨fun hc => hx hc.symm, h⟩, fun h => h.2⟩

theorem indexOfChar_append (c : Char) (a r : List Char) (h : c ∉ a) :
    indexOfChar c (a ++ c :: r) = some a.length := by
  induction a with
  | nil => simp [indexOfChar]
  | cons x a ih =>
    have hx : x ≠ c := fun hxc => h (by rw [hxc]; exact List.mem_cons_self _ _)
    have ha : c ∉ a := fun hc => h (List.mem_cons_of_mem _ hc)
    rw [List.cons_append, indexOfChar, if_neg hx, ih ha]
    rfl

theorem indexOfChar_eq_some (c : Char) (cs : List Char) (i : Nat)
    (h : indexOfChar c cs = some i) : FirstAt c cs i := by
  induction cs generalizing i with
  | nil => simp [indexOfChar] at h
  | cons x rest ih =>
    rw [indexOfChar] at h
    by_cases hx : x = c
    · rw [if_pos hx] at h
      simp only [Option.some.injEq] at h
      exact ⟨[], rest, by rw [hx]; rfl, by simp, by rw [← h]; rfl⟩
    · rw [if_neg hx] at h
      cases hr : indexOfChar c rest with
      | none => rw [hr] at h; simp at h
      | some k =>
        rw [hr] at h
        simp only [Option.map_some', Option.some.injEq] at h
        obtain ⟨a, r, hcs, hca, hlen⟩ := ih k hr
        refine ⟨x :: a, r, by rw [hcs]; rfl, ?_, by rw [← h, ← hlen]; rfl⟩
        intro hmem
        rcases List.mem_cons.mp hmem with hc | hc
        · exact hx hc.symm
        · exact hca hc

theorem firstAt_iff (c : Char) (cs : List Char) (i : Nat) :
    FirstAt c cs i ↔ indexOfChar c cs = some i := by
  constructor
  · rintro ⟨a, r, hcs, hca, hlen⟩
    rw [hcs, indexOfChar_append c a r hca, hlen]
  · exact indexOfChar_eq_some c cs i

theorem lastIndexOfChar_eq_none_iff (c : Char) (cs : List Char) :
    lastIndexOfChar c cs = none ↔ c ∉ cs := by
  simp [lastIndexOfChar, indexOfChar_eq_none_iff]

theorem lastIndexOfChar_append (c : Char) (a r : List Char) (h : c ∉ r) :
    lastIndexOfChar c (a ++ c :: r) = some a.length := by
  have hrev : (a ++ c :: r).reverse = r.reverse ++ c :: a.reverse := by simp
  have hr : c ∉ r.reverse := by simpa using h
  rw [lastIndexOfChar, hrev, indexOfChar_append c _ _ hr]
  simp only [Option.map_some', List.length_reverse, List.length_append, List.length_cons,
    Option.some.injEq]
  omega

theorem lastIndexOfChar_eq_some (c : Char) (cs : List Char) (i : Nat)
    (h : lastIndexOfChar c cs = some i) : LastAt c cs i := by
  unfold lastIndexOfChar at h
  cases hr : indexOfChar c cs.reverse with
  | none => rw [hr] at h; simp at h
  | some k =>
    rw [hr] at h
    simp only [Option.map_some', Option.some.injEq] at h
    obtain ⟨a, r, hcs, hca, hlen⟩ := indexOfChar_eq_some c _ k hr
    have hcs' : cs = r.reverse ++ c :: a.reverse := by
      have := congrArg List.reverse hcs
      simpa using this
    refine ⟨r.reverse, a.reverse, hcs', by simpa using hca, ?_⟩
    rw [← h, hcs']
    simp only [List.length_reverse, List.length_append, List.length_cons]
    omega

theorem lastAt_iff (c : Char) (cs : List Char) (i : Nat) :
    LastAt c cs i ↔ lastIndexOfChar c cs = some i := by
  constructor
  · rintro ⟨a, r, hcs, hcr, hlen⟩
    rw [hcs, lastIndexOfChar_append c a r hcr, hlen]
  · exact lastIndexOfChar_eq_some c cs i

/-- When the direct decoding fails, the slice from the first `{` to the last
`}` is decoded. -/
theorem decodeJson_slice (jsonParse : String → Option JsValue) (cleaned : String)
    (a m b : List Char) (hdirect : jsonParse cleaned = none)
    (hshape : cleaned.data = a ++ '{' :: (m ++ '}' :: b)) (ha : '{' ∉ a) (hb : '}' ∉ b) :
    decodeJson jsonParse cleaned
      = match jsonParse ⟨'{' :: (m ++ ['}'])⟩ with
        | some parsed => .ok parsed
        | none => .error .syntaxError := by
  have hfirst : indexOfChar '{' cleaned.data = some a.length := by
    rw [hshape, indexOfChar_append '{' a _ ha]
  have hlast : lastIndexOfChar '}' cleaned.data = some (a.length + 1 + m.length) := by
    have : cleaned.data = (a ++ '{' :: m) ++ '}' :: b := by rw [hshape]; simp
    rw [this, lastIndexOfChar_append '}' _ b hb]
    simp
    omega
  have hslice : (cleaned.data.take (a.length + 1 + m.length + 1)).drop a.length
      = '{' :: (m ++ ['}']) := by
    have h1 : cleaned.data = (a ++ '{' :: (m ++ ['}'])) ++ b := by rw [hshape]; simp
    have hlen : (a ++ '{' :: (m ++ ['}'])).length = a.length + 1 + m.length + 1 := by
      simp
      omega
    rw [h1, ← hlen, List.take_left, List.drop_left]
  simp only [decodeJson, hdirect, hfirst, hlast]
  rw [if_neg (by omega), hslice]

theorem position_ne_of_first_last (cs : List Char) (i k : Nat)
    (hi : FirstAt '{' cs i) (hk : LastAt '}' cs k) : i ≠ k := by
  obtain ⟨a, r, hcs, -, hlen⟩ := hi
  obtain ⟨a₁, r₁, hcs₁, -, hlen₁⟩ := hk
  intro heq
  have hl : a.length = a₁.length := by rw [hlen, hlen₁, heq]
  rw [hcs] at hcs₁
  have := (List.append_inj hcs₁ hl).2
  simp only [List.cons.injEq] at this
  exact absurd this.1 (by decide)

theorem decodeJson_notJson_iff (jsonParse : String → Option JsValue) (cleaned : String)
    (hdirect : jsonParse cleaned = none) :
    decodeJson jsonParse cleaned = .error .notJson ↔ BracesUnusable cleaned.data := by
  unfold BracesUnusable
  cases hf : indexOfChar '{' cleaned.data with
  | none =>
    have hno := (indexOfChar_eq_none_iff '{' cleaned.data).mp hf
    simp only [decodeJson, hdirect, hf]
    exact ⟨fun _ => Or.inl hno, fun _ => trivial⟩
  | some i =>
    have hfi : FirstAt '{' cleaned.data i := indexOfChar_eq_some _ _ _ hf
    have hyes : '{' ∈ cleaned.data := by
      obtain ⟨a, r, hcs, -, -⟩ := hfi
      rw [hcs]
      simp
    cases hl : lastIndexOfChar '}' cleaned.data with
    | none =>
      have hno := (lastIndexOfChar_eq_none_iff '}' cleaned.data).mp hl
      simp only [decodeJson, hdirect, hf, hl]
      exact ⟨fun _ => Or.inr (Or.inl hno), fun _ => trivial⟩
    | some k =>
      have hlk : LastAt '}' cleaned.data k := lastIndexOfChar_eq_some _ _ _ hl
      have hyes₂ : '}' ∈ cleaned.data := by
        obtain ⟨a, r, hcs, -, -⟩ := hlk
        rw [hcs]
        simp
      have hne := position_ne_of_first_last cleaned.data i k hfi hlk
      simp only [decodeJson, hdirect, hf, hl]
      by_cases hle : k ≤ i
      · rw [if_pos hle]
        refine ⟨fun _ => Or.inr (Or.inr ⟨i, k, hfi, hlk, by omega⟩), fun _ => rfl⟩
      · rw [if_neg hle]
        constructor
        · intro h
          exfalso
          cases hp : jsonParse ⟨(cleaned.data.take (k + 1)).drop i⟩ with
          | none => rw [hp] at h; simp at h
          | some p => rw [hp] at h; simp at h
        · rintro (h | h | ⟨i₁, k₁, hi₁, hk₁, hlt⟩)
          · exact absurd hyes h
          · exact absurd hyes₂ h
          · exfalso
            have e1 := (firstAt_iff _ _ _).mp hi₁
            have e2 := (lastAt_iff _ _ _).mp hk₁
            rw [hf] at e1
            rw [hl] at e2
            simp only [Option.some.injEq] at e1 e2
            omega

end Server
namespace Server

theorem noBrace_of_space (c : Char) (h : isJsSpace c = true) : c ≠ '{' ∧ c ≠ '}' := by
  constructor <;> rintro rfl <;> exact absurd h (by decide)

theorem trimsTo_refl (cs : List Char) : TrimsTo cs cs :=
  ⟨[], [], by simp, fun _ h => absurd h (List.not_mem_nil _), fun _ h => absurd h (List.not_mem_nil _)⟩

theorem trimsTo_trans {cs mid out : List Char} (h₁ : TrimsTo cs mid) (h₂ : TrimsTo mid out) :
    TrimsTo cs out := by
  obtain ⟨p₁, q₁, e₁, hp₁, hq₁⟩ := h₁
  obtain ⟨p₂, q₂, e₂, hp₂, hq₂⟩ := h₂
  refine ⟨p₁ ++ p₂, q₂ ++ q₁, by rw [e₁, e₂]; simp, ?_, ?_⟩
  · intro c hc
    rcases List.mem_append.mp hc with h | h
    · exact hp₁ c h
    · exact hp₂ c h
  · intro c hc
    rcases List.mem_append.mp hc with h | h
    · exact hq₂ c h
    · exact hq₁ c h

theorem trimsTo_dropWhile (cs : List Char) : TrimsTo cs (cs.dropWhile isJsSpace) := by
  refine ⟨cs.takeWhile isJsSpace, [], by simp, ?_, fun _ h => absurd h (List.not_mem_nil _)⟩
  intro c hc
  exact noBrace_of_space c (List.mem_takeWhile_imp hc)

theorem trimsTo_reverse_dropWhile (cs : List Char) :
    TrimsTo cs (cs.reverse.dropWhile isJsSpace).reverse := by
  refine ⟨[], (cs.reverse.takeWhile isJsSpace).reverse, ?_,
    fun _ h => absurd h (List.not_mem_nil _), ?_⟩
  · have h := congrArg List.reverse (List.takeWhile_append_dropWhile isJsSpace cs.reverse)
    simp only [List.reverse_append, List.reverse_reverse] at h
    simpa using h.symm
  · intro c hc
    exact noBrace_of_space c (List.mem_takeWhile_imp (List.mem_reverse.mp hc))

theorem trimsTo_trimChars (cs : List Char) : TrimsTo cs (trimChars cs) :=
  trimsTo_trans (trimsTo_dropWhile cs) (trimsTo_reverse_dropWhile _)

theorem noBrace_fenceMark : NoBrace fenceMark := by
  intro c hc
  simp only [fenceMark, List.mem_cons, List.mem_singleton, List.not_mem_nil, or_false,
    or_self] at hc
  subst hc
  decide

theorem trimsTo_drop_fence (cs : List Char) (h : fenceMark.isPrefixOf cs = true) :
    TrimsTo cs (cs.drop 3) := by
  obtain ⟨t, ht⟩ := List.isPrefixOf_iff_prefix.mp h
  refine ⟨fenceMark, [], ?_, noBrace_fenceMark, fun _ h => absurd h (List.not_mem_nil _)⟩
  rw [← ht]
  simp [fenceMark]

theorem trimsTo_drop_jsonWord (cs : List Char) (h : startsWithJsonWord cs = true) :
    TrimsTo cs (cs.drop 4) := by
  unfold startsWithJsonWord at h
  split at h
  · rename_i a b c d tail
    refine ⟨[a, b, c, d], [], by simp, ?_, fun _ h => absurd h (List.not_mem_nil _)⟩
    simp only [Bool.and_eq_true, Bool.or_eq_true, decide_eq_true_eq] at h
    obtain ⟨⟨⟨ha, hb⟩, hc⟩, hd⟩ := h
    intro x hx
    simp only [List.mem_cons, List.mem_singleton, List.not_mem_nil, or_false] at hx
    rcases hx with rfl | rfl | rfl | rfl
    · rcases ha with rfl | rfl <;> decide
    · rcases hb with rfl | rfl <;> decide
    · rcases hc with rfl | rfl <;> decide
    · rcases hd with rfl | rfl <;> decide
  · exact absurd h (by simp)

theorem trimsTo_stripOpeningFence (cs : List Char) : TrimsTo cs (stripOpeningFence cs) := by
  unfold stripOpeningFence
  split_ifs with hf hw
  · exact trimsTo_trans (trimsTo_trans (trimsTo_drop_fence cs hf) (trimsTo_drop_jsonWord _ hw))
      (trimsTo_dropWhile _)
  · exact trimsTo_trans (trimsTo_drop_fence cs hf) (trimsTo_dropWhile _)
  · exact trimsTo_refl cs

theorem trimsTo_of_reverse {cs out : List Char} (h : TrimsTo cs.reverse out) :
    TrimsTo cs out.reverse := by
  obtain ⟨p, q, e, hp, hq⟩ := h
  refine ⟨q.reverse, p.reverse, ?_, fun c hc => hq c (List.mem_reverse.mp hc),
    fun c hc => hp c (List.mem_reverse.mp hc)⟩
  have := congrArg List.reverse e
  simpa using this

theorem trimsTo_stripClosingFence (cs : List Char) : TrimsTo cs (stripClosingFence cs) := by
  unfold stripClosingFence
  split_ifs with hf
  · exact trimsTo_of_reverse
      (trimsTo_trans (trimsTo_drop_fence cs.reverse hf) (trimsTo_dropWhile _))
  · exact trimsTo_refl cs

theorem trimsTo_stripCodeFence (rawText : String) :
    TrimsTo rawText.data (stripCodeFence rawText).data := by
  unfold stripCodeFence
  dsimp only
  split_ifs
  · exact trimsTo_trans (trimsTo_trimChars rawText.data)
      (trimsTo_trans (trimsTo_stripOpeningFence _)
        (trimsTo_trans (trimsTo_stripClosingFence _) (trimsTo_trimChars _)))
  · exact trimsTo_trimChars rawText.data

theorem indexOfChar_of_trimsTo (c : Char) (cs out : List Char) (p q : List Char)
    (e : cs = p ++ (out ++ q)) (hp : c ∉ p) (hq : c ∉ q) :
    indexOfChar c cs = (indexOfChar c out).map (p.length + ·) := by
  cases ho : indexOfChar c out with
  | none =>
    have hno := (indexOfChar_eq_none_iff c out).mp ho
    simp only [Option.map_none']
    rw [indexOfChar_eq_none_iff, e]
    simp [hp, hq, hno]
  | some i =>
    obtain ⟨a, r, hout, hca, hlen⟩ := indexOfChar_eq_some c out i ho
    have e' : cs = (p ++ a) ++ c :: (r ++ q) := by rw [e, hout]; simp
    rw [e', indexOfChar_append c (p ++ a) _ (by simp [hp, hca])]
    simp [hlen]

theorem lastIndexOfChar_of_trimsTo (c : Char) (cs out : List Char) (p q : List Char)
    (e : cs = p ++ (out ++ q)) (hp : c ∉ p) (hq : c ∉ q) :
    lastIndexOfChar c cs = (lastIndexOfChar c out).map (p.length + ·) := by
  cases ho : lastIndexOfChar c out with
  | none =>
    have hno := (lastIndexOfChar_eq_none_iff c out).mp ho
    simp only [Option.map_none']
    rw [lastIndexOfChar_eq_none_iff, e]
    simp [hp, hq, hno]
  | some i =>
    obtain ⟨a, r, hout, hcr, hlen⟩ := lastIndexOfChar_eq_some c out i ho
    have e' : cs = (p ++ a) ++ c :: (r ++ q) := by rw [e, hout]; simp
    rw [e', lastIndexOfChar_append c (p ++ a) _ (by simp [hq, hcr])]
    simp [hlen]

theorem bracesUnusable_iff (cs : List Char) :
    BracesUnusable cs ↔
      (indexOfChar '{' cs = none ∨ lastIndexOfChar '}' cs = none ∨
        ∃ i k, indexOfChar '{' cs = some i ∧ lastIndexOfChar '}' cs = some k ∧ k < i) := by
  unfold BracesUnusable
  simp only [indexOfChar_eq_none_iff, lastIndexOfChar_eq_none_iff, firstAt_iff, lastAt_iff]

theorem bracesUnusable_of_trimsTo (cs out : List Char) (h : TrimsTo cs out) :
    BracesUnusable cs ↔ BracesUnusable out := by
  obtain ⟨p, q, e, hp, hq⟩ := h
  have hp₁ : '{' ∉ p := fun hc => (hp _ hc).1 rfl
  have hq₁ : '{' ∉ q := fun hc => (hq _ hc).1 rfl
  have hp₂ : '}' ∉ p := fun hc => (hp _ hc).2 rfl
  have hq₂ : '}' ∉ q := fun hc => (hq _ hc).2 rfl
  rw [bracesUnusable_iff, bracesUnusable_iff,
    indexOfChar_of_trimsTo '{' cs out p q e hp₁ hq₁,
    lastIndexOfChar_of_trimsTo '}' cs out p q e hp₂ hq₂]
  cases indexOfChar '{' out with
  | none => simp
  | some i =>
    cases lastIndexOfChar '}' out with
    | none => simp
    | some k => simp

/-- A text made of prose without `{`, an object text and prose without `}`
keeps that shape when a prefix and a suffix without braces are removed. -/
theorem shape_of_trimsTo (pre m post out : List Char)
    (h : TrimsTo (pre ++ ('{' :: (m ++ ['}']) ++ post)) out)
    (hpre : '{' ∉ pre) (hpost : '}' ∉ post) :
    ∃ a b, out = a ++ '{' :: (m ++ '}' :: b) ∧ '{' ∉ a ∧ '}' ∉ b := by
  obtain ⟨p, q, e, hp, hq⟩ := h
  have hp₁ : '{' ∉ p := fun hc => (hp _ hc).1 rfl
  have hq₂ : '}' ∉ q := fun hc => (hq _ hc).2 rfl
  -- the removed prefix lies inside `pre`
  have hleft : ∃ a, pre = p ++ a ∧ out ++ q = a ++ ('{' :: (m ++ ['}']) ++ post) := by
    rcases List.append_eq_append_iff.mp e with ⟨a₁, h₁, h₂⟩ | ⟨c₁, h₁, h₂⟩
    · cases a₁ with
      | nil =>
        refine ⟨[], by simpa using h₁.symm, ?_⟩
        simpa using h₂.symm
      | cons x a₂ =>
        exfalso
        simp only [List.cons_append, List.cons.injEq] at h₂
        apply hp₁
        rw [h₁, ← h₂.1]
        simp
    · exact ⟨c₁, h₁, h₂⟩
  obtain ⟨a, hpa, e₂⟩ := hleft
  have ha : '{' ∉ a := fun hc => hpre (by rw [hpa]; exact List.mem_append_right _ hc)
  have e₃ : out ++ q = (a ++ '{' :: (m ++ ['}'])) ++ post := by rw [e₂]; simp
  rcases List.append_eq_append_iff.mp e₃ with ⟨b₁, h₁, h₂⟩ | ⟨c₁, h₁, h₂⟩
  · cases b₁ with
    | nil =>
      refine ⟨a, [], ?_, ha, by simp⟩
      have : out = a ++ '{' :: (m ++ ['}']) := by simpa using h₁.symm
      rw [this]
    | cons x b₂ =>
      exfalso
      have hrev := congrArg List.reverse h₁
      simp only [List.reverse_append, List.reverse_cons, List.append_assoc, List.reverse_nil,
        List.nil_append, List.singleton_append, List.cons_append] at hrev
      have hlast : '}' ∈ x :: b₂ := by
        cases hb : b₂.reverse with
        | nil =>
          rw [hb] at hrev
          simp only [List.nil_append, List.cons.injEq] at hrev
          rw [← hrev.1]
          exact List.mem_cons_self _ _
        | cons y t =>
          rw [hb] at hrev
          simp only [List.cons_append, List.cons.injEq] at hrev
          have hy : '}' ∈ b₂.reverse := by
            rw [hb, hrev.1]
            exact List.mem_cons_self _ _
          exact List.mem_cons_of_mem _ (List.mem_reverse.mp hy)
      apply hq₂
      rw [h₂]
      exact List.mem_append_left _ hlast
  · refine ⟨a, c₁, ?_, ha, fun hc => hpost (by rw [h₂]; exact List.mem_append_left _ hc)⟩
    rw [h₁]
    simp

end Server
namespace Server

theorem parseSidekickPayload_notJson_iff (jsonParse : String → Option JsValue)
    (rawText : String) :
    parseSidekickPayload jsonParse rawText = .error .notJson ↔
      decodeJson jsonParse (stripCodeFence rawText) = .error .notJson := by
  unfold parseSidekickPayload
  cases hd : decodeJson jsonParse (stripCodeFence rawText) with
  | error e => simp
  | ok parsed =>
    cases parsed <;> simp <;> split_ifs <;> simp

theorem stripCodeFence_object_text (j : String) (m : List Char)
    (hj : j.data = '{' :: (m ++ ['}'])) : stripCodeFence j = j := by
  have htrim : jsTrim j = j := by
    apply String.ext
    simp only [jsTrim]
    rw [hj]
    apply trimChars_eq_self
    · rw [List.dropWhile_cons, if_neg (by decide)]
    · have : ('{' :: (m ++ ['}'])).reverse = '}' :: (m.reverse ++ ['{']) := by simp
      rw [this, List.dropWhile_cons, if_neg (by decide)]
  rw [stripCodeFence_of_no_fence j (by rw [htrim, hj]; simp [fenceMark, List.isPrefixOf]), htrim]

theorem decodeJson_object_text (jsonParse : String → Option JsValue) (j : String)
    (m : List Char) (hj : j.data = '{' :: (m ++ ['}'])) :
    decodeJson jsonParse j
      = match jsonParse j with
        | some parsed => .ok parsed
        | none => .error .syntaxError := by
  cases hp : jsonParse j with
  | some parsed => simp [decodeJson, hp]
  | none =>
    have hmk : (⟨'{' :: (m ++ ['}'])⟩ : String) = j := String.ext hj.symm
    have h := decodeJson_slice jsonParse j [] m [] hp (by rw [hj]; simp) (by simp) (by simp)
    rw [hmk, hp] at h
    exact h

/-- C16: for every raw model text whose fence-stripped form does not decode
directly, `parseSidekickPayload` decodes the slice of that form from its first
`{` to its last `}`; so for an object text `j` between leading prose without
`{` and trailing prose without `}` the result equals `parseSidekickPayload(j)`;
and it throws `Model response was not valid JSON.` exactly when the text (the
fence-stripped form, or just as well the raw text) has no `{`, has no `}`, or
its last `}` comes before its first `{`. -/
theorem parseSidekickPayload_fallback (jsonParse : String → Option JsValue) (rawText : String)
    (hdirect : jsonParse (stripCodeFence rawText) = none) :
    (∀ a m b, (stripCodeFence rawText).data = a ++ '{' :: (m ++ '}' :: b) →
      '{' ∉ a → '}' ∉ b →
      decodeJson jsonParse (stripCodeFence rawText)
        = match jsonParse ⟨'{' :: (m ++ ['}'])⟩ with
          | some parsed => .ok parsed
          | none => .error .syntaxError) ∧
    (∀ (pre j post : String) (m : List Char), rawText = pre ++ j ++ post →
      j.data = '{' :: (m ++ ['}']) → '{' ∉ pre.data → '}' ∉ post.data →
      parseSidekickPayload jsonParse rawText = parseSidekickPayload jsonParse j) ∧
    (parseSidekickPayload jsonParse rawText = .error .notJson ↔
      BracesUnusable (stripCodeFence rawText).data) ∧
    (parseSidekickPayload jsonParse rawText = .error .notJson ↔
      BracesUnusable rawText.data) := by
  have hA : ∀ a m b, (stripCodeFence rawText).data = a ++ '{' :: (m ++ '}' :: b) →
      '{' ∉ a → '}' ∉ b →
      decodeJson jsonParse (stripCodeFence rawText)
        = match jsonParse ⟨'{' :: (m ++ ['}'])⟩ with
          | some parsed => .ok parsed
          | none => .error .syntaxError :=
    fun a m b hshape ha hb => decodeJson_slice jsonParse _ a m b hdirect hshape ha hb
  have hC : parseSidekickPayload jsonParse rawText = .error .notJson ↔
      BracesUnusable (stripCodeFence rawText).data := by
    rw [parseSidekickPayload_notJson_iff, decodeJson_notJson_iff jsonParse _ hdirect]
  refine ⟨hA, ?_, hC, ?_⟩
  · intro pre j post m hraw hj hpre hpost
    have hdata : rawText.data = pre.data ++ ('{' :: (m ++ ['}']) ++ post.data) := by
      rw [hraw]
      simp [String.data_append, hj]
    have htrims := trimsTo_stripCodeFence rawText
    rw [hdata] at htrims
    obtain ⟨a, b, hshape, ha, hb⟩ := shape_of_trimsTo pre.data m post.data _ htrims hpre hpost
    have hmk : (⟨'{' :: (m ++ ['}'])⟩ : String) = j := String.ext hj.symm
    have h1 := hA a m b hshape ha hb
    rw [hmk] at h1
    have h2 := decodeJson_object_text jsonParse j m hj
    simp only [parseSidekickPayload, h1, stripCodeFence_object_text j m hj, h2]
  · rw [hC]
    exact (bracesUnusable_of_trimsTo _ _ (trimsTo_stripCodeFence rawText)).symm

/-- C16, at an object text between two pieces of prose, and at prose without
braces. -/
theorem parseSidekickPayload_fallback_witness :
    parseSidekickPayload scenarioParse
        ("Sure: " ++ "\x7b\"summary\":\"Only a summary\"\x7d" ++ " ok")
      = parseSidekickPayload scenarioParse "\x7b\"summary\":\"Only a summary\"\x7d" ∧
    parseSidekickPayload scenarioParse "I cannot help with that." = .error .notJson :=
  ⟨(parseSidekickPayload_fallback scenarioParse
      ("Sure: " ++ "\x7b\"summary\":\"Only a summary\"\x7d" ++ " ok") rfl).2.1
      "Sure: " "\x7b\"summary\":\"Only a summary\"\x7d" " ok"
      "\"summary\":\"Only a summary\"".data rfl rfl (by decide) (by decide),
   (parseSidekickPayload_fallback scenarioParse "I cannot help with that." rfl).2.2.2.mpr
      (Or.inl (by decide))⟩

end Server

namespace Server

theorem getSafeApiError_status (status : Option Int) (message : Option String)
    (fallbackMessage : String) :
    (getSafeApiError status message fallbackMessage).status
      = if status = some 401 then 401 else if status = some 429 then 429 else 500 := by
  unfold getSafeApiError
  split_ifs <;> rfl

/-- C17 (as stated, refuted): the model answers with prose that is no JSON
text; the handler responds with status 500, not 422. -/
theorem sidekickHandler_prose_counterexample :
    SidekickRequestSchema (.obj []) = true ∧
    parseSidekickPayload scenarioParse "I cannot help with that." = .error .notJson ∧
    (sidekickHandler scenarioParse true (.obj [])
      (.resolved (some "I cannot help with that."))).status = 500 := by
  refine ⟨by decide, rfl, by decide⟩

/-- C17 (amended): in the `/api/sidekick` handler, with the key set and a valid
request, a model output that decodes but violates the field constraints (the
schema throws) gets status 422; a model output that cannot be decoded (not
JSON, or `null`) gets status 500; when the call of the generation service
fails, the status is 401 or 429 exactly when the upstream error carries that
numeric status and 500 otherwise; and a decoded, valid output gets 200. -/
theorem sidekickHandler_status (jsonParse : String → Option JsValue) (body : JsValue)
    (hbody : SidekickRequestSchema body = true) :
    (∀ content,
      (parseSidekickPayload jsonParse (content.getD "\x7b\x7d") = .error .zodError →
        (sidekickHandler jsonParse true body (.resolved content)).status = 422) ∧
      (∀ e, e ≠ .zodError →
        parseSidekickPayload jsonParse (content.getD "\x7b\x7d") = .error e →
        (sidekickHandler jsonParse true body (.resolved content)).status = 500) ∧
      (∀ value, parseSidekickPayload jsonParse (content.getD "\x7b\x7d") = .ok value →
        sidekickHandler jsonParse true body (.resolved content) = ⟨200, some value⟩)) ∧
    (∀ status message,
      ((sidekickHandler jsonParse true body (.rejected status message)).status = 401 ↔
        status = some 401) ∧
      ((sidekickHandler jsonParse true body (.rejected status message)).status = 429 ↔
        status = some 429) ∧
      (status ≠ some 401 → status ≠ some 429 →
        (sidekickHandler jsonParse true body (.rejected status message)).status = 500)) ∧
    (∀ completion,
      (sidekickHandler jsonParse true body completion).status = 401 →
      ∃ message, completion = .rejected (some 401) message) ∧
    (∀ completion,
      (sidekickHandler jsonParse true body completion).status = 429 →
      ∃ message, completion = .rejected (some 429) message) := by
  have hresolved : ∀ content,
      (sidekickHandler jsonParse true body (.resolved content)).status
        = match parseSidekickPayload jsonParse (content.getD "\x7b\x7d") with
          | .ok _ => 200
          | .error .zodError => 422
          | .error _ => 500 := by
    intro content
    simp only [sidekickHandler, hbody]
    cases hp : parseSidekickPayload jsonParse (content.getD "\x7b\x7d") with
    | ok value => simp
    | error e => cases e <;> simp [getSafeApiError_status]
  have hrejected : ∀ status message,
      (sidekickHandler jsonParse true body (.rejected status message)).status
        = if status = some 401 then 401 else if status = some 429 then 429 else 500 := by
    intro status message
    simp only [sidekickHandler, hbody, getSafeApiError_status]
    simp
  refine ⟨?_, ?_, ?_, ?_⟩
  · intro content
    refine ⟨?_, ?_, ?_⟩
    · intro h
      rw [hresolved, h]
    · intro e he h
      rw [hresolved, h]
      cases e <;> first | rfl | exact absurd rfl he
    · intro value h
      simp [sidekickHandler, hbody, h]
  · intro status message
    rw [hrejected]
    refine ⟨?_, ?_, ?_⟩
    · split_ifs with h1 h2 <;> simp [h1]
    · split_ifs with h1 h2
      · simp [h1]
      · simp [h2]
      · simp [h2]
    · intro h1 h2
      rw [if_neg h1, if_neg h2]
  · intro completion h
    cases completion with
    | rejected status message =>
      rw [hrejected] at h
      by_cases h1 : status = some 401
      · exact ⟨message, by rw [h1]⟩
      · rw [if_neg h1] at h
        split_ifs at h <;> omega
    | resolved content =>
      rw [hresolved] at h
      split at h <;> simp at h
  · intro completion h
    cases completion with
    | rejected status message =>
      rw [hrejected] at h
      by_cases h2 : status = some 429
      · exact ⟨message, by rw [h2]⟩
      · split_ifs at h <;> omega
    | resolved content =>
      rw [hresolved] at h
      split at h <;> simp at h

/-- C17 (amended), at an empty request body: an object with a summary only
gets 422, an upstream error with status 429 gets 429. -/
theorem sidekickHandler_status_witness :
    (sidekickHandler scenarioParse true (.obj [])
      (.resolved (some "\x7b\"summary\":\"Only a summary\"\x7d"))).status = 422 ∧
    (sidekickHandler scenarioParse true (.obj [])
      (.rejected (some 429) (some "Too many requests"))).status = 429 :=
  ⟨((sidekickHandler_status scenarioParse (.obj []) (by decide)).1
      (some "\x7b\"summary\":\"Only a summary\"\x7d")).1 rfl,
   ((sidekickHandler_status scenarioParse (.obj []) (by decide)).2.1
      (some 429) (some "Too many requests")).2.1.mpr rfl⟩

end Server

/-! ## The conversation history: theorems -/

/-- C18 (the code at the failing interleaving): a turn is sent while the forced
refresh of `stopRecording` is outstanding; when that refresh settles,
`stopRecording` appends the final transcript and the preview to the history;
when the turn settles, `runTurn` sets the history to the messages it captured
at the send plus the reply, so the two appended messages are gone and the
previous history is not a prefix of the new one. -/
theorem turn_completion_drops_messages :
    Reachable turnDuringStopState ∧
    turnDuringStopState.calls.map Call.isRefresh = [false] ∧
    historyOf turnDuringStopState
      = [(.assistant,
          "Describe your project and I will build a live summary, architecture sketch, and next-step plan."),
         (.user, "hello"), (.user, "a long enough transcript"), (.assistant, "Noted.")] ∧
    historyOf (step turnDuringStopState (.settle 0 (.ok samplePayload)))
      = [(.assistant,
          "Describe your project and I will build a live summary, architecture sketch, and next-step plan."),
         (.user, "hello"), (.assistant, "Noted.")] ∧
    ¬ historyOf turnDuringStopState
        <+: historyOf (step turnDuringStopState (.settle 0 (.ok samplePayload))) := by
  refine ⟨⟨true, none,
    [.startRecording, .micGranted, .transcribed (.text "a long enough transcript"),
      .stopRecording, .stopDrained (.text "a long enough transcript"), .setInput "hello",
      .handleSend, .settle 0 (.ok samplePayload)], rfl⟩, ?_⟩
  decide

/-! ## The transcription queue: theorems -/

theorem range_of_append_eq_range {l w : List Nat} {n : Nat} (h : l ++ w = List.range n) :
    l = List.range l.length := by
  have hlen : l.length ≤ n := by
    have := congrArg List.length h
    simp at this
    omega
  have h1 : (l ++ w).take l.length = l := by simp
  rw [h, List.take_range, Nat.min_eq_left hlen] at h1
  exact h1.symm

theorem sessionInvariant_initialQueue : SessionInvariant initialQueue := by
  refine ⟨?_, rfl, rfl, ?_, ?_⟩ <;> simp [initialQueue]

/-- A session started while no transcription call is outstanding keeps the
invariant. -/
theorem sessionInvariant_start (s : QueueState) (h : SessionInvariant s)
    (hidle : s.transcribeQueueRef.running = none) :
    SessionInvariant (queueStep s .startRecording) := by
  obtain ⟨isRec, audio, n, ⟨running, waiting⟩, replaced, started, settled, failed⟩ := s
  obtain ⟨h1, h2, h3, h4, h5⟩ := h
  simp only at h1 h2 h3 h4 h5 hidle
  subst hidle
  have hw : waiting = [] := by
    by_contra hne
    exact h4 hne rfl
  subst hw
  simp only [queueStep]
  split_ifs
  · exact ⟨h1, h2, h3, h4, h5⟩
  · refine ⟨?_, ?_, ?_, ?_, ?_⟩
    · intro c hc
      simp only [List.mem_cons] at hc
      rcases hc with hc | hc
      · rw [hc]
      · exact h1 c hc
    · simpa using h2
    · simpa using h3
    · simp
    · simp

theorem outstandingJobs_of_idle (s : QueueState) (h : ∀ c ∈ s.replaced, c.running = none) :
    outstandingJobs s = s.transcribeQueueRef.running.toList := by
  have hnil : ∀ l : List Chain, (∀ c ∈ l, c.running = none) →
      l.filterMap (fun c => c.running) = [] := by
    intro l
    induction l with
    | nil => intro _; rfl
    | cons c rest ih =>
      intro hl
      rw [List.filterMap_cons, hl c (List.mem_cons_self _ _)]
      exact ih (fun c2 h2 => hl c2 (List.mem_cons_of_mem _ h2))
  unfold outstandingJobs
  rw [List.filterMap_cons]
  cases hr : s.transcribeQueueRef.running with
  | none => simpa using hnil _ h
  | some job => simpa using hnil _ h

theorem sessionInvariant_chainJob (s : QueueState) (h : SessionInvariant s) :
    SessionInvariant (chainJob s) := by
  obtain ⟨isRec, audio, n, ⟨running, waiting⟩, replaced, started, settled, failed⟩ := s
  obtain ⟨h1, h2, h3, h4, h5⟩ := h
  simp only at h1 h2 h3 h4 h5
  cases running with
  | some job =>
    refine ⟨h1, ?_, ?_, ?_, ?_⟩
    · simp [chainJob, advance, List.range_succ, ← h2]
    · simpa [chainJob, advance] using h3
    · simp [chainJob, advance]
    · simpa [chainJob, advance] using h5
  | none =>
    have hw : waiting = [] := by
      by_contra hne
      exact h4 hne rfl
    subst hw
    simp only [List.append_nil, Option.toList] at h2 h3
    by_cases ha : audio = 0
    · refine ⟨h1, ?_, ?_, ?_, ?_⟩
      · simp [chainJob, advance, ha, List.range_succ, ← h2]
      · simp [chainJob, advance, ha, h3]
      · simp [chainJob, advance, ha]
      · simp [chainJob, advance, ha]
    · refine ⟨h1, ?_, ?_, ?_, ?_⟩
      · simp [chainJob, advance, ha, List.range_succ, ← h2]
      · simp [chainJob, advance, ha, h3]
      · simp [chainJob, advance, ha]
      · simp [chainJob, advance, ha]
        omega

theorem sessionInvariant_settle (s : QueueState) (ok : Bool) (h : SessionInvariant s) :
    SessionInvariant (queueStep s (.settle 0 ok)) := by
  obtain ⟨isRec, audio, n, ⟨running, waiting⟩, replaced, started, settled, failed⟩ := s
  obtain ⟨h1, h2, h3, h4, h5⟩ := h
  simp only at h1 h2 h3 h4 h5
  cases running with
  | none =>
    refine ⟨h1, ?_, ?_, ?_, ?_⟩
    · simpa [queueStep, settleChain] using h2
    · simpa [queueStep, settleChain] using h3
    · simpa [queueStep, settleChain] using h4
    · simp [queueStep, settleChain]
  | some job =>
    have ha : audio ≠ 0 := by
      have := h5 (by simp)
      omega
    simp only [Option.toList] at h3
    cases waiting with
    | nil =>
      refine ⟨h1, ?_, ?_, ?_, ?_⟩
      · simpa [queueStep, settleChain, advance] using h2
      · simpa [queueStep, settleChain, advance] using h3
      · simp [queueStep, settleChain, advance]
      · simp [queueStep, settleChain, advance]
    | cons next rest =>
      refine ⟨h1, ?_, ?_, ?_, ?_⟩
      · simpa [queueStep, settleChain, advance, ha] using h2
      · simp [queueStep, settleChain, advance, ha, ← h3]
      · simp [queueStep, settleChain, advance, ha]
      · simp [queueStep, settleChain, advance, ha]
        omega

theorem sessionInvariant_step (s : QueueState) (e : QueueEvent) (h : SessionInvariant s)
    (he : e ≠ QueueEvent.startRecording) : SessionInvariant (queueStep s e) := by
  cases e with
  | startRecording => exact absurd rfl he
  | dataAvailable size =>
    simp only [queueStep]
    split_ifs
    · apply sessionInvariant_chainJob
      obtain ⟨h1, h2, h3, h4, h5⟩ := h
      exact ⟨h1, h2, h3, h4, fun hr => Nat.succ_pos _⟩
    · exact h
  | stopRecording =>
    simp only [queueStep]
    split_ifs
    · apply sessionInvariant_chainJob
      exact h
    · exact h
  | settle chain ok =>
    cases chain with
    | zero => exact sessionInvariant_settle s ok h
    | succ i =>
      simp only [queueStep]
      cases hc : s.replaced.get? i with
      | none => exact h
      | some c =>
        have hidle : c.running = none := h.1 c (List.get?_mem hc)
        obtain ⟨h1, h2, h3, h4, h5⟩ := h
        refine ⟨?_, ?_, ?_, h4, h5⟩
        · intro c2 hc2
          simp only [settleChain, hidle] at hc2
          rcases List.mem_or_eq_of_mem_set hc2 with hm | hm
          · exact h1 c2 hm
          · rw [hm]; exact hidle
        · simpa [settleChain, hidle] using h2
        · simpa [settleChain, hidle] using h3

theorem sessionInvariant_run (events : List QueueEvent) :
    ∀ s : QueueState, SessionInvariant s → (∀ e ∈ events, e ≠ QueueEvent.startRecording) →
      SessionInvariant (queueRun s events) := by
  induction events with
  | nil => intro s h _; exact h
  | cons e rest ih =>
    intro s h hev
    simp only [queueRun, List.foldl_cons]
    exact ih _ (sessionInvariant_step s e h (hev e (List.mem_cons_self _ _)))
      (fun e2 h2 => hev e2 (List.mem_cons_of_mem _ h2))

theorem sessionState_append (s : QueueState) (events : List QueueEvent) (e : QueueEvent) :
    sessionState s (events ++ [e]) = queueStep (sessionState s events) e := by
  simp [sessionState, queueRun, List.foldl_append]

/-- What the promise chain does achieve: in a session started while no
transcription call is outstanding, whatever sessions came before, at most one
call is outstanding; the jobs started are the first jobs chained, in the order
of chaining; every started job but the outstanding one has settled; the jobs
not yet started wait in the order of chaining; and when the outstanding call
settles, by returning or by throwing, the job is settled, the next waiting job
starts its call, and the job is logged as failed exactly when the call threw. -/
theorem queue_serialises_within_session (s : QueueState) (events : List QueueEvent)
    (hinv : SessionInvariant s) (hidle : s.transcribeQueueRef.running = none)
    (hsession : ∀ e ∈ events, e ≠ QueueEvent.startRecording) :
    (outstandingJobs (sessionState s events)).length ≤ 1 ∧
    (sessionState s events).started = List.range (sessionState s events).started.length ∧
    (sessionState s events).settled ++ outstandingJobs (sessionState s events)
      = (sessionState s events).started ∧
    (sessionState s events).started ++ (sessionState s events).transcribeQueueRef.waiting
      = List.range (sessionState s events).chained ∧
    ∀ (ok : Bool) (job next : Nat) (rest : List Nat),
      (sessionState s events).transcribeQueueRef.running = some job →
      (sessionState s events).transcribeQueueRef.waiting = next :: rest →
      outstandingJobs (sessionState s (events ++ [.settle 0 ok])) = [next] ∧
      (sessionState s (events ++ [.settle 0 ok])).settled
        = (sessionState s events).settled ++ [job] ∧
      (sessionState s (events ++ [.settle 0 ok])).started
        = (sessionState s events).started ++ [next] ∧
      (sessionState s (events ++ [.settle 0 ok])).failed
        = (sessionState s events).failed ++ (if ok then [] else [job]) := by
  have hinv2 : SessionInvariant (sessionState s events) :=
    sessionInvariant_run events _ (sessionInvariant_start s hinv hidle) hsession
  have hout : outstandingJobs (sessionState s events)
      = (sessionState s events).transcribeQueueRef.running.toList :=
    outstandingJobs_of_idle _ hinv2.1
  obtain ⟨h1, h2, h3, h4, h5⟩ := hinv2
  refine ⟨?_, range_of_append_eq_range h2, ?_, h2, ?_⟩
  · rw [hout]
    cases (sessionState s events).transcribeQueueRef.running <;> simp [Option.toList]
  · rw [hout]
    exact h3
  · intro ok job next rest hrun hwait
    have ha : (sessionState s events).audioChunksRef ≠ 0 := by
      have := h5 (by simp [hrun])
      omega
    rw [sessionState_append]
    generalize sessionState s events = u at *
    obtain ⟨isRec, audio, n, ⟨running, waiting⟩, replaced, started, settled, failed⟩ := u
    simp only at h1 hrun hwait ha
    subst hrun hwait
    refine ⟨?_, ?_, ?_, ?_⟩
    · rw [outstandingJobs_of_idle _ (by simpa [queueStep] using h1)]
      simp [queueStep, settleChain, advance, ha]
    · simp [queueStep, settleChain, advance, ha]
    · simp [queueStep, settleChain, advance, ha]
    · simp [queueStep, Option.toList]

/-- The first session after the mount, with three segments and a first call
that throws: the second job has started, the first is settled and logged as
failed. -/
theorem queue_serialises_within_session_example :
    outstandingJobs (sessionState initialQueue [.dataAvailable 1, .dataAvailable 1,
        .dataAvailable 1, .settle 0 false]) = [1] ∧
    (sessionState initialQueue [.dataAvailable 1, .dataAvailable 1,
        .dataAvailable 1, .settle 0 false]).failed = [0] ∧
    (sessionState initialQueue [.dataAvailable 1, .dataAvailable 1, .dataAvailable 1,
        .settle 0 false]).settled ++ outstandingJobs (sessionState initialQueue
        [.dataAvailable 1, .dataAvailable 1, .dataAvailable 1, .settle 0 false])
      = (sessionState initialQueue [.dataAvailable 1, .dataAvailable 1, .dataAvailable 1,
        .settle 0 false]).started :=
  ⟨by decide, by decide,
    (queue_serialises_within_session initialQueue
      [.dataAvailable 1, .dataAvailable 1, .dataAvailable 1, .settle 0 false]
      sessionInvariant_initialQueue rfl (by decide)).2.2.1⟩

/-- C19 (the code at the failing interleaving): a first session delivers a
segment, whose call (job 0) stays outstanding, and is stopped, so that
`stopRecording` waits for the chain and its last pass (job 1) waits behind
job 0.  `startRecording` is then accepted: it empties `audioChunksRef` and
replaces the chain by a resolved promise.  The first segment of the second
session starts its call (job 2) at once: two transcription calls are
outstanding together, and job 2 has started before job 1, chained earlier.  When
the call of job 0 then settles, the last pass of the first session starts its
call while `audioChunksRef` holds only the segment of the second session. -/
theorem startRecording_replaces_draining_queue :
    outstandingJobs (queueRun initialQueue
      [.startRecording, .dataAvailable 1, .stopRecording]) = [0] ∧
    (queueRun initialQueue
      [.startRecording, .dataAvailable 1, .stopRecording]).transcribeQueueRef.waiting = [1] ∧
    outstandingJobs (queueRun initialQueue
      [.startRecording, .dataAvailable 1, .stopRecording, .startRecording,
        .dataAvailable 1]) = [2, 0] ∧
    (queueRun initialQueue
      [.startRecording, .dataAvailable 1, .stopRecording, .startRecording,
        .dataAvailable 1]).started = [0, 2] ∧
    (queueRun initialQueue
      [.startRecording, .dataAvailable 1, .stopRecording, .startRecording,
        .dataAvailable 1]).settled = [] ∧
    outstandingJobs (queueRun initialQueue
      [.startRecording, .dataAvailable 1, .stopRecording, .startRecording,
        .dataAvailable 1, .settle 1 true]) = [2, 1] ∧
    (queueRun initialQueue
      [.startRecording, .dataAvailable 1, .stopRecording, .startRecording,
        .dataAvailable 1, .settle 1 true]).audioChunksRef = 1 := by
  decide

end FdeSidekick
